import Mathlib

/-!
# traced_spheres.c : a shallow embedding

The renderer works on `double`s.  The embedding is written over an arbitrary
linearly ordered field `F` with a floor function; the C library functions
`sqrt` and `exp` are parameters of the definitions.  Instantiated at `ℚ` the
definitions run; instantiated at `ℝ` with `Real.sqrt` and `Real.exp` they are
the real-number model in which the theorems below are stated.  Division is the
field's, so `x / 0 = 0` where C would produce an infinity or a NaN.

C `int`s are modelled as `Int` (no wrap-around), arrays as lists, the loops
over arrays as recursion over the list with the running index.

`colorsat` draws random vectors and calls itself.  The stream of vectors
produced by the expressions `(ftype)(rand() << 31 | rand())` is an argument
`draws : Nat → F × F × F`, and the position reached in it is threaded through
the calls.  Two fuels make the model a total function: `rfuel` cuts off the
rejection loop `do ... while(vnormsq < EPS)`, `fuel` the nesting of recursive
calls; a cut-off is the fault `Fault.fuel`, which stands for a run that has
not returned.  Next to the colour an invocation yields ghost records (the
calls made below it, its samples, the number of lights tested) about which
the contracts of the recursion are stated.
-/

namespace Raytracer

/-! ## Data model (`struct color`, `struct sphere`, `struct light`) -/

structure Color (F : Type) where
  red : F
  green : F
  blue : F
deriving DecidableEq, Repr

structure Sphere (F : Type) where
  x : F
  y : F
  z : F
  r : F
  reflectivity : F
  col : Color F
deriving DecidableEq, Repr

structure Light (F : Type) where
  x : F
  y : F
  z : F
  power : Color F
deriving DecidableEq, Repr

section Defs

variable {F : Type} [LinearOrderedField F]

/-- The constant `#define EPS 0.00000000001`. -/
def EPS : F := 1 / 100000000000

/-- The constant `#define MAX_DEPTH 10`. -/
def MAX_DEPTH : Int := 10

/-- The constant `#define NEGLIGIBLE_SIGNIFICANCE 0.001`. -/
def NEGLIGIBLE_SIGNIFICANCE : F := 1 / 1000

/-- The colour `(struct color){0,0,0}`. -/
def black : Color F := ⟨0, 0, 0⟩

/-! ## The scene scan (lines 238-266 of `colorsat`, lines 365-391 of `main`) -/

/-- The two locals `bestobj` and `mint` of the scan. `mint` is not initialised
in the source, so its initial value is an argument of the scan. -/
structure Best (F : Type) where
  bestobj : Int
  mint : F
deriving DecidableEq, Repr

/-- One iteration of the loop at lines 240-266 of `colorsat`. -/
def scanBody (sqrt : F → F) (objnum : Int) (px py pz vx vy vz vnormsq : F)
    (iobj : Nat) (o : Sphere F) (st : Best F) : Best F :=
  if (iobj : Int) = objnum then st else
  let ox := o.x - px
  let oy := o.y - py
  let oz := o.z - pz
  let or := o.r
  let a := vnormsq
  let b := -2 * (vx * ox + vy * oy + vz * oz)
  let c := ox * ox + oy * oy + oz * oz - or * or
  let desc := b * b - 4 * a * c
  if desc < 0 then st else
  let t := (-b - sqrt desc) / (2 * a)
  if t ≤ 0 then st else
  if st.bestobj = -1 ∨ t < st.mint then ⟨(iobj : Int), t⟩ else st

/-- The loop `for(iobj = 0; iobj < ARRAY_SIZE(objects); iobj++)` of `colorsat`,
running over the remaining objects from index `iobj`. -/
def scanLoop (sqrt : F → F) (objnum : Int) (px py pz vx vy vz vnormsq : F) :
    List (Sphere F) → Nat → Best F → Best F
  | [], _, st => st
  | o :: os, iobj, st =>
    scanLoop sqrt objnum px py pz vx vy vz vnormsq os (iobj + 1)
      (scanBody sqrt objnum px py pz vx vy vz vnormsq iobj o st)

/-- The scan of `colorsat`: `bestobj = -1`, then the loop over all objects. -/
def scan (sqrt : F → F) (objects : List (Sphere F)) (objnum : Int)
    (px py pz vx vy vz vnormsq : F) (mint0 : F) : Best F :=
  scanLoop sqrt objnum px py pz vx vy vz vnormsq objects 0 ⟨-1, mint0⟩

/-- One iteration of the loop at lines 367-391 of `main`. -/
def mainScanBody (sqrt : F → F) (cx cy : F)
    (iobj : Nat) (o : Sphere F) (st : Best F) : Best F :=
  let ox := o.x
  let oy := o.y
  let oz := o.z
  let or := o.r
  let a := cx * cx + cy * cy + 1
  let b := -2 * (cx * ox + cy * oy + oz)
  let c := ox * ox + oy * oy + oz * oz - or * or
  let desc := b * b - 4 * a * c
  if desc < 0 then st else
  let t := (-b - sqrt desc) / (2 * a)
  if t ≤ 0 then st else
  if st.bestobj = -1 ∨ t < st.mint then ⟨(iobj : Int), t⟩ else st

/-- The object loop of `main`. -/
def mainScanLoop (sqrt : F → F) (cx cy : F) :
    List (Sphere F) → Nat → Best F → Best F
  | [], _, st => st
  | o :: os, iobj, st =>
    mainScanLoop sqrt cx cy os (iobj + 1) (mainScanBody sqrt cx cy iobj o st)

/-- The scan of `main` for the pixel with view-plane coordinates `cx`, `cy`. -/
def mainScan (sqrt : F → F) (objects : List (Sphere F)) (cx cy : F) (mint0 : F) : Best F :=
  mainScanLoop sqrt cx cy objects 0 ⟨-1, mint0⟩

/-! ### Quantities of the sphere quadratic, used to state the scan's contract -/

/-- Coefficient `b = -2 (V·(C-P))` of the sphere quadratic. -/
def quadB (o : Sphere F) (px py pz vx vy vz : F) : F :=
  -2 * (vx * (o.x - px) + vy * (o.y - py) + vz * (o.z - pz))

/-- Coefficient `c = (C-P)·(C-P) - r²` of the sphere quadratic. -/
def quadC (o : Sphere F) (px py pz : F) : F :=
  (o.x - px) * (o.x - px) + (o.y - py) * (o.y - py) + (o.z - pz) * (o.z - pz) - o.r * o.r

/-- The discriminant `b² - 4ac`. -/
def quadDesc (o : Sphere F) (px py pz vx vy vz a : F) : F :=
  quadB o px py pz vx vy vz * quadB o px py pz vx vy vz - 4 * a * quadC o px py pz

/-- The near root `(-b - sqrt desc) / (2a)`. -/
def nearRoot (sqrt : F → F) (o : Sphere F) (px py pz vx vy vz a : F) : F :=
  (-quadB o px py pz vx vy vz - sqrt (quadDesc o px py pz vx vy vz a)) / (2 * a)

/-- Sphere number `i` of the scene is a candidate with parameter `t`: it is not
the excluded object, its discriminant is non-negative and its near root is `t > 0`. -/
def Cand (sqrt : F → F) (objects : List (Sphere F)) (objnum : Int)
    (px py pz vx vy vz a : F) (i : Nat) (t : F) : Prop :=
  ∃ o, objects[i]? = some o ∧ (i : Int) ≠ objnum ∧
    0 ≤ quadDesc o px py pz vx vy vz a ∧
    t = nearRoot sqrt o px py pz vx vy vz a ∧ 0 < t

/-- The loop invariant of the scan after the objects of index below `n`: either
nothing was hit and no object below `n` is a candidate, or `bestobj` is the first
candidate below `n` whose parameter is the least one. -/
def ScanInv (sqrt : F → F) (objs : List (Sphere F)) (objnum : Int)
    (px py pz vx vy vz a : F) (n : Nat) (st : Best F) : Prop :=
  (st.bestobj = -1 ∧ ∀ i t, i < n → ¬ Cand sqrt objs objnum px py pz vx vy vz a i t) ∨
  (∃ k : Nat, st.bestobj = (k : Int) ∧ k < n ∧
    Cand sqrt objs objnum px py pz vx vy vz a k st.mint ∧
    ∀ i t, i < n → Cand sqrt objs objnum px py pz vx vy vz a i t →
      st.mint ≤ t ∧ (t = st.mint → k ≤ i))

/-- The sphere quadratic `t²(V·V) − 2t(V·(C−O)) + ((C−O)·(C−O) − r²)` at `t`. -/
def sphereQuad (o : Sphere F) (px py pz vx vy vz t : F) : F :=
  t * t * (vx * vx + vy * vy + vz * vz)
    - 2 * t * (vx * (o.x - px) + vy * (o.y - py) + vz * (o.z - pz))
    + ((o.x - px) * (o.x - px) + (o.y - py) * (o.y - py) + (o.z - pz) * (o.z - pz)
        - o.r * o.r)

/-- Squared distance between two points. -/
def distSq (ax ay az bx byy bz : F) : F :=
  (ax - bx) * (ax - bx) + (ay - byy) * (ay - byy) + (az - bz) * (az - bz)

/-- The local `at` of line 322 for the sphere `o`, the light `(lx, ly, lz)` and
`(vx, vy, vz)` = point minus light. -/
def shadowAt (sqrt : F → F) (o : Sphere F) (lx ly lz vx vy vz : F) : F :=
  (-quadB o lx ly lz vx vy vz
    - sqrt (quadDesc o lx ly lz vx vy vz (vx * vx + vy * vy + vz * vz))) / 2

/-- The condition under which the shadow loop sets `shadow=true` at the sphere `o`:
`desc >= 0` (line 320 not taken) and `at >= 0 && at <= a` (line 323). -/
def Blocks (sqrt : F → F) (o : Sphere F) (lx ly lz vx vy vz : F) : Prop :=
  0 ≤ quadDesc o lx ly lz vx vy vz (vx * vx + vy * vy + vz * vz) ∧
  0 ≤ shadowAt sqrt o lx ly lz vx vy vz ∧
  shadowAt sqrt o lx ly lz vx vy vz ≤ vx * vx + vy * vy + vz * vz

/-! ## Small functions (`sample_size`, `gradient`) and the backdrop -/

variable [FloorRing F]

/-- The conversion `(int)x` of a `double`: truncation toward zero. This is the value of
the C conversion for `x` inside the range of `int`; outside it the C conversion has no
defined value, and statements about `toInt x` are made for `x` in range. -/
def toInt (x : F) : Int := if 0 ≤ x then ⌊x⌋ else ⌈x⌉

/-- The function `int sample_size(ftype significance)`, for `2000*significance` inside
the range of `int` (see `toInt`). -/
def sample_size (significance : F) : Int := toInt (2000 * significance)

/-- The constant `#define BACKGROUND_LOW_RED .2`. -/
def BACKGROUND_LOW_RED : F := 2 / 10
/-- The constant `#define BACKGROUND_LOW_GREEN .2`. -/
def BACKGROUND_LOW_GREEN : F := 2 / 10
/-- The constant `#define BACKGROUND_LOW_BLUE .5`. -/
def BACKGROUND_LOW_BLUE : F := 5 / 10
/-- The constant `#define BACKGROUND_HIGH_RED .5`. -/
def BACKGROUND_HIGH_RED : F := 5 / 10
/-- The constant `#define BACKGROUND_HIGH_GREEN .5`. -/
def BACKGROUND_HIGH_GREEN : F := 5 / 10
/-- The constant `#define BACKGROUND_HIGH_BLUE .5`. -/
def BACKGROUND_HIGH_BLUE : F := 5 / 10

/-- The function `struct color gradient(ftype x)`. -/
def gradient (exp : F → F) (x : F) : Color F :=
  let mult := 1 / (1 + exp (-x * 10))
  ⟨BACKGROUND_LOW_RED + (BACKGROUND_HIGH_RED - BACKGROUND_LOW_RED) * mult,
   BACKGROUND_LOW_GREEN + (BACKGROUND_HIGH_GREEN - BACKGROUND_LOW_GREEN) * mult,
   BACKGROUND_LOW_BLUE + (BACKGROUND_HIGH_BLUE - BACKGROUND_LOW_BLUE) * mult⟩

/-- The colour `bg` of lines 268-269: the backdrop seen along `(vx, vy, vz)`. -/
def background (sqrt exp : F → F) (vx vy vz : F) : Color F :=
  let nonvert := sqrt (vx * vx + vz * vz)
  if nonvert < EPS then black else gradient exp (vy / nonvert)

/-! ## The shadow test and the light loop (lines 296-341) -/

/-- The shadow loop of lines 307-327, from object index `iobj` on; `true` is the
`shadow=true; break;` exit. `(lx, ly, lz)` is the light, `(vx, vy, vz)` is point minus light. -/
def shadowLoop (sqrt : F → F) (objnum : Int) (lx ly lz vx vy vz : F) :
    List (Sphere F) → Nat → Bool
  | [], _ => false
  | o :: os, iobj =>
    if (iobj : Int) = objnum then shadowLoop sqrt objnum lx ly lz vx vy vz os (iobj + 1) else
    let ox := o.x - lx
    let oy := o.y - ly
    let oz := o.z - lz
    let or := o.r
    let a := vx * vx + vy * vy + vz * vz
    let b := -2 * (vx * ox + vy * oy + vz * oz)
    let c := ox * ox + oy * oy + oz * oz - or * or
    let desc := b * b - 4 * a * c
    if desc < 0 then shadowLoop sqrt objnum lx ly lz vx vy vz os (iobj + 1) else
    let at_ := (-b - sqrt desc) / 2
    if at_ ≥ 0 ∧ at_ ≤ a then true
    else shadowLoop sqrt objnum lx ly lz vx vy vz os (iobj + 1)

/-- The value of `shadow` after the loop of lines 305-327, for the shading point
`(px, py, pz)` and the light at `(lx, ly, lz)`. -/
def shadow (sqrt : F → F) (objects : List (Sphere F)) (objnum : Int)
    (px py pz lx ly lz : F) : Bool :=
  shadowLoop sqrt objnum lx ly lz (px - lx) (py - ly) (pz - lz) objects 0

/-- The local `light_from` of line 334. -/
def lightFrom (sqrt : F → F) (sx sy sz snorm vx vy vz : F) : F :=
  let vnormsq := vx * vx + vy * vy + vz * vz
  let light_from := -(sx * vx + sy * vy + sz * vz) / (vnormsq * snorm * sqrt vnormsq)
  light_from

/-- One iteration of the light loop (lines 297-340): the new value of `ans`. -/
def lightBody (sqrt : F → F) (objects : List (Sphere F)) (objnum : Int)
    (px py pz sx sy sz snorm : F) (l : Light F) (ans : Color F) : Color F :=
  let lx := l.x
  let ly := l.y
  let lz := l.z
  let vx := px - lx
  let vy := py - ly
  let vz := pz - lz
  if shadow sqrt objects objnum px py pz lx ly lz then ans else
  let light_from := lightFrom sqrt sx sy sz snorm vx vy vz
  if light_from > 0 then
    ⟨ans.red + light_from * l.power.red,
     ans.green + light_from * l.power.green,
     ans.blue + light_from * l.power.blue⟩
  else ans

/-- The loop `for(ilight = 0; ilight < ARRAY_SIZE(lights); ilight++)`. -/
def lightLoop (sqrt : F → F) (objects : List (Sphere F)) (objnum : Int)
    (px py pz sx sy sz snorm : F) : List (Light F) → Color F → Color F
  | [], ans => ans
  | l :: ls, ans =>
    lightLoop sqrt objects objnum px py pz sx sy sz snorm ls
      (lightBody sqrt objects objnum px py pz sx sy sz snorm l ans)

/-! ## Sample directions (lines 199-236) -/

/-- A sample direction with the locals that go with it. `weight` is not set
in the reflective case of the source; it is recorded as `0` there and never read. -/
structure Dir (F : Type) where
  vx : F
  vy : F
  vz : F
  vnormsq : F
  weight : F
deriving DecidableEq, Repr

/-- The reflective case, lines 201-214. The divisors are `vnormsq = |F − P|²` and
`snorm*snorm*vnormsq`. A field quotient by zero is zero, whereas the C code then computes
with the result of a division by zero: this definition renders the source for non-zero
divisors only, and `reflectDirChecked` marks the other case. -/
def reflectDir (sx sy sz snorm fx fy fz px py pz : F) : Dir F :=
  let vx := fx - px
  let vy := fy - py
  let vz := fz - pz
  let vnormsq := vx * vx + vy * vy + vz * vz
  let dot := vx * sx + vy * sy + vz * sz
  let mult := 2 * dot / (snorm * snorm * vnormsq)
  let vx' := -vx / vnormsq + sx * mult
  let vy' := -vy / vnormsq + sy * mult
  let vz' := -vz / vnormsq + sz * mult
  ⟨vx', vy', vz', vx' * vx' + vy' * vy' + vz' * vz', 0⟩

/-- Faults of the model, none of which is a value the C function returns:
`fuel` is a computation cut off (the only way the model renders a loop that
never ends), `index` is a read of `objects[objnum]` outside the array. -/
inductive Fault where
  | fuel
  | index
deriving DecidableEq, Repr

/-- The outcome of the `do ... while(vnormsq < EPS)` loop. -/
structure Draw (F : Type) where
  vx : F
  vy : F
  vz : F
  vnormsq : F
  rng : Nat

/-- The rejection loop of lines 217-224. `draws g` is the vector produced by the
three expressions `(ftype)(rand() << 31 | rand())` at the `g`-th pass; the loop
is cut off after `rfuel` passes. -/
def drawLoop (draws : Nat → F × F × F) : Nat → Nat → Except Fault (Draw F)
  | 0, _ => .error .fuel
  | n + 1, g =>
    let vx := (draws g).1
    let vy := (draws g).2.1
    let vz := (draws g).2.2
    let vnormsq := vx * vx + vy * vy + vz * vz
    if vnormsq < EPS then drawLoop draws n (g + 1)
    else .ok ⟨vx, vy, vz, vnormsq, g + 1⟩

/-- Lines 226-234: the flip into the hemisphere of the normal, and `weight`. -/
def diffuseDir (sqrt : F → F) (sx sy sz snorm vx vy vz vnormsq : F) : Dir F :=
  let dot := vx * sx + vy * sy + vz * sz
  if dot < 0 then
    ⟨-vx, -vy, -vz, vnormsq, (-dot) / (snorm * sqrt vnormsq)⟩
  else
    ⟨vx, vy, vz, vnormsq, dot / (snorm * sqrt vnormsq)⟩

/-! ## `colorsat` -/

/-- A call of `colorsat` made by `colorsat` (ghost record): the caller's object,
depth and received significance, and the callee's. -/
structure Edge (F : Type) where
  reflective : Bool
  pobj : Int
  pdepth : Int
  psig : F
  cobj : Int
  cdepth : Int
  csig : F

/-- A processed sample of one invocation (ghost record): its direction, for a
diffuse sample `weight` and the running `weightsum`, the scan's `bestobj`, and
the colour obtained along it. -/
inductive Sample (F : Type) where
  | reflect (d : Dir F) (bestobj : Int) (c : Color F)
  | diffuse (d : Dir F) (weightsum : F) (bestobj : Int) (c : Color F)

/-- What an invocation of `colorsat` yields: the returned colour, the position
reached in the stream of random draws, and ghost records: every call made below
this invocation, this invocation's own samples, the number of lights tested. -/
structure Out (F : Type) where
  col : Color F
  rng : Nat
  edges : List (Edge F)
  samples : List (Sample F)
  nlights : Nat

/-- The locals of `colorsat` that the sample loop updates. -/
structure LoopState (F : Type) where
  weightsum : F
  from_diffusion : Color F
  reflection : Color F
  rng : Nat
  edges : List (Edge F)
  samples : List (Sample F)

/-- The type of `colorsat` (with the position in the stream of draws):
`objnum fx fy fz px py pz depth significance rng`. -/
abbrev Shader (F : Type) :=
  Int → F → F → F → F → F → F → Int → F → Nat → Except Fault (Out F)

/-- A `for(i=0; i<endat; i++)` loop with `k` passes left, the next at index `i`. -/
def forLoop {S : Type} (body : Int → S → Except Fault S) : Nat → Int → S → Except Fault S
  | 0, _, st => .ok st
  | k + 1, i, st =>
    match body i st with
    | .error e => .error e
    | .ok st' => forLoop body k (i + 1) st'

/-- The reflective case of the loop body: lines 201-214, then the scan and lines
267-281. `self` stands for `colorsat` in the recursive call, `sig0` is the significance
the invocation received, `significance` the one after `significance *= min_sig`. -/
def reflectStep (sqrt exp : F → F) (objects : List (Sphere F)) (self : Shader F)
    (objnum : Int) (obj : Sphere F) (fx fy fz px py pz : F) (depth : Int)
    (sig0 significance : F) (st : LoopState F) : Except Fault (LoopState F) :=
  let sx := px - obj.x
  let sy := py - obj.y
  let sz := pz - obj.z
  let snorm := obj.r
  let reflectivity := obj.reflectivity
  let d := reflectDir sx sy sz snorm fx fy fz px py pz
  let b := scan sqrt objects objnum px py pz d.vx d.vy d.vz d.vnormsq 0
  if b.bestobj = -1 then
    let bg := background sqrt exp d.vx d.vy d.vz
    .ok { st with reflection := bg,
                  samples := st.samples ++ [Sample.reflect d b.bestobj bg] }
  else
    match self b.bestobj px py pz (b.mint * d.vx + px) (b.mint * d.vy + py)
        (b.mint * d.vz + pz) (depth + 1) (significance * reflectivity) st.rng with
    | .error e => .error e
    | .ok out =>
      .ok { st with
            reflection := out.col, rng := out.rng,
            edges := st.edges ++
              ⟨true, objnum, depth, sig0, b.bestobj, depth + 1, significance * reflectivity⟩
                :: out.edges,
            samples := st.samples ++ [Sample.reflect d b.bestobj out.col] }

/-- The diffuse case of the loop body: lines 217-235, then the scan, lines 267-277
and 283-286. The significance of the recursive call is a quotient by the running
`weightsum`; a field quotient by zero is zero, whereas the C code then passes on the result
of a division of zero by zero: this definition renders line 283 for `weightsum ≠ 0` only,
and `shareChecked` marks the other case. -/
def diffuseStep (sqrt exp : F → F) (objects : List (Sphere F)) (draws : Nat → F × F × F)
    (rfuel : Nat) (self : Shader F) (objnum : Int) (obj : Sphere F) (px py pz : F)
    (depth : Int) (sig0 significance : F) (st : LoopState F) :
    Except Fault (LoopState F) :=
  let sx := px - obj.x
  let sy := py - obj.y
  let sz := pz - obj.z
  let snorm := obj.r
  let reflectivity := obj.reflectivity
  match drawLoop draws rfuel st.rng with
  | .error e => .error e
  | .ok dr =>
    let d := diffuseDir sqrt sx sy sz snorm dr.vx dr.vy dr.vz dr.vnormsq
    let weight := d.weight
    let weightsum := st.weightsum + weight
    let b := scan sqrt objects objnum px py pz d.vx d.vy d.vz d.vnormsq 0
    if b.bestobj = -1 then
      let bg := background sqrt exp d.vx d.vy d.vz
      .ok { st with
            weightsum := weightsum,
            from_diffusion :=
              ⟨st.from_diffusion.red + weight * bg.red,
               st.from_diffusion.green + weight * bg.green,
               st.from_diffusion.blue + weight * bg.blue⟩,
            rng := dr.rng,
            samples := st.samples ++ [Sample.diffuse d weightsum b.bestobj bg] }
    else
      match self b.bestobj px py pz (b.mint * d.vx + px) (b.mint * d.vy + py)
          (b.mint * d.vz + pz) (depth + 1)
          (significance * (1 - reflectivity) * weight / weightsum) dr.rng with
      | .error e => .error e
      | .ok out =>
        .ok { st with
              weightsum := weightsum,
              from_diffusion :=
                ⟨st.from_diffusion.red + out.col.red * weight,
                 st.from_diffusion.green + out.col.green * weight,
                 st.from_diffusion.blue + out.col.blue * weight⟩,
              rng := out.rng,
              edges := st.edges ++
                ⟨false, objnum, depth, sig0, b.bestobj, depth + 1,
                  significance * (1 - reflectivity) * weight / weightsum⟩ :: out.edges,
              samples := st.samples ++ [Sample.diffuse d weightsum b.bestobj out.col] }

/-- The body of the sample loop, lines 192-287: the two `continue`s of lines 196-197,
then the reflective or the diffuse case. -/
def sampleBody (sqrt exp : F → F) (objects : List (Sphere F)) (draws : Nat → F × F × F)
    (rfuel : Nat) (self : Shader F) (objnum : Int) (obj : Sphere F)
    (fx fy fz px py pz : F) (depth : Int) (sig0 significance : F) (endat : Int)
    (i : Int) (st : LoopState F) : Except Fault (LoopState F) :=
  let reflectivity := obj.reflectivity
  let fully_reflective : Bool := decide (reflectivity > 1 - EPS)
  let fully_nonreflective : Bool := decide (reflectivity < EPS)
  let compute_reflection : Bool := !fully_nonreflective
  let reflective_case : Bool := compute_reflection && decide (i = endat - 1)
  if (!reflective_case && fully_reflective) = true then .ok st else
  if (reflective_case && fully_nonreflective) = true then .ok st else
  if reflective_case = true then
    reflectStep sqrt exp objects self objnum obj fx fy fz px py pz depth sig0 significance st
  else
    diffuseStep sqrt exp objects draws rfuel self objnum obj px py pz depth sig0
      significance st

/-- The local `min_sig` of lines 157-163. -/
def minSig (obj : Sphere F) : F := min (min obj.col.red obj.col.green) obj.col.blue

/-- The local `endat` of lines 189-190, for the significance `sig` after
`significance *= min_sig`. -/
def loopEnd (obj : Sphere F) (sig : F) : Int :=
  if (!decide (obj.reflectivity < EPS)) = true then sample_size sig + 1 else sample_size sig

/-- The locals of `colorsat` before the first pass of the sample loop. -/
def loopInit (rng : Nat) : LoopState F := ⟨0, black, black, rng, [], []⟩

/-- Lines 289-354 of `colorsat`: what is returned once the sample loop has left
`weightsum`, `from_diffusion` and `reflection` in `st`. -/
def finish (sqrt : F → F) (objects : List (Sphere F)) (lights : List (Light F))
    (objnum : Int) (obj : Sphere F) (px py pz : F) (st : LoopState F) : Out F :=
  let sx := px - obj.x
  let sy := py - obj.y
  let sz := pz - obj.z
  let snorm := obj.r
  let reflectivity := obj.reflectivity
  let fully_nonreflective : Bool := decide (reflectivity < EPS)
  let ans : Color F := black
  let ans : Color F :=
    if st.weightsum > EPS then
      ⟨ans.red + st.from_diffusion.red / st.weightsum,
       ans.green + st.from_diffusion.green / st.weightsum,
       ans.blue + st.from_diffusion.blue / st.weightsum⟩
    else ans
  let ans := lightLoop sqrt objects objnum px py pz sx sy sz snorm lights ans
  let ans : Color F :=
    if (!fully_nonreflective) = true then
      ⟨reflectivity * st.reflection.red + (1 - reflectivity) * ans.red,
       reflectivity * st.reflection.green + (1 - reflectivity) * ans.green,
       reflectivity * st.reflection.blue + (1 - reflectivity) * ans.blue⟩
    else ans
  ⟨⟨ans.red * obj.col.red, ans.green * obj.col.green, ans.blue * obj.col.blue⟩,
   st.rng, st.edges, st.samples, lights.length⟩

/-- The function
`struct color colorsat(int objnum, fx, fy, fz, px, py, pz, int depth, significance)`.
`fuel` bounds the nesting of recursive calls below this invocation, `rfuel` the
passes of each rejection loop, `rng` is the position in the stream `draws`. -/
def colorsat (sqrt exp : F → F) (objects : List (Sphere F)) (lights : List (Light F))
    (draws : Nat → F × F × F) (rfuel : Nat) : Nat → Shader F
  | fuel, objnum, fx, fy, fz, px, py, pz, depth, significance, rng =>
    if depth > MAX_DEPTH then .ok ⟨black, rng, [], [], 0⟩ else
    if objnum < 0 then .error .index else
    match objects[objnum.toNat]? with
    | none => .error .index
    | some obj =>
      let min_sig := min (min obj.col.red obj.col.green) obj.col.blue
      let sig := significance * min_sig
      if sig ≤ NEGLIGIBLE_SIGNIFICANCE then .ok ⟨black, rng, [], [], 0⟩ else
      let fully_nonreflective : Bool := decide (obj.reflectivity < EPS)
      let compute_reflection : Bool := !fully_nonreflective
      let endat := sample_size sig
      let endat := if compute_reflection = true then endat + 1 else endat
      match fuel with
      | 0 => .error .fuel
      | n + 1 =>
        match forLoop
            (sampleBody sqrt exp objects draws rfuel
              (colorsat sqrt exp objects lights draws rfuel n)
              objnum obj fx fy fz px py pz depth significance sig endat)
            endat.toNat 0 ⟨0, black, black, rng, [], []⟩ with
        | .error e => .error e
        | .ok st => .ok (finish sqrt objects lights objnum obj px py pz st)

/-! ## Predicates used to state the contracts of `colorsat` -/

/-- All three channels of a colour are non-negative. -/
def NonNeg (c : Color F) : Prop := 0 ≤ c.red ∧ 0 ≤ c.green ∧ 0 ≤ c.blue

/-- The recorded call `e` is one level deeper than its caller and hands down the
significance of line 281 (reflection), which lies between `0` and the one its caller
received, or that of line 283 (diffuse, `w` the sample's weight and `ws` the running
`weightsum`), which lies between `0` and the one its caller received when `ws ≠ 0`; for
`ws = 0` the quotient of line 283 is a division by zero and nothing is said about it. -/
def EdgeSig (objs : List (Sphere F)) (e : Edge F) : Prop :=
  e.cdepth = e.pdepth + 1 ∧
  ∃ o, 0 ≤ e.pobj ∧ objs[e.pobj.toNat]? = some o ∧
    (e.reflective = true →
      e.csig = e.psig * minSig o * o.reflectivity ∧ 0 ≤ e.csig ∧ e.csig ≤ e.psig) ∧
    (e.reflective = false → ∃ w ws, 0 ≤ w ∧ w ≤ ws ∧
      e.csig = e.psig * minSig o * (1 - o.reflectivity) * w / ws ∧
      (ws ≠ 0 → 0 ≤ e.csig ∧ e.csig ≤ e.psig))

/-- The stream of draws never stays degenerate: after every position there is a draw
that the rejection loop accepts. -/
def DrawsRecur (draws : Nat → F × F × F) : Prop :=
  ∀ n, ∃ m, n ≤ m ∧
    ¬ ((draws m).1 * (draws m).1 + (draws m).2.1 * (draws m).2.1
        + (draws m).2.2 * (draws m).2.2 < EPS)

/-- The constant `#define WIDTH 700`. -/
def WIDTH : Int := 700
/-- The constant `#define HEIGHT 700`. -/
def HEIGHT : Int := 700
/-- The constant `#define HORIZ_RATIO 0.5`. -/
def HORIZ_RATIO : F := 5 / 10
/-- The constant `#define VERT_RATIO 0.5`. -/
def VERT_RATIO : F := 5 / 10

/-- The local `cx = HORIZ_RATIO*2.0*(i-WIDTH/2)/WIDTH` of `main`. -/
def viewX (i : Int) : F := HORIZ_RATIO * 2 * ((i - WIDTH / 2 : Int) : F) / ((WIDTH : Int) : F)

/-- The local `cy = VERT_RATIO*2.0*(j-HEIGHT/2)/HEIGHT` of `main`. -/
def viewY (j : Int) : F := VERT_RATIO * 2 * ((j - HEIGHT / 2 : Int) : F) / ((HEIGHT : Int) : F)

/-- The colour `main` hands to `to_pixel` for the view-plane point `(cx, cy)`. -/
def mainColor (sqrt exp : F → F) (objects : List (Sphere F)) (lights : List (Light F))
    (draws : Nat → F × F × F) (rfuel fuel : Nat) (cx cy : F) (rng : Nat) :
    Except Fault (Out F) :=
  let b := mainScan sqrt objects cx cy 0
  if b.bestobj = -1 then
    let nonvert := sqrt (cx * cx + 1)
    .ok ⟨gradient exp (cy / nonvert), rng, [], [], 0⟩
  else
    let px := b.mint * cx
    let py := b.mint * cy
    let pz := b.mint
    colorsat sqrt exp objects lights draws rfuel fuel b.bestobj 0 0 0 px py pz 0 1 rng

/-- The scene `struct sphere objects[]` of the source. -/
def objects : List (Sphere F) :=
  [⟨-12 / 10, 11 / 10, 45 / 10, 9 / 10, 1, ⟨95 / 100, 95 / 100, 95 / 100⟩⟩,
   ⟨-12 / 10, -1, 45 / 10, 9 / 10, 1, ⟨95 / 100, 95 / 100, 95 / 100⟩⟩,
   ⟨12 / 10, 1, 45 / 10, 6 / 10, 0, ⟨5 / 10, 9 / 10, 5 / 10⟩⟩,
   ⟨-12 / 10, 11 / 10, 2, 6 / 10, 0, ⟨5 / 10, 9 / 10, 5 / 10⟩⟩,
   ⟨9 / 10, -1, 45 / 10, 1, 6 / 10, ⟨9 / 10, 5 / 10, 5 / 10⟩⟩]

/-- The point lights `struct light lights[]` of the source. -/
def lights : List (Light F) :=
  [⟨0, 3 / 10, 45 / 10, ⟨5 / 10, 5 / 10, 5 / 10⟩⟩,
   ⟨0, -100, 0, ⟨7000, 7000, 7000⟩⟩]

end Defs

section Defs2

variable {F : Type} [LinearOrderedField F]

/-! ## Quantities used to state the contracts of the sample loop -/

/-- The local `mult` of `gradient`: the logistic weight `1/(1+exp(-x*10))`. -/
def gradientMult (exp : F → F) (x : F) : F := 1 / (1 + exp (-x * 10))

/-- Number of diffuse samples among the recorded samples. -/
def diffuseCount : List (Sample F) → Nat
  | [] => 0
  | Sample.reflect _ _ _ :: ss => diffuseCount ss
  | Sample.diffuse _ _ _ _ :: ss => diffuseCount ss + 1

/-- Number of reflection samples among the recorded samples. -/
def reflectCount : List (Sample F) → Nat
  | [] => 0
  | Sample.reflect _ _ _ :: ss => reflectCount ss + 1
  | Sample.diffuse _ _ _ _ :: ss => reflectCount ss

/-- The values of `weightsum` right after each diffuse sample, in the order of the passes. -/
def diffuseSums : List (Sample F) → List F
  | [] => []
  | Sample.reflect _ _ _ :: ss => diffuseSums ss
  | Sample.diffuse _ ws _ _ :: ss => ws :: diffuseSums ss

/-- The sum of the weights of the recorded diffuse samples. -/
def weightTotal : List (Sample F) → F
  | [] => 0
  | Sample.reflect _ _ _ :: ss => weightTotal ss
  | Sample.diffuse d _ _ _ :: ss => d.weight + weightTotal ss

/-- The sum of `weight · colour` over the recorded diffuse samples, channel by channel. -/
def weightedTotal : List (Sample F) → Color F
  | [] => ⟨0, 0, 0⟩
  | Sample.reflect _ _ _ :: ss => weightedTotal ss
  | Sample.diffuse d _ _ c :: ss =>
    ⟨d.weight * c.red + (weightedTotal ss).red,
     d.weight * c.green + (weightedTotal ss).green,
     d.weight * c.blue + (weightedTotal ss).blue⟩

/-- Lines 289-293: the diffuse term added to `ans` after the sample loop. -/
def diffuseTerm (st : LoopState F) : Color F :=
  if st.weightsum > EPS then
    ⟨st.from_diffusion.red / st.weightsum,
     st.from_diffusion.green / st.weightsum,
     st.from_diffusion.blue / st.weightsum⟩
  else ⟨0, 0, 0⟩

/-- Lines 295-354 of `colorsat` for a given value `ans0` of `ans` before the light loop:
the light loop, the blend with the reflection, the tint, and the returned record. -/
def finishFrom (sqrt : F → F) (objects : List (Sphere F)) (lights : List (Light F))
    (objnum : Int) (obj : Sphere F) (px py pz : F) (st : LoopState F) (ans0 : Color F) :
    Out F :=
  let sx := px - obj.x
  let sy := py - obj.y
  let sz := pz - obj.z
  let snorm := obj.r
  let reflectivity := obj.reflectivity
  let fully_nonreflective : Bool := decide (reflectivity < EPS)
  let ans := lightLoop sqrt objects objnum px py pz sx sy sz snorm lights ans0
  let ans : Color F :=
    if (!fully_nonreflective) = true then
      ⟨reflectivity * st.reflection.red + (1 - reflectivity) * ans.red,
       reflectivity * st.reflection.green + (1 - reflectivity) * ans.green,
       reflectivity * st.reflection.blue + (1 - reflectivity) * ans.blue⟩
    else ans
  ⟨⟨ans.red * obj.col.red, ans.green * obj.col.green, ans.blue * obj.col.blue⟩,
   st.rng, st.edges, st.samples, lights.length⟩

/-- The significance argument of the diffuse recursive call of line 283,
`significance*(1-reflectivity)*weight/weightsum`, with the division checked: `none` when
`weightsum` is zero, a case in which the C code passes on the result of a division by
zero. -/
def shareChecked (significance reflectivity weight weightsum : F) : Option F :=
  if weightsum = 0 then none
  else some (significance * (1 - reflectivity) * weight / weightsum)

variable [FloorRing F]

/-- The type `struct pixel`: three `uint8_t`, kept as integers in `0..255`. -/
structure Pixel where
  b : Int
  g : Int
  r : Int
deriving DecidableEq, Repr

/-- The constant `#define GAMMA_CORRECTION (2.2)`. -/
def GAMMA_CORRECTION : F := 22 / 10

/-- The local `comp = 1.0-256*EPS-EPS` of `to_pixel`. -/
def pixelComp : F := 1 - 256 * EPS - EPS

/-- Lines 141-148 of `to_pixel`: the colour after the rescale step, and whether the
warning was printed. -/
def rescale (raw : Color F) : Color F × Bool :=
  let mx := max (max raw.red raw.green) raw.blue
  let comp : F := 1 - 256 * EPS - EPS
  if mx ≥ comp then
    (⟨raw.red * (comp / mx), raw.green * (comp / mx), raw.blue * (comp / mx)⟩, true)
  else (raw, false)

/-- The conversion `(uint8_t)x` of a `double`: truncation toward zero, then the value
modulo `2^8`. -/
def toUInt8 (x : F) : Int := toInt x % 256

/-- The function `struct pixel to_pixel(struct color raw)`; `pow` is the C library's. -/
def to_pixel (pow : F → F → F) (raw : Color F) : Pixel :=
  let c := (rescale raw).1
  ⟨toUInt8 (256 * pow c.blue GAMMA_CORRECTION),
   toUInt8 (256 * pow c.green GAMMA_CORRECTION),
   toUInt8 (256 * pow c.red GAMMA_CORRECTION)⟩

end Defs2

/-! ## The layout of `struct bitmap` (lines 38-70, 408-424)

Sizes are those of the fixed-width types of the source: `uint8_t` 1 byte, `uint16_t` 2,
`uint32_t` 4, each aligned to its size; `size_t` has 64 bits.  A struct that is not packed
places each field at the next multiple of its alignment and is padded to a multiple of its
largest alignment; `struct bitmap` is `__packed__` and has no padding. -/

/-- The value `sizeof(struct pixel)`: three `uint8_t` fields. -/
def sizeofPixel : Nat := 1 + 1 + 1

/-- The expression `((W*sizeof(struct pixel)+3) & ~3)` in `size_t` arithmetic, where `~3`
is `2^64 - 1 - 3`. -/
def paddedRow (W : Nat) : Nat :=
  ((W * sizeofPixel + 3) % 2 ^ 64) &&& (2 ^ 64 - 1 - 3)

/-- The length of the array `pad` of `struct pixel_row`, a difference in `size_t`. -/
def padLen (W : Nat) : Nat :=
  (paddedRow W + 2 ^ 64 - (W * sizeofPixel) % 2 ^ 64) % 2 ^ 64

/-- The value `sizeof(struct pixel_row)` for `WIDTH = W`. -/
def sizeofPixelRow (W : Nat) : Nat := W * sizeofPixel + padLen W

/-- The least offset not below `off` that is a multiple of `align`. -/
def alignUp (off align : Nat) : Nat := (off + align - 1) / align * align

/-- The offset reached after laying out fields given as (size, alignment), from `off`. -/
def layoutEnd : List (Nat × Nat) → Nat → Nat
  | [], off => off
  | f :: fs, off => layoutEnd fs (alignUp off f.2 + f.1)

/-- The fields of `struct bmp_core_header` as (size, alignment). -/
def coreHeaderFields : List (Nat × Nat) :=
  [(4, 4), (4, 4), (4, 4), (2, 2), (2, 2), (4, 4), (4, 4), (4, 4), (4, 4), (4, 4), (4, 4)]

/-- The value `sizeof(struct bmp_core_header)`; the largest alignment is 4. -/
def sizeofCoreHeader : Nat := alignUp (layoutEnd coreHeaderFields 0) 4

/-- The offset of `row` in the packed `struct bitmap`: `ident[2]`, `size`, `reserved`,
`array_start`, `core_header`. -/
def rowOffset : Nat := 2 * 1 + 4 + 4 + 4 + sizeofCoreHeader

/-- The value `sizeof(bmp->row)` for `WIDTH = W`, `HEIGHT = H`. -/
def sizeofRows (W H : Nat) : Nat := H * sizeofPixelRow W

/-- The value `sizeof(struct bitmap)`. -/
def sizeofBitmap (W H : Nat) : Nat := rowOffset + sizeofRows W H

/-- The header field `bmp->array_start`, a `uint32_t`. -/
def array_start : Nat := rowOffset % 2 ^ 32

/-- The header field `bmp->core_header.compressed_size`, a `uint32_t`. -/
def compressed_size (W H : Nat) : Nat := sizeofRows W H % 2 ^ 32

/-- The header field `bmp->size`, a `uint32_t`. -/
def bmpSize (W H : Nat) : Nat := sizeofBitmap W H % 2 ^ 32


/-! # Theorems -/

section ScanLemmas

variable {F : Type} [LinearOrderedField F]

theorem scanBody_miss (sqrt : F → F) (objnum : Int) (px py pz vx vy vz a : F)
    (n : Nat) (o : Sphere F) (st : Best F)
    (h : ¬ ((n : Int) ≠ objnum ∧ 0 ≤ quadDesc o px py pz vx vy vz a ∧
      0 < nearRoot sqrt o px py pz vx vy vz a)) :
    scanBody sqrt objnum px py pz vx vy vz a n o st = st := by
  unfold scanBody
  simp only [quadDesc, quadB, quadC, nearRoot] at h
  by_cases h1 : (n : Int) = objnum
  · simp [h1]
  · simp only [h1, if_false]
    split_ifs with h2 h3 h4
    · rfl
    · rfl
    · exact absurd ⟨h1, not_lt.mp h2, not_le.mp h3⟩ h
    · rfl

theorem scanBody_hit (sqrt : F → F) (objnum : Int) (px py pz vx vy vz a : F)
    (n : Nat) (o : Sphere F) (st : Best F)
    (h1 : (n : Int) ≠ objnum) (h2 : 0 ≤ quadDesc o px py pz vx vy vz a)
    (h3 : 0 < nearRoot sqrt o px py pz vx vy vz a) :
    scanBody sqrt objnum px py pz vx vy vz a n o st =
      if st.bestobj = -1 ∨ nearRoot sqrt o px py pz vx vy vz a < st.mint
      then ⟨(n : Int), nearRoot sqrt o px py pz vx vy vz a⟩ else st := by
  unfold scanBody
  simp only [quadDesc, quadB, quadC, nearRoot] at h2 h3 ⊢
  simp only [h1, if_false, not_lt.mpr h2, not_le.mpr h3]

theorem scanInv_step (sqrt : F → F) (objs : List (Sphere F)) (objnum : Int)
    (px py pz vx vy vz a : F) (n : Nat) (o : Sphere F) (st : Best F)
    (ho : objs[n]? = some o)
    (hinv : ScanInv sqrt objs objnum px py pz vx vy vz a n st) :
    ScanInv sqrt objs objnum px py pz vx vy vz a (n + 1)
      (scanBody sqrt objnum px py pz vx vy vz a n o st) := by
  have candn : ∀ t, Cand sqrt objs objnum px py pz vx vy vz a n t ↔
      ((n : Int) ≠ objnum ∧ 0 ≤ quadDesc o px py pz vx vy vz a ∧
        t = nearRoot sqrt o px py pz vx vy vz a ∧ 0 < t) := by
    intro t
    constructor
    · rintro ⟨o', ho', h⟩
      rw [ho] at ho'
      cases ho'
      exact h
    · intro h
      exact ⟨o, ho, h⟩
  by_cases hc : (n : Int) ≠ objnum ∧ 0 ≤ quadDesc o px py pz vx vy vz a ∧
      0 < nearRoot sqrt o px py pz vx vy vz a
  · obtain ⟨h1, h2, h3⟩ := hc
    rw [scanBody_hit sqrt objnum px py pz vx vy vz a n o st h1 h2 h3]
    have hcand : Cand sqrt objs objnum px py pz vx vy vz a n
        (nearRoot sqrt o px py pz vx vy vz a) := (candn _).2 ⟨h1, h2, rfl, h3⟩
    split_ifs with hu
    · -- the new object becomes the best one
      right
      refine ⟨n, rfl, Nat.lt_succ_self n, hcand, ?_⟩
      intro i t hi hct
      rcases Nat.lt_succ_iff_lt_or_eq.mp hi with hlt | heq
      · rcases hinv with ⟨_, hnone⟩ | ⟨k, hk, _, _, hmin⟩
        · exact absurd hct (hnone i t hlt)
        · have hm := (hmin i t hlt hct).1
          rcases hu with hu | hu
          · rw [hk] at hu
            omega
          · show nearRoot sqrt o px py pz vx vy vz a ≤ t ∧
              (t = nearRoot sqrt o px py pz vx vy vz a → n ≤ i)
            constructor
            · exact le_of_lt (lt_of_lt_of_le hu hm)
            · intro he
              rw [he] at hm
              exact absurd (lt_of_lt_of_le hu hm) (lt_irrefl _)
      · subst heq
        have := ((candn t).1 hct).2.2.1
        show nearRoot sqrt o px py pz vx vy vz a ≤ t ∧
              (t = nearRoot sqrt o px py pz vx vy vz a → i ≤ i)
        rw [this]
        exact ⟨le_refl _, fun _ => le_refl _⟩
    · -- the best object so far stays
      push_neg at hu
      rcases hinv with ⟨hb, _⟩ | ⟨k, hk, hkn, hck, hmin⟩
      · exact absurd hb hu.1
      · right
        refine ⟨k, hk, Nat.lt_succ_of_lt hkn, hck, ?_⟩
        intro i t hi hct
        rcases Nat.lt_succ_iff_lt_or_eq.mp hi with hlt | heq
        · exact hmin i t hlt hct
        · subst heq
          have := ((candn t).1 hct).2.2.1
          rw [this]
          exact ⟨hu.2, fun _ => le_of_lt hkn⟩
  · rw [scanBody_miss sqrt objnum px py pz vx vy vz a n o st hc]
    have hno : ∀ t, ¬ Cand sqrt objs objnum px py pz vx vy vz a n t := by
      intro t hct
      obtain ⟨h1, h2, h3, h4⟩ := (candn t).1 hct
      exact hc ⟨h1, h2, h3 ▸ h4⟩
    rcases hinv with ⟨hb, hnone⟩ | ⟨k, hk, hkn, hck, hmin⟩
    · left
      refine ⟨hb, ?_⟩
      intro i t hi
      rcases Nat.lt_succ_iff_lt_or_eq.mp hi with hlt | heq
      · exact hnone i t hlt
      · subst heq
        exact hno t
    · right
      refine ⟨k, hk, Nat.lt_succ_of_lt hkn, hck, ?_⟩
      intro i t hi hct
      rcases Nat.lt_succ_iff_lt_or_eq.mp hi with hlt | heq
      · exact hmin i t hlt hct
      · subst heq
        exact absurd hct (hno t)

theorem scanLoop_inv (sqrt : F → F) (objs : List (Sphere F)) (objnum : Int)
    (px py pz vx vy vz a : F) :
    ∀ (os pre : List (Sphere F)) (st : Best F), objs = pre ++ os →
      ScanInv sqrt objs objnum px py pz vx vy vz a pre.length st →
      ScanInv sqrt objs objnum px py pz vx vy vz a objs.length
        (scanLoop sqrt objnum px py pz vx vy vz a os pre.length st) := by
  intro os
  induction os with
  | nil =>
    intro pre st h hinv
    simp only [List.append_nil] at h
    subst h
    exact hinv
  | cons o os ih =>
    intro pre st h hinv
    have ho : objs[pre.length]? = some o := by
      rw [h, List.getElem?_append_right (le_refl _)]
      simp
    have hstep := scanInv_step sqrt objs objnum px py pz vx vy vz a pre.length o st ho hinv
    have h' : objs = (pre ++ [o]) ++ os := by
      rw [h]
      simp
    have := ih (pre ++ [o]) _ h' (by simpa using hstep)
    simpa [scanLoop] using this

theorem scan_inv (sqrt : F → F) (objs : List (Sphere F)) (objnum : Int)
    (px py pz vx vy vz a mint0 : F) :
    ScanInv sqrt objs objnum px py pz vx vy vz a objs.length
      (scan sqrt objs objnum px py pz vx vy vz a mint0) := by
  have := scanLoop_inv sqrt objs objnum px py pz vx vy vz a objs [] ⟨-1, mint0⟩ rfl
    (Or.inl ⟨rfl, fun i t hi => absurd hi (Nat.not_lt_zero i)⟩)
  simpa [scan] using this

theorem cand_lt_length (sqrt : F → F) (objs : List (Sphere F)) (objnum : Int)
    (px py pz vx vy vz a : F) (i : Nat) (t : F)
    (h : Cand sqrt objs objnum px py pz vx vy vz a i t) : i < objs.length := by
  obtain ⟨o, ho, _⟩ := h
  by_contra hlt
  rw [List.getElem?_eq_none (not_lt.mp hlt)] at ho
  cases ho

theorem mainScanBody_eq (sqrt : F → F) (cx cy : F) (n : Nat) (o : Sphere F) (st : Best F) :
    mainScanBody sqrt cx cy n o st =
      scanBody sqrt (-1) 0 0 0 cx cy 1 (cx * cx + cy * cy + 1) n o st := by
  unfold mainScanBody scanBody
  have h : ¬ ((n : Int) = -1) := by omega
  simp only [h, if_false, sub_zero, mul_one, one_mul]

theorem mainScanLoop_eq (sqrt : F → F) (cx cy : F) :
    ∀ (os : List (Sphere F)) (n : Nat) (st : Best F),
      mainScanLoop sqrt cx cy os n st =
        scanLoop sqrt (-1) 0 0 0 cx cy 1 (cx * cx + cy * cy + 1) os n st := by
  intro os
  induction os with
  | nil => intro n st; rfl
  | cons o os ih =>
    intro n st
    simp only [mainScanLoop, scanLoop, mainScanBody_eq, ih]

theorem mainScan_eq (sqrt : F → F) (objs : List (Sphere F)) (cx cy mint0 : F) :
    mainScan sqrt objs cx cy mint0 =
      scan sqrt objs (-1) 0 0 0 cx cy 1 (cx * cx + cy * cy + 1) mint0 :=
  mainScanLoop_eq sqrt cx cy objs 0 _

/-- What the scan reports, in terms of the candidates of the scene. -/
theorem scan_spec (sqrt : F → F) (objs : List (Sphere F)) (objnum : Int)
    (px py pz vx vy vz a mint0 : F) :
    ((scan sqrt objs objnum px py pz vx vy vz a mint0).bestobj = -1 ↔
        ¬ ∃ i t, Cand sqrt objs objnum px py pz vx vy vz a i t) ∧
    ((scan sqrt objs objnum px py pz vx vy vz a mint0).bestobj ≠ -1 →
      ∃ k : Nat, (scan sqrt objs objnum px py pz vx vy vz a mint0).bestobj = (k : Int) ∧
        (k : Int) ≠ objnum ∧
        Cand sqrt objs objnum px py pz vx vy vz a k
          (scan sqrt objs objnum px py pz vx vy vz a mint0).mint ∧
        ∀ i t, Cand sqrt objs objnum px py pz vx vy vz a i t →
          (scan sqrt objs objnum px py pz vx vy vz a mint0).mint ≤ t ∧
          (t = (scan sqrt objs objnum px py pz vx vy vz a mint0).mint → k ≤ i)) := by
  have hinv := scan_inv sqrt objs objnum px py pz vx vy vz a mint0
  have hl := cand_lt_length sqrt objs objnum px py pz vx vy vz a
  rcases hinv with ⟨hb, hnone⟩ | ⟨k, hk, _, hck, hmin⟩
  · refine ⟨⟨fun _ => ?_, fun _ => hb⟩, fun h => absurd hb h⟩
    rintro ⟨i, t, hc⟩
    exact hnone i t (hl i t hc) hc
  · have hne : (scan sqrt objs objnum px py pz vx vy vz a mint0).bestobj ≠ -1 := by
      rw [hk]; omega
    refine ⟨⟨fun h => absurd h hne, fun h => absurd ⟨k, _, hck⟩ h⟩, fun _ => ?_⟩
    refine ⟨k, hk, ?_, hck, fun i t hc => hmin i t (hl i t hc) hc⟩
    obtain ⟨_, _, h, _⟩ := hck
    exact h

end ScanLemmas

theorem sqrt_four : Real.sqrt 4 = 2 := by
  rw [show (4 : ℝ) = 2 ^ 2 by norm_num]
  exact Real.sqrt_sq (by norm_num)

/-- The near root of `a t² + b t + c` is a root, and the least one. -/
theorem near_root_least (a b c : ℝ) (ha : 0 < a) (hd : 0 ≤ b * b - 4 * a * c) :
    a * ((-b - Real.sqrt (b * b - 4 * a * c)) / (2 * a)) *
        ((-b - Real.sqrt (b * b - 4 * a * c)) / (2 * a))
      + b * ((-b - Real.sqrt (b * b - 4 * a * c)) / (2 * a)) + c = 0 ∧
    ∀ w, a * w * w + b * w + c = 0 → (-b - Real.sqrt (b * b - 4 * a * c)) / (2 * a) ≤ w := by
  set s := Real.sqrt (b * b - 4 * a * c) with hs
  have hs0 : 0 ≤ s := Real.sqrt_nonneg _
  have hss : s * s = b * b - 4 * a * c := Real.mul_self_sqrt hd
  have ha' : a ≠ 0 := ne_of_gt ha
  have ht : 2 * a * ((-b - s) / (2 * a)) = -b - s := by field_simp
  set t := (-b - s) / (2 * a) with htdef
  constructor
  · have h4 : 4 * a * (a * t * t + b * t + c) = 0 := by
      have : 4 * a * (a * t * t + b * t + c)
          = (2 * a * t + b) * (2 * a * t + b) - (b * b - 4 * a * c) := by ring
      rw [this, ht, ← hss]
      ring
    rcases mul_eq_zero.mp h4 with h | h
    · exact absurd h (by positivity)
    · exact h
  · intro w hw
    by_contra hlt
    push_neg at hlt
    have h1 : 2 * a * w < 2 * a * t := by
      have : (0 : ℝ) < 2 * a := by positivity
      exact mul_lt_mul_of_pos_left hlt this
    have h2 : (2 * a * w + b) * (2 * a * w + b) = s * s := by
      rw [hss]
      have : (2 * a * w + b) * (2 * a * w + b)
          = 4 * a * (a * w * w + b * w + c) + (b * b - 4 * a * c) := by ring
      rw [this, hw]
      ring
    rw [ht] at h1
    nlinarith

/-- A real root of `a t² + b t + c` forces a non-negative discriminant. -/
theorem desc_nonneg_of_root (a b c w : ℝ) (hw : a * w * w + b * w + c = 0) :
    0 ≤ b * b - 4 * a * c := by
  have : b * b - 4 * a * c = (2 * a * w + b) * (2 * a * w + b) - 4 * a * (a * w * w + b * w + c) := by
    ring
  rw [this, hw]
  nlinarith [mul_self_nonneg (2 * a * w + b)]

theorem sphereQuad_eq {F : Type} [LinearOrderedField F] (o : Sphere F)
    (px py pz vx vy vz t : F) :
    sphereQuad o px py pz vx vy vz t =
      (vx * vx + vy * vy + vz * vz) * t * t + quadB o px py pz vx vy vz * t
        + quadC o px py pz := by
  unfold sphereQuad quadB quadC
  ring

theorem sphereQuad_dist {F : Type} [LinearOrderedField F] (o : Sphere F)
    (px py pz vx vy vz t : F) :
    sphereQuad o px py pz vx vy vz t =
      distSq (t * vx + px) (t * vy + py) (t * vz + pz) o.x o.y o.z - o.r * o.r := by
  unfold sphereQuad distSq
  ring

/-- The near root of a sphere with non-negative discriminant is the least root of the
sphere quadratic. -/
theorem nearRoot_least (o : Sphere ℝ) (px py pz vx vy vz : ℝ)
    (hv : 0 < vx * vx + vy * vy + vz * vz)
    (hd : 0 ≤ quadDesc o px py pz vx vy vz (vx * vx + vy * vy + vz * vz)) :
    sphereQuad o px py pz vx vy vz
        (nearRoot Real.sqrt o px py pz vx vy vz (vx * vx + vy * vy + vz * vz)) = 0 ∧
    ∀ w, sphereQuad o px py pz vx vy vz w = 0 →
      nearRoot Real.sqrt o px py pz vx vy vz (vx * vx + vy * vy + vz * vz) ≤ w := by
  have h := near_root_least (vx * vx + vy * vy + vz * vz) (quadB o px py pz vx vy vz)
    (quadC o px py pz) hv hd
  constructor
  · rw [sphereQuad_eq]
    exact h.1
  · intro w hw
    rw [sphereQuad_eq] at hw
    exact h.2 w hw

/-- C1: the scan of `colorsat` (any excluded index `objnum`, ray `P + tV`, `a = V·V`) and
the scan of `main` (no exclusion, ray `t(cx, cy, 1)`) report `bestobj = -1` exactly when
no non-excluded sphere has discriminant `≥ 0` and near root `> 0`; otherwise the reported
`mint` is the least near root among those spheres, `bestobj` is the first index attaining
it, and `bestobj` is not the excluded index. -/
theorem C1_scan_first_nearest {F : Type} [LinearOrderedField F] (sqrt : F → F)
    (objs : List (Sphere F)) (objnum : Int) (px py pz vx vy vz mint0 cx cy : F) :
    (((scan sqrt objs objnum px py pz vx vy vz (vx * vx + vy * vy + vz * vz) mint0).bestobj = -1 ↔
        ¬ ∃ i t, Cand sqrt objs objnum px py pz vx vy vz (vx * vx + vy * vy + vz * vz) i t) ∧
     ((scan sqrt objs objnum px py pz vx vy vz (vx * vx + vy * vy + vz * vz) mint0).bestobj ≠ -1 →
        ∃ k : Nat,
          (scan sqrt objs objnum px py pz vx vy vz (vx * vx + vy * vy + vz * vz) mint0).bestobj
            = (k : Int) ∧
          (k : Int) ≠ objnum ∧
          Cand sqrt objs objnum px py pz vx vy vz (vx * vx + vy * vy + vz * vz) k
            (scan sqrt objs objnum px py pz vx vy vz (vx * vx + vy * vy + vz * vz) mint0).mint ∧
          ∀ i t, Cand sqrt objs objnum px py pz vx vy vz (vx * vx + vy * vy + vz * vz) i t →
            (scan sqrt objs objnum px py pz vx vy vz (vx * vx + vy * vy + vz * vz) mint0).mint ≤ t ∧
            (t = (scan sqrt objs objnum px py pz vx vy vz
                    (vx * vx + vy * vy + vz * vz) mint0).mint → k ≤ i))) ∧
    (((mainScan sqrt objs cx cy mint0).bestobj = -1 ↔
        ¬ ∃ i t, Cand sqrt objs (-1) 0 0 0 cx cy 1 (cx * cx + cy * cy + 1) i t) ∧
     ((mainScan sqrt objs cx cy mint0).bestobj ≠ -1 →
        ∃ k : Nat,
          (mainScan sqrt objs cx cy mint0).bestobj = (k : Int) ∧
          Cand sqrt objs (-1) 0 0 0 cx cy 1 (cx * cx + cy * cy + 1) k
            (mainScan sqrt objs cx cy mint0).mint ∧
          ∀ i t, Cand sqrt objs (-1) 0 0 0 cx cy 1 (cx * cx + cy * cy + 1) i t →
            (mainScan sqrt objs cx cy mint0).mint ≤ t ∧
            (t = (mainScan sqrt objs cx cy mint0).mint → k ≤ i))) := by
  refine ⟨scan_spec sqrt objs objnum px py pz vx vy vz _ mint0, ?_⟩
  rw [mainScan_eq]
  have h := scan_spec sqrt objs (-1) 0 0 0 cx cy 1 (cx * cx + cy * cy + 1) mint0
  refine ⟨h.1, fun hne => ?_⟩
  obtain ⟨k, hk, _, hc, hmin⟩ := h.2 hne
  exact ⟨k, hk, hc, hmin⟩

/-- C2, as stated, fails: the ray from the centre of the unit sphere along `(0,0,1)` is
reported as a miss (`bestobj` stays `-1`), although `t = 1` is a positive root of the
sphere quadratic. -/
theorem C2_origin_inside_counterexample :
    (scanBody Real.sqrt (-1) 0 0 0 0 0 1 (0 * 0 + 0 * 0 + 1 * 1) 0
        (⟨0, 0, 0, 1, 0, ⟨1, 1, 1⟩⟩ : Sphere ℝ) ⟨-1, 0⟩).bestobj = -1 ∧
    sphereQuad (⟨0, 0, 0, 1, 0, ⟨1, 1, 1⟩⟩ : Sphere ℝ) 0 0 0 0 0 1 1 = 0 ∧ (0 : ℝ) < 1 := by
  refine ⟨?_, ?_, by norm_num⟩
  · have h : ¬ (((0 : ℕ) : ℤ) ≠ -1 ∧
        0 ≤ quadDesc (⟨0, 0, 0, 1, 0, ⟨1, 1, 1⟩⟩ : Sphere ℝ) 0 0 0 0 0 1 (0 * 0 + 0 * 0 + 1 * 1) ∧
        0 < nearRoot Real.sqrt (⟨0, 0, 0, 1, 0, ⟨1, 1, 1⟩⟩ : Sphere ℝ) 0 0 0 0 0 1
          (0 * 0 + 0 * 0 + 1 * 1)) := by
      rintro ⟨_, _, h3⟩
      have : nearRoot Real.sqrt (⟨0, 0, 0, 1, 0, ⟨1, 1, 1⟩⟩ : Sphere ℝ) 0 0 0 0 0 1
          (0 * 0 + 0 * 0 + 1 * 1) = -1 := by
        simp only [nearRoot, quadDesc, quadB, quadC]
        norm_num [sqrt_four]
      rw [this] at h3
      norm_num at h3
    rw [scanBody_miss Real.sqrt (-1) 0 0 0 0 0 1 _ 0 _ _ h]
  · simp only [sphereQuad]
    norm_num

/-- C2, amended: for a ray with `V·V > 0` the per-sphere test (one pass of the scan loop
started with `bestobj = -1`, for a non-excluded index) reports a hit exactly when the
sphere quadratic has a real root and all its real roots are positive; the `t` it then
reports is a root, is positive, and is the least root. In every other case, also when a
root is positive but the smaller one is not (origin inside the sphere), it reports no hit. -/
theorem C2_near_root_only (o : Sphere ℝ) (objnum : Int) (iobj : Nat)
    (px py pz vx vy vz m0 : ℝ) (hi : (iobj : Int) ≠ objnum)
    (hv : 0 < vx * vx + vy * vy + vz * vz) :
    (((∃ u, sphereQuad o px py pz vx vy vz u = 0) ∧
        ∀ w, sphereQuad o px py pz vx vy vz w = 0 → 0 < w) →
      (scanBody Real.sqrt objnum px py pz vx vy vz (vx * vx + vy * vy + vz * vz) iobj o
          ⟨-1, m0⟩).bestobj = (iobj : Int) ∧
      0 < (scanBody Real.sqrt objnum px py pz vx vy vz (vx * vx + vy * vy + vz * vz) iobj o
          ⟨-1, m0⟩).mint ∧
      sphereQuad o px py pz vx vy vz
        (scanBody Real.sqrt objnum px py pz vx vy vz (vx * vx + vy * vy + vz * vz) iobj o
          ⟨-1, m0⟩).mint = 0 ∧
      ∀ w, sphereQuad o px py pz vx vy vz w = 0 →
        (scanBody Real.sqrt objnum px py pz vx vy vz (vx * vx + vy * vy + vz * vz) iobj o
          ⟨-1, m0⟩).mint ≤ w) ∧
    (¬ ((∃ u, sphereQuad o px py pz vx vy vz u = 0) ∧
        ∀ w, sphereQuad o px py pz vx vy vz w = 0 → 0 < w) →
      scanBody Real.sqrt objnum px py pz vx vy vz (vx * vx + vy * vy + vz * vz) iobj o
          ⟨-1, m0⟩ = ⟨-1, m0⟩) := by
  constructor
  · rintro ⟨⟨u, hu⟩, hpos⟩
    have hd : 0 ≤ quadDesc o px py pz vx vy vz (vx * vx + vy * vy + vz * vz) := by
      rw [sphereQuad_eq] at hu
      exact desc_nonneg_of_root _ _ _ u hu
    have hn := nearRoot_least o px py pz vx vy vz hv hd
    have h3 := hpos _ hn.1
    rw [scanBody_hit Real.sqrt objnum px py pz vx vy vz _ iobj o _ hi hd h3]
    rw [if_pos (Or.inl rfl)]
    exact ⟨rfl, h3, hn.1, hn.2⟩
  · intro hno
    apply scanBody_miss
    rintro ⟨_, hd, h3⟩
    have hn := nearRoot_least o px py pz vx vy vz hv hd
    exact hno ⟨⟨_, hn.1⟩, fun w hw => lt_of_lt_of_le h3 (hn.2 w hw)⟩

/-- Witness for C2 (amended): the sphere of radius 1 about `(0,0,3)`, seen from the
origin along `(0,0,1)`. -/
theorem C2_near_root_only_witness :
    ((0 : ℕ) : ℤ) ≠ -1 ∧ (0 : ℝ) < 0 * 0 + 0 * 0 + 1 * 1 ∧
    ((((∃ u, sphereQuad (⟨0, 0, 3, 1, 0, ⟨1, 1, 1⟩⟩ : Sphere ℝ) 0 0 0 0 0 1 u = 0) ∧
        ∀ w, sphereQuad (⟨0, 0, 3, 1, 0, ⟨1, 1, 1⟩⟩ : Sphere ℝ) 0 0 0 0 0 1 w = 0 → 0 < w) →
      (scanBody Real.sqrt (-1) 0 0 0 0 0 1 (0 * 0 + 0 * 0 + 1 * 1) 0
          (⟨0, 0, 3, 1, 0, ⟨1, 1, 1⟩⟩ : Sphere ℝ) ⟨-1, 0⟩).bestobj = ((0 : ℕ) : ℤ) ∧
      0 < (scanBody Real.sqrt (-1) 0 0 0 0 0 1 (0 * 0 + 0 * 0 + 1 * 1) 0
          (⟨0, 0, 3, 1, 0, ⟨1, 1, 1⟩⟩ : Sphere ℝ) ⟨-1, 0⟩).mint ∧
      sphereQuad (⟨0, 0, 3, 1, 0, ⟨1, 1, 1⟩⟩ : Sphere ℝ) 0 0 0 0 0 1
        (scanBody Real.sqrt (-1) 0 0 0 0 0 1 (0 * 0 + 0 * 0 + 1 * 1) 0
          (⟨0, 0, 3, 1, 0, ⟨1, 1, 1⟩⟩ : Sphere ℝ) ⟨-1, 0⟩).mint = 0 ∧
      ∀ w, sphereQuad (⟨0, 0, 3, 1, 0, ⟨1, 1, 1⟩⟩ : Sphere ℝ) 0 0 0 0 0 1 w = 0 →
        (scanBody Real.sqrt (-1) 0 0 0 0 0 1 (0 * 0 + 0 * 0 + 1 * 1) 0
          (⟨0, 0, 3, 1, 0, ⟨1, 1, 1⟩⟩ : Sphere ℝ) ⟨-1, 0⟩).mint ≤ w) ∧
    (¬ ((∃ u, sphereQuad (⟨0, 0, 3, 1, 0, ⟨1, 1, 1⟩⟩ : Sphere ℝ) 0 0 0 0 0 1 u = 0) ∧
        ∀ w, sphereQuad (⟨0, 0, 3, 1, 0, ⟨1, 1, 1⟩⟩ : Sphere ℝ) 0 0 0 0 0 1 w = 0 → 0 < w) →
      scanBody Real.sqrt (-1) 0 0 0 0 0 1 (0 * 0 + 0 * 0 + 1 * 1) 0
          (⟨0, 0, 3, 1, 0, ⟨1, 1, 1⟩⟩ : Sphere ℝ) ⟨-1, 0⟩ = ⟨-1, 0⟩)) :=
  ⟨by decide, by norm_num,
    C2_near_root_only ⟨0, 0, 3, 1, 0, ⟨1, 1, 1⟩⟩ (-1) 0 0 0 0 0 0 1 0 (by decide) (by norm_num)⟩

/-- The sphere of radius 1 about `(0,0,3)` seen from the origin along `(0,0,1)`:
hit at `t = 2`. -/
theorem scan_example :
    scan Real.sqrt [(⟨0, 0, 3, 1, 0, ⟨1, 1, 1⟩⟩ : Sphere ℝ)] (-1) 0 0 0 0 0 1
      (0 * 0 + 0 * 0 + 1 * 1) 0 = ⟨0, 2⟩ := by
  simp only [scan, scanLoop, scanBody]
  norm_num [sqrt_four]

theorem normal_unit (hx hy hz cx cy cz r : ℝ) (hr : r ≠ 0)
    (h : distSq hx hy hz cx cy cz = r * r) :
    (hx - cx) / r * ((hx - cx) / r) + (hy - cy) / r * ((hy - cy) / r)
      + (hz - cz) / r * ((hz - cz) / r) = 1 := by
  unfold distSq at h
  field_simp
  linarith

/-- C3: when the scan of `colorsat` (ray `P + tV`, `V·V > 0`) or of `main` (ray
`t(cx, cy, 1)`) reports a hit `(bestobj, mint)`, then `bestobj` is the index of a sphere
of the scene, `mint > 0`, the point `(mint*vx+px, mint*vy+py, mint*vz+pz)` handed to
`colorsat` is at squared distance `r²` from that sphere's centre, (point − centre)/r is a
unit vector when `r ≠ 0`, and no point of the ray with `0 < u < mint` is on that sphere. -/
theorem C3_hit_point_on_sphere (objs : List (Sphere ℝ)) (objnum : Int)
    (px py pz vx vy vz m0 cx cy : ℝ) :
    (0 < vx * vx + vy * vy + vz * vz →
      (scan Real.sqrt objs objnum px py pz vx vy vz (vx * vx + vy * vy + vz * vz) m0).bestobj
        ≠ -1 →
      ∃ (k : Nat) (o : Sphere ℝ) (t : ℝ),
        scan Real.sqrt objs objnum px py pz vx vy vz (vx * vx + vy * vy + vz * vz) m0
          = ⟨(k : Int), t⟩ ∧
        objs[k]? = some o ∧ 0 < t ∧
        distSq (t * vx + px) (t * vy + py) (t * vz + pz) o.x o.y o.z = o.r * o.r ∧
        (o.r ≠ 0 →
          (t * vx + px - o.x) / o.r * ((t * vx + px - o.x) / o.r)
            + (t * vy + py - o.y) / o.r * ((t * vy + py - o.y) / o.r)
            + (t * vz + pz - o.z) / o.r * ((t * vz + pz - o.z) / o.r) = 1) ∧
        ∀ u, 0 < u → u < t →
          distSq (u * vx + px) (u * vy + py) (u * vz + pz) o.x o.y o.z ≠ o.r * o.r) ∧
    ((mainScan Real.sqrt objs cx cy m0).bestobj ≠ -1 →
      ∃ (k : Nat) (o : Sphere ℝ) (t : ℝ),
        mainScan Real.sqrt objs cx cy m0 = ⟨(k : Int), t⟩ ∧
        objs[k]? = some o ∧ 0 < t ∧
        distSq (t * cx) (t * cy) t o.x o.y o.z = o.r * o.r ∧
        (o.r ≠ 0 →
          (t * cx - o.x) / o.r * ((t * cx - o.x) / o.r)
            + (t * cy - o.y) / o.r * ((t * cy - o.y) / o.r)
            + (t - o.z) / o.r * ((t - o.z) / o.r) = 1) ∧
        ∀ u, 0 < u → u < t → distSq (u * cx) (u * cy) u o.x o.y o.z ≠ o.r * o.r) := by
  have key : ∀ (objnum : Int) (px py pz vx vy vz : ℝ), 0 < vx * vx + vy * vy + vz * vz →
      (scan Real.sqrt objs objnum px py pz vx vy vz (vx * vx + vy * vy + vz * vz) m0).bestobj
        ≠ -1 →
      ∃ (k : Nat) (o : Sphere ℝ) (t : ℝ),
        scan Real.sqrt objs objnum px py pz vx vy vz (vx * vx + vy * vy + vz * vz) m0
          = ⟨(k : Int), t⟩ ∧
        objs[k]? = some o ∧ 0 < t ∧
        distSq (t * vx + px) (t * vy + py) (t * vz + pz) o.x o.y o.z = o.r * o.r ∧
        ∀ u, 0 < u → u < t →
          distSq (u * vx + px) (u * vy + py) (u * vz + pz) o.x o.y o.z ≠ o.r * o.r := by
    intro objnum px py pz vx vy vz hv hne
    obtain ⟨k, hk, _, ⟨o, ho, _, hd, ht, hpos⟩, _⟩ :=
      (scan_spec Real.sqrt objs objnum px py pz vx vy vz _ m0).2 hne
    have hn := nearRoot_least o px py pz vx vy vz hv hd
    rw [← ht] at hn
    refine ⟨k, o, _, ?_, ho, hpos, ?_, ?_⟩
    · rw [← hk]
    · have := hn.1
      rw [sphereQuad_dist] at this
      linarith
    · intro u _ hut hon
      have hroot : sphereQuad o px py pz vx vy vz u = 0 := by
        rw [sphereQuad_dist, hon]
        ring
      exact absurd (hn.2 u hroot) (not_le.mpr hut)
  constructor
  · intro hv hne
    obtain ⟨k, o, t, h1, h2, h3, h4, h5⟩ := key objnum px py pz vx vy vz hv hne
    exact ⟨k, o, t, h1, h2, h3, h4, fun hr => normal_unit _ _ _ _ _ _ _ hr h4, h5⟩
  · intro hne
    rw [mainScan_eq] at hne ⊢
    have hv : (0 : ℝ) < cx * cx + cy * cy + 1 * 1 := by nlinarith [mul_self_nonneg cx, mul_self_nonneg cy]
    rw [show cx * cx + cy * cy + 1 = cx * cx + cy * cy + 1 * 1 by ring] at hne ⊢
    obtain ⟨k, o, t, h1, h2, h3, h4, h5⟩ := key (-1) 0 0 0 cx cy 1 hv hne
    simp only [add_zero, mul_one] at h4 h5
    exact ⟨k, o, t, h1, h2, h3, h4, fun hr => normal_unit _ _ _ _ _ _ _ hr h4, h5⟩

/-- Witness for C3: the hypotheses of the first part hold for the sphere of radius 1
about `(0,0,3)` seen from the origin along `(0,0,1)`, where the scan reports `t = 2`. -/
theorem C3_hit_point_on_sphere_witness :
    ∃ (k : Nat) (o : Sphere ℝ) (t : ℝ),
      scan Real.sqrt [(⟨0, 0, 3, 1, 0, ⟨1, 1, 1⟩⟩ : Sphere ℝ)] (-1) 0 0 0 0 0 1
          (0 * 0 + 0 * 0 + 1 * 1) 0 = ⟨(k : Int), t⟩ ∧
      [(⟨0, 0, 3, 1, 0, ⟨1, 1, 1⟩⟩ : Sphere ℝ)][k]? = some o ∧ 0 < t ∧
      distSq (t * 0 + 0) (t * 0 + 0) (t * 1 + 0) o.x o.y o.z = o.r * o.r ∧
      (o.r ≠ 0 →
        (t * 0 + 0 - o.x) / o.r * ((t * 0 + 0 - o.x) / o.r)
          + (t * 0 + 0 - o.y) / o.r * ((t * 0 + 0 - o.y) / o.r)
          + (t * 1 + 0 - o.z) / o.r * ((t * 1 + 0 - o.z) / o.r) = 1) ∧
      ∀ u, 0 < u → u < t →
        distSq (u * 0 + 0) (u * 0 + 0) (u * 1 + 0) o.x o.y o.z ≠ o.r * o.r :=
  (C3_hit_point_on_sphere [⟨0, 0, 3, 1, 0, ⟨1, 1, 1⟩⟩] (-1) 0 0 0 0 0 1 0 0 0).1
    (by norm_num) (by rw [scan_example]; decide)

section ShadowLemmas
variable {F : Type} [LinearOrderedField F]

theorem shadowLoop_iff (sqrt : F → F) (objnum : Int) (lx ly lz vx vy vz : F) :
    ∀ (os : List (Sphere F)) (n : Nat),
      shadowLoop sqrt objnum lx ly lz vx vy vz os n = true ↔
        ∃ j o, os[j]? = some o ∧ ((n + j : Nat) : Int) ≠ objnum ∧
          Blocks sqrt o lx ly lz vx vy vz := by
  intro os
  induction os with
  | nil =>
    intro n
    simp [shadowLoop]
  | cons o os ih =>
    intro n
    have tail : (∃ j o', os[j]? = some o' ∧ ((n + 1 + j : Nat) : Int) ≠ objnum ∧
          Blocks sqrt o' lx ly lz vx vy vz) →
        ∃ j o', (o :: os)[j]? = some o' ∧ ((n + j : Nat) : Int) ≠ objnum ∧
          Blocks sqrt o' lx ly lz vx vy vz := by
      rintro ⟨j, o', h1, h2, h3⟩
      refine ⟨j + 1, o', by simpa using h1, ?_, h3⟩
      rw [show n + (j + 1) = n + 1 + j by omega]
      exact h2
    have split : (∃ j o', (o :: os)[j]? = some o' ∧ ((n + j : Nat) : Int) ≠ objnum ∧
          Blocks sqrt o' lx ly lz vx vy vz) →
        (((n : Nat) : Int) ≠ objnum ∧ Blocks sqrt o lx ly lz vx vy vz) ∨
        ∃ j o', os[j]? = some o' ∧ ((n + 1 + j : Nat) : Int) ≠ objnum ∧
          Blocks sqrt o' lx ly lz vx vy vz := by
      rintro ⟨j, o', h1, h2, h3⟩
      cases j with
      | zero =>
        left
        simp only [List.getElem?_cons_zero, Option.some.injEq] at h1
        subst h1
        exact ⟨by simpa using h2, h3⟩
      | succ j =>
        right
        refine ⟨j, o', by simpa using h1, ?_, h3⟩
        rw [show n + 1 + j = n + (j + 1) by omega]
        exact h2
    have here : ((n : Nat) : Int) ≠ objnum → Blocks sqrt o lx ly lz vx vy vz →
        ∃ j o', (o :: os)[j]? = some o' ∧ ((n + j : Nat) : Int) ≠ objnum ∧
          Blocks sqrt o' lx ly lz vx vy vz :=
      fun h1 h2 => ⟨0, o, by simp, by simpa using h1, h2⟩
    unfold shadowLoop
    by_cases h1 : (n : Int) = objnum
    · simp only [h1, if_true]
      rw [ih (n + 1)]
      constructor
      · exact tail
      · intro h
        rcases split h with ⟨hne, _⟩ | h
        · exact absurd h1 hne
        · exact h
    · simp only [h1, if_false]
      by_cases h2 : quadDesc o lx ly lz vx vy vz (vx * vx + vy * vy + vz * vz) < 0
      · have h2' := h2
        simp only [quadDesc, quadB, quadC] at h2'
        simp only [h2', if_true]
        rw [ih (n + 1)]
        constructor
        · exact tail
        · intro h
          rcases split h with ⟨_, hb⟩ | h
          · exact absurd hb.1 (not_le.mpr h2)
          · exact h
      · have h2' := h2
        simp only [quadDesc, quadB, quadC] at h2'
        simp only [h2', if_false]
        by_cases h3 : 0 ≤ shadowAt sqrt o lx ly lz vx vy vz ∧
            shadowAt sqrt o lx ly lz vx vy vz ≤ vx * vx + vy * vy + vz * vz
        · have h3' := h3
          simp only [shadowAt, quadDesc, quadB, quadC] at h3'
          simp only [ge_iff_le, h3', and_self, if_true, true_iff]
          exact here h1 ⟨not_lt.mp h2, h3⟩
        · have h3' := h3
          simp only [shadowAt, quadDesc, quadB, quadC] at h3'
          simp only [ge_iff_le, h3', if_false]
          rw [ih (n + 1)]
          constructor
          · exact tail
          · intro h
            rcases split h with ⟨_, hb⟩ | h
            · exact absurd hb.2 h3
            · exact h

theorem shadow_iff (sqrt : F → F) (objs : List (Sphere F)) (objnum : Int)
    (px py pz lx ly lz : F) :
    shadow sqrt objs objnum px py pz lx ly lz = true ↔
      ∃ (i : Nat) (o : Sphere F), objs[i]? = some o ∧ (i : Int) ≠ objnum ∧
        Blocks sqrt o lx ly lz (px - lx) (py - ly) (pz - lz) := by
  unfold shadow
  rw [shadowLoop_iff]
  simp only [Nat.zero_add]

end ShadowLemmas

theorem vv_pos (px py pz lx ly lz : ℝ) (h : ¬ (px = lx ∧ py = ly ∧ pz = lz)) :
    0 < (px - lx) * (px - lx) + (py - ly) * (py - ly) + (pz - lz) * (pz - lz) := by
  by_contra hn
  push_neg at hn
  have h1 : (px - lx) * (px - lx) = 0 := by
    nlinarith [mul_self_nonneg (px - lx), mul_self_nonneg (py - ly), mul_self_nonneg (pz - lz)]
  have h2 : (py - ly) * (py - ly) = 0 := by
    nlinarith [mul_self_nonneg (px - lx), mul_self_nonneg (py - ly), mul_self_nonneg (pz - lz)]
  have h3 : (pz - lz) * (pz - lz) = 0 := by
    nlinarith [mul_self_nonneg (px - lx), mul_self_nonneg (py - ly), mul_self_nonneg (pz - lz)]
  exact h ⟨sub_eq_zero.mp (mul_self_eq_zero.mp h1), sub_eq_zero.mp (mul_self_eq_zero.mp h2),
    sub_eq_zero.mp (mul_self_eq_zero.mp h3)⟩

/-- The local `at` is `a·s` for the near root `s`. -/
theorem shadowAt_eq (o : Sphere ℝ) (lx ly lz vx vy vz : ℝ)
    (hv : 0 < vx * vx + vy * vy + vz * vz) :
    shadowAt Real.sqrt o lx ly lz vx vy vz =
      (vx * vx + vy * vy + vz * vz) *
        nearRoot Real.sqrt o lx ly lz vx vy vz (vx * vx + vy * vy + vz * vz) := by
  unfold shadowAt nearRoot
  field_simp
  ring

/-- The code's blocking condition says: the least parameter at which the line
`L + s·V` meets the sphere is in `[0, 1]`. -/
theorem blocks_iff (o : Sphere ℝ) (lx ly lz vx vy vz : ℝ)
    (hv : 0 < vx * vx + vy * vy + vz * vz) :
    Blocks Real.sqrt o lx ly lz vx vy vz ↔
      ∃ s, 0 ≤ s ∧ s ≤ 1 ∧ sphereQuad o lx ly lz vx vy vz s = 0 ∧
        ∀ u, sphereQuad o lx ly lz vx vy vz u = 0 → s ≤ u := by
  constructor
  · rintro ⟨hd, h0, h1⟩
    have hn := nearRoot_least o lx ly lz vx vy vz hv hd
    rw [shadowAt_eq o lx ly lz vx vy vz hv] at h0 h1
    refine ⟨_, ?_, ?_, hn.1, hn.2⟩
    · by_contra hneg
      push_neg at hneg
      nlinarith
    · by_contra hgt
      push_neg at hgt
      nlinarith
  · rintro ⟨s, h0, h1, hroot, hleast⟩
    have hd : 0 ≤ quadDesc o lx ly lz vx vy vz (vx * vx + vy * vy + vz * vz) := by
      have := hroot
      rw [sphereQuad_eq] at this
      exact desc_nonneg_of_root _ _ _ s this
    have hn := nearRoot_least o lx ly lz vx vy vz hv hd
    have hs : s = nearRoot Real.sqrt o lx ly lz vx vy vz (vx * vx + vy * vy + vz * vz) :=
      le_antisymm (hleast _ hn.1) (hn.2 s hroot)
    refine ⟨hd, ?_, ?_⟩
    · rw [shadowAt_eq o lx ly lz vx vy vz hv, ← hs]
      positivity
    · rw [shadowAt_eq o lx ly lz vx vy vz hv, ← hs]
      nlinarith

/-- C5: for `P ≠ L` the light is reported as blocked exactly when some sphere other than
the shaded one is met by the line `L + s·(P−L)` with the least such parameter `s` in
`[0, 1]`; this is the code's condition `desc >= 0`, `0 <= at <= a`, where `at = a·s` for
the near root `s`; a scene with no sphere other than the shaded one never blocks. -/
theorem C5_shadow_iff_near_intersection (objs : List (Sphere ℝ)) (objnum : Int)
    (px py pz lx ly lz : ℝ) (hPL : ¬ (px = lx ∧ py = ly ∧ pz = lz)) :
    (shadow Real.sqrt objs objnum px py pz lx ly lz = true ↔
      ∃ (i : Nat) (o : Sphere ℝ) (s : ℝ), objs[i]? = some o ∧ (i : Int) ≠ objnum ∧
        0 ≤ s ∧ s ≤ 1 ∧
        distSq (s * (px - lx) + lx) (s * (py - ly) + ly) (s * (pz - lz) + lz) o.x o.y o.z
          = o.r * o.r ∧
        ∀ u, distSq (u * (px - lx) + lx) (u * (py - ly) + ly) (u * (pz - lz) + lz)
            o.x o.y o.z = o.r * o.r → s ≤ u) ∧
    (shadow Real.sqrt objs objnum px py pz lx ly lz = true ↔
      ∃ (i : Nat) (o : Sphere ℝ), objs[i]? = some o ∧ (i : Int) ≠ objnum ∧
        0 ≤ quadDesc o lx ly lz (px - lx) (py - ly) (pz - lz)
          ((px - lx) * (px - lx) + (py - ly) * (py - ly) + (pz - lz) * (pz - lz)) ∧
        0 ≤ shadowAt Real.sqrt o lx ly lz (px - lx) (py - ly) (pz - lz) ∧
        shadowAt Real.sqrt o lx ly lz (px - lx) (py - ly) (pz - lz)
          ≤ (px - lx) * (px - lx) + (py - ly) * (py - ly) + (pz - lz) * (pz - lz)) ∧
    (∀ o : Sphere ℝ,
      shadowAt Real.sqrt o lx ly lz (px - lx) (py - ly) (pz - lz) =
        ((px - lx) * (px - lx) + (py - ly) * (py - ly) + (pz - lz) * (pz - lz)) *
          nearRoot Real.sqrt o lx ly lz (px - lx) (py - ly) (pz - lz)
            ((px - lx) * (px - lx) + (py - ly) * (py - ly) + (pz - lz) * (pz - lz))) ∧
    ((∀ (i : Nat) (o : Sphere ℝ), objs[i]? = some o → (i : Int) = objnum) →
      shadow Real.sqrt objs objnum px py pz lx ly lz = false) := by
  have hv := vv_pos px py pz lx ly lz hPL
  refine ⟨?_, ?_, fun o => shadowAt_eq o lx ly lz _ _ _ hv, ?_⟩
  · rw [shadow_iff]
    constructor
    · rintro ⟨i, o, ho, hi, hb⟩
      obtain ⟨s, h0, h1, hroot, hleast⟩ := (blocks_iff o lx ly lz _ _ _ hv).1 hb
      refine ⟨i, o, s, ho, hi, h0, h1, ?_, ?_⟩
      · rw [sphereQuad_dist] at hroot
        linarith
      · intro u hu
        apply hleast
        rw [sphereQuad_dist, hu]
        ring
    · rintro ⟨i, o, s, ho, hi, h0, h1, hon, hleast⟩
      refine ⟨i, o, ho, hi, (blocks_iff o lx ly lz _ _ _ hv).2 ⟨s, h0, h1, ?_, ?_⟩⟩
      · rw [sphereQuad_dist, hon]
        ring
      · intro u hu
        apply hleast
        rw [sphereQuad_dist] at hu
        linarith
  · rw [shadow_iff]
    rfl
  · intro hall
    rw [← Bool.not_eq_true, shadow_iff]
    rintro ⟨i, o, ho, hi, _⟩
    exact hi (hall i o ho)

/-- Witness for C5: the shading point `(1,0,0)` and a light at the origin. -/
theorem C5_shadow_iff_near_intersection_witness :
    ¬ ((1 : ℝ) = 0 ∧ (0 : ℝ) = 0 ∧ (0 : ℝ) = 0) ∧
    ((∀ (i : Nat) (o : Sphere ℝ), ([] : List (Sphere ℝ))[i]? = some o → (i : Int) = 0) →
      shadow Real.sqrt [] 0 1 0 0 0 0 0 = false) :=
  ⟨by norm_num, (C5_shadow_iff_near_intersection [] 0 1 0 0 0 0 0 (by norm_num)).2.2.2⟩

/-- C4, as stated, fails: shading the point `(1,0,0)` of sphere 0, with the light at the
origin and sphere 1 of radius 1 centred at the midpoint `(1/2,0,0)`, the light is not
reported as blocked. -/
theorem C4_midpoint_counterexample :
    ([(⟨2, 0, 0, 1, 0, ⟨1, 1, 1⟩⟩ : Sphere ℝ), ⟨1 / 2, 0, 0, 1, 0, ⟨1, 1, 1⟩⟩][1]?
        = some ⟨1 / 2, 0, 0, 1, 0, ⟨1, 1, 1⟩⟩) ∧
    ((1 : ℕ) : ℤ) ≠ 0 ∧ (1 / 2 : ℝ) = (1 + 0) / 2 ∧ (0 : ℝ) = (0 + 0) / 2 ∧ (0 : ℝ) < 1 ∧
    shadow Real.sqrt [(⟨2, 0, 0, 1, 0, ⟨1, 1, 1⟩⟩ : Sphere ℝ), ⟨1 / 2, 0, 0, 1, 0, ⟨1, 1, 1⟩⟩]
      0 1 0 0 0 0 0 = false := by
  refine ⟨rfl, by decide, by norm_num, by norm_num, by norm_num, ?_⟩
  simp only [shadow, shadowLoop]
  norm_num [sqrt_four]

/-- C4, amended: for `P ≠ L` and a sphere `o` other than the shaded one, of radius
`r > 0` and centred at the midpoint `(P+L)/2`, the local `at` is `a/2 − r·sqrt(a)` with
`a = |P−L|²`; if `2r ≤ |P−L|` (i.e. `4r² ≤ a`) then `0 ≤ at ≤ a` and the light is
reported as blocked; if `2r > |P−L|` this sphere does not satisfy the blocking
condition. -/
theorem C4_midpoint_blocks_when_it_fits (objs : List (Sphere ℝ)) (objnum : Int)
    (px py pz lx ly lz : ℝ) (i : Nat) (o : Sphere ℝ)
    (ho : objs[i]? = some o) (hi : (i : Int) ≠ objnum)
    (hPL : ¬ (px = lx ∧ py = ly ∧ pz = lz)) (hr : 0 < o.r)
    (hx : o.x = (px + lx) / 2) (hy : o.y = (py + ly) / 2) (hz : o.z = (pz + lz) / 2) :
    shadowAt Real.sqrt o lx ly lz (px - lx) (py - ly) (pz - lz) =
      ((px - lx) * (px - lx) + (py - ly) * (py - ly) + (pz - lz) * (pz - lz)) / 2
        - o.r * Real.sqrt
            ((px - lx) * (px - lx) + (py - ly) * (py - ly) + (pz - lz) * (pz - lz)) ∧
    (4 * (o.r * o.r) ≤ (px - lx) * (px - lx) + (py - ly) * (py - ly) + (pz - lz) * (pz - lz) →
      shadow Real.sqrt objs objnum px py pz lx ly lz = true ∧
      0 ≤ shadowAt Real.sqrt o lx ly lz (px - lx) (py - ly) (pz - lz) ∧
      shadowAt Real.sqrt o lx ly lz (px - lx) (py - ly) (pz - lz)
        ≤ (px - lx) * (px - lx) + (py - ly) * (py - ly) + (pz - lz) * (pz - lz)) ∧
    ((px - lx) * (px - lx) + (py - ly) * (py - ly) + (pz - lz) * (pz - lz) < 4 * (o.r * o.r) →
      ¬ Blocks Real.sqrt o lx ly lz (px - lx) (py - ly) (pz - lz)) := by
  have hv := vv_pos px py pz lx ly lz hPL
  set a := (px - lx) * (px - lx) + (py - ly) * (py - ly) + (pz - lz) * (pz - lz) with ha
  have hb : quadB o lx ly lz (px - lx) (py - ly) (pz - lz) = -a := by
    unfold quadB
    rw [hx, hy, hz, ha]
    ring
  have hd : quadDesc o lx ly lz (px - lx) (py - ly) (pz - lz) a = 4 * a * (o.r * o.r) := by
    unfold quadDesc
    rw [hb]
    unfold quadC
    rw [hx, hy, hz, ha]
    ring
  have hsa0 : 0 ≤ Real.sqrt a := Real.sqrt_nonneg a
  have hsa : Real.sqrt a * Real.sqrt a = a := Real.mul_self_sqrt (le_of_lt hv)
  have hsq : Real.sqrt (4 * a * (o.r * o.r)) = 2 * o.r * Real.sqrt a := by
    rw [Real.sqrt_eq_iff_mul_self_eq (by positivity) (by positivity)]
    have : 2 * o.r * Real.sqrt a * (2 * o.r * Real.sqrt a)
        = 4 * (Real.sqrt a * Real.sqrt a) * (o.r * o.r) := by ring
    rw [this, hsa]
  have hat : shadowAt Real.sqrt o lx ly lz (px - lx) (py - ly) (pz - lz)
      = a / 2 - o.r * Real.sqrt a := by
    unfold shadowAt
    rw [← ha, hd, hb, hsq]
    ring
  have hsapos : 0 < Real.sqrt a := Real.sqrt_pos.mpr hv
  refine ⟨hat, ?_, ?_⟩
  · intro hfit
    have h2r : 2 * o.r ≤ Real.sqrt a := by
      by_contra hlt
      push_neg at hlt
      nlinarith
    have h0 : 0 ≤ shadowAt Real.sqrt o lx ly lz (px - lx) (py - ly) (pz - lz) := by
      rw [hat]
      nlinarith
    have h1 : shadowAt Real.sqrt o lx ly lz (px - lx) (py - ly) (pz - lz) ≤ a := by
      rw [hat]
      nlinarith [mul_pos hr hsapos]
    refine ⟨?_, h0, h1⟩
    rw [shadow_iff]
    refine ⟨i, o, ho, hi, ?_, h0, h1⟩
    rw [← ha, hd]
    positivity
  · intro hbig hblk
    have h0 := hblk.2.1
    rw [hat] at h0
    have h2r : Real.sqrt a < 2 * o.r := by
      by_contra hge
      push_neg at hge
      nlinarith
    nlinarith

/-- Witness for C4 (amended): shading point `(4,0,0)` of sphere 0, light at the origin,
sphere 1 of radius 1 centred at the midpoint `(2,0,0)`. -/
theorem C4_midpoint_blocks_when_it_fits_witness :
    shadow Real.sqrt [(⟨5, 0, 0, 1, 0, ⟨1, 1, 1⟩⟩ : Sphere ℝ), ⟨2, 0, 0, 1, 0, ⟨1, 1, 1⟩⟩]
      0 4 0 0 0 0 0 = true :=
  ((C4_midpoint_blocks_when_it_fits
      [(⟨5, 0, 0, 1, 0, ⟨1, 1, 1⟩⟩ : Sphere ℝ), ⟨2, 0, 0, 1, 0, ⟨1, 1, 1⟩⟩] 0 4 0 0 0 0 0
      1 ⟨2, 0, 0, 1, 0, ⟨1, 1, 1⟩⟩ rfl (by decide) (by norm_num) (by norm_num)
      (by norm_num) (by norm_num) (by norm_num)).2.1 (by norm_num)).1

section ColorsatBasics
variable {F : Type} [LinearOrderedField F] [FloorRing F]

theorem colorsat_deep (sqrt exp : F → F) (objs : List (Sphere F)) (lights : List (Light F))
    (draws : Nat → F × F × F) (rfuel fuel : Nat) (objnum : Int) (fx fy fz px py pz : F)
    (depth : Int) (significance : F) (rng : Nat) (hd : depth > MAX_DEPTH) :
    colorsat sqrt exp objs lights draws rfuel fuel objnum fx fy fz px py pz depth
      significance rng = .ok ⟨black, rng, [], [], 0⟩ := by
  unfold colorsat
  rw [if_pos hd]

theorem colorsat_negligible (sqrt exp : F → F) (objs : List (Sphere F))
    (lights : List (Light F))
    (draws : Nat → F × F × F) (rfuel fuel : Nat) (objnum : Int) (fx fy fz px py pz : F)
    (depth : Int) (significance : F) (rng : Nat) (obj : Sphere F)
    (h0 : 0 ≤ objnum) (ho : objs[objnum.toNat]? = some obj)
    (hs : significance * min (min obj.col.red obj.col.green) obj.col.blue
      ≤ NEGLIGIBLE_SIGNIFICANCE) :
    colorsat sqrt exp objs lights draws rfuel fuel objnum fx fy fz px py pz depth
      significance rng = .ok ⟨black, rng, [], [], 0⟩ := by
  unfold colorsat
  by_cases hd : depth > MAX_DEPTH
  · rw [if_pos hd]
  · rw [if_neg hd, if_neg (not_lt.mpr h0)]
    simp only [ho]
    rw [if_pos hs]

/-- The unfolding of `colorsat` for a call that passes both termination checks. -/
theorem colorsat_run (sqrt exp : F → F) (objs : List (Sphere F))
    (lights : List (Light F))
    (draws : Nat → F × F × F) (rfuel n : Nat) (objnum : Int) (fx fy fz px py pz : F)
    (depth : Int) (significance : F) (rng : Nat) (obj : Sphere F)
    (hd : ¬ depth > MAX_DEPTH)
    (h0 : 0 ≤ objnum) (ho : objs[objnum.toNat]? = some obj)
    (hs : ¬ significance * min (min obj.col.red obj.col.green) obj.col.blue
      ≤ NEGLIGIBLE_SIGNIFICANCE) :
    colorsat sqrt exp objs lights draws rfuel (n + 1) objnum fx fy fz px py pz depth
      significance rng =
    match forLoop
        (sampleBody sqrt exp objs draws rfuel
          (colorsat sqrt exp objs lights draws rfuel n)
          objnum obj fx fy fz px py pz depth significance
          (significance * min (min obj.col.red obj.col.green) obj.col.blue)
          (if (!decide (obj.reflectivity < EPS)) = true
            then sample_size (significance * min (min obj.col.red obj.col.green) obj.col.blue) + 1
            else sample_size (significance * min (min obj.col.red obj.col.green) obj.col.blue)))
        (if (!decide (obj.reflectivity < EPS)) = true
            then sample_size (significance * min (min obj.col.red obj.col.green) obj.col.blue) + 1
            else sample_size (significance * min (min obj.col.red obj.col.green) obj.col.blue)).toNat
        0 ⟨0, black, black, rng, [], []⟩ with
    | .error e => .error e
    | .ok st => .ok (finish sqrt objs lights objnum obj px py pz st) := by
  rw [colorsat]
  rw [if_neg hd, if_neg (not_lt.mpr h0)]
  simp only [ho]
  rw [if_neg hs]
  try rfl

theorem colorsat_nofuel (sqrt exp : F → F) (objs : List (Sphere F))
    (lights : List (Light F))
    (draws : Nat → F × F × F) (rfuel : Nat) (objnum : Int) (fx fy fz px py pz : F)
    (depth : Int) (significance : F) (rng : Nat) (obj : Sphere F)
    (hd : ¬ depth > MAX_DEPTH)
    (h0 : 0 ≤ objnum) (ho : objs[objnum.toNat]? = some obj)
    (hs : ¬ significance * min (min obj.col.red obj.col.green) obj.col.blue
      ≤ NEGLIGIBLE_SIGNIFICANCE) :
    colorsat sqrt exp objs lights draws rfuel 0 objnum fx fy fz px py pz depth
      significance rng = .error .fuel := by
  rw [colorsat]
  rw [if_neg hd, if_neg (not_lt.mpr h0)]
  simp only [ho]
  rw [if_neg hs]

theorem colorsat_badindex (sqrt exp : F → F) (objs : List (Sphere F))
    (lights : List (Light F))
    (draws : Nat → F × F × F) (rfuel fuel : Nat) (objnum : Int) (fx fy fz px py pz : F)
    (depth : Int) (significance : F) (rng : Nat)
    (hd : ¬ depth > MAX_DEPTH)
    (hbad : objnum < 0 ∨ objs[objnum.toNat]? = none) :
    colorsat sqrt exp objs lights draws rfuel fuel objnum fx fy fz px py pz depth
      significance rng = .error .index := by
  rw [colorsat]
  rw [if_neg hd]
  by_cases h0 : objnum < 0
  · rw [if_pos h0]
  · rw [if_neg h0]
    rcases hbad with h | h
    · exact absurd h h0
    · simp only [h]

end ColorsatBasics

section StepLemmas
variable {F : Type} [LinearOrderedField F]

/-- Invariants of a `for` loop: what every pass preserves holds at the exit. -/
theorem forLoop_inv {S : Type} (body : Int → S → Except Fault S) (Inv : S → Prop)
    (hbody : ∀ i st st', Inv st → body i st = .ok st' → Inv st') :
    ∀ (k : Nat) (i : Int) (st st' : S), Inv st → forLoop body k i st = .ok st' → Inv st' := by
  intro k
  induction k with
  | zero =>
    intro i st st' hinv h
    simp only [forLoop, Except.ok.injEq] at h
    rw [← h]
    exact hinv
  | succ k ih =>
    intro i st st' hinv h
    rw [forLoop] at h
    cases hb : body i st with
    | error e =>
      rw [hb] at h
      cases h
    | ok st1 =>
      rw [hb] at h
      exact ih (i + 1) st1 st' (hbody i st st1 hinv hb) h

/-- What a successful reflective pass did. -/
theorem reflectStep_ok {sqrt exp : F → F} {objs : List (Sphere F)} {self : Shader F}
    {objnum : Int} {obj : Sphere F} {fx fy fz px py pz : F} {depth : Int}
    {sig0 significance : F} {st st' : LoopState F}
    (h : reflectStep sqrt exp objs self objnum obj fx fy fz px py pz depth sig0
      significance st = .ok st') :
    ∃ (d : Dir F) (b : Best F),
      d = reflectDir (px - obj.x) (py - obj.y) (pz - obj.z) obj.r fx fy fz px py pz ∧
      b = scan sqrt objs objnum px py pz d.vx d.vy d.vz d.vnormsq 0 ∧
      ((b.bestobj = -1 ∧
        st' = { st with reflection := background sqrt exp d.vx d.vy d.vz,
                        samples := st.samples ++
                          [Sample.reflect d b.bestobj (background sqrt exp d.vx d.vy d.vz)] }) ∨
       (b.bestobj ≠ -1 ∧ ∃ out,
          self b.bestobj px py pz (b.mint * d.vx + px) (b.mint * d.vy + py)
            (b.mint * d.vz + pz) (depth + 1) (significance * obj.reflectivity) st.rng
            = .ok out ∧
          st' = { st with
                  reflection := out.col, rng := out.rng,
                  edges := st.edges ++
                    ⟨true, objnum, depth, sig0, b.bestobj, depth + 1,
                      significance * obj.reflectivity⟩ :: out.edges,
                  samples := st.samples ++ [Sample.reflect d b.bestobj out.col] })) := by
  refine ⟨_, _, rfl, rfl, ?_⟩
  unfold reflectStep at h
  simp only at h
  split_ifs at h with hb
  · left
    simp only [Except.ok.injEq] at h
    exact ⟨hb, h.symm⟩
  · right
    refine ⟨hb, ?_⟩
    split at h
    · cases h
    · rename_i out hout
      simp only [Except.ok.injEq] at h
      exact ⟨out, hout, h.symm⟩

/-- What a successful diffuse pass did. -/
theorem diffuseStep_ok {sqrt exp : F → F} {objs : List (Sphere F)}
    {draws : Nat → F × F × F} {rfuel : Nat} {self : Shader F}
    {objnum : Int} {obj : Sphere F} {px py pz : F} {depth : Int}
    {sig0 significance : F} {st st' : LoopState F}
    (h : diffuseStep sqrt exp objs draws rfuel self objnum obj px py pz depth sig0
      significance st = .ok st') :
    ∃ (dr : Draw F) (d : Dir F) (b : Best F),
      drawLoop draws rfuel st.rng = .ok dr ∧
      d = diffuseDir sqrt (px - obj.x) (py - obj.y) (pz - obj.z) obj.r
            dr.vx dr.vy dr.vz dr.vnormsq ∧
      b = scan sqrt objs objnum px py pz d.vx d.vy d.vz d.vnormsq 0 ∧
      ((b.bestobj = -1 ∧
        st' = { st with
                weightsum := st.weightsum + d.weight,
                from_diffusion :=
                  ⟨st.from_diffusion.red + d.weight * (background sqrt exp d.vx d.vy d.vz).red,
                   st.from_diffusion.green
                     + d.weight * (background sqrt exp d.vx d.vy d.vz).green,
                   st.from_diffusion.blue
                     + d.weight * (background sqrt exp d.vx d.vy d.vz).blue⟩,
                rng := dr.rng,
                samples := st.samples ++
                  [Sample.diffuse d (st.weightsum + d.weight) b.bestobj
                    (background sqrt exp d.vx d.vy d.vz)] }) ∨
       (b.bestobj ≠ -1 ∧ ∃ out,
          self b.bestobj px py pz (b.mint * d.vx + px) (b.mint * d.vy + py)
            (b.mint * d.vz + pz) (depth + 1)
            (significance * (1 - obj.reflectivity) * d.weight / (st.weightsum + d.weight))
            dr.rng = .ok out ∧
          st' = { st with
                  weightsum := st.weightsum + d.weight,
                  from_diffusion :=
                    ⟨st.from_diffusion.red + out.col.red * d.weight,
                     st.from_diffusion.green + out.col.green * d.weight,
                     st.from_diffusion.blue + out.col.blue * d.weight⟩,
                  rng := out.rng,
                  edges := st.edges ++
                    ⟨false, objnum, depth, sig0, b.bestobj, depth + 1,
                      significance * (1 - obj.reflectivity) * d.weight
                        / (st.weightsum + d.weight)⟩ :: out.edges,
                  samples := st.samples ++
                    [Sample.diffuse d (st.weightsum + d.weight) b.bestobj out.col] })) := by
  unfold diffuseStep at h
  simp only at h
  split at h
  · cases h
  · rename_i dr hdr
    refine ⟨dr, _, _, hdr, rfl, rfl, ?_⟩
    split_ifs at h with hb
    · left
      simp only [Except.ok.injEq] at h
      exact ⟨hb, h.symm⟩
    · right
      refine ⟨hb, ?_⟩
      split at h
      · cases h
      · rename_i out hout
        simp only [Except.ok.injEq] at h
        exact ⟨out, hout, h.symm⟩

/-- What a successful pass of the sample loop did. -/
theorem sampleBody_ok {sqrt exp : F → F} {objs : List (Sphere F)}
    {draws : Nat → F × F × F} {rfuel : Nat} {self : Shader F}
    {objnum : Int} {obj : Sphere F} {fx fy fz px py pz : F} {depth : Int}
    {sig0 significance : F} {endat i : Int} {st st' : LoopState F}
    (h : sampleBody sqrt exp objs draws rfuel self objnum obj fx fy fz px py pz depth sig0
      significance endat i st = .ok st') :
    st' = st ∨
    (¬ obj.reflectivity < EPS ∧ i = endat - 1 ∧
      reflectStep sqrt exp objs self objnum obj fx fy fz px py pz depth sig0
        significance st = .ok st') ∨
    (¬ obj.reflectivity > 1 - EPS ∧ (obj.reflectivity < EPS ∨ i ≠ endat - 1) ∧
      diffuseStep sqrt exp objs draws rfuel self objnum obj px py pz depth sig0
        significance st = .ok st') := by
  unfold sampleBody at h
  simp only at h
  split_ifs at h with h1 h2 h3
  · left
    simp only [Except.ok.injEq] at h
    exact h.symm
  · left
    simp only [Except.ok.injEq] at h
    exact h.symm
  · right; left
    simp only [Bool.and_eq_true, Bool.not_eq_true', decide_eq_false_iff_not,
      decide_eq_true_eq] at h3
    exact ⟨h3.1, h3.2, h⟩
  · right; right
    simp only [Bool.and_eq_true, Bool.not_eq_true', decide_eq_false_iff_not,
      decide_eq_true_eq] at h1 h3
    have hcase : obj.reflectivity < EPS ∨ i ≠ endat - 1 := by
      by_cases hc : obj.reflectivity < EPS
      · exact Or.inl hc
      · exact Or.inr (fun hi => h3 ⟨hc, hi⟩)
    refine ⟨fun hfr => h1 ⟨?_, hfr⟩, hcase, h⟩
    rcases hcase with hc | hi
    · simp [hc]
    · simp [hi]

end StepLemmas

section ColorsatInversion
variable {F : Type} [LinearOrderedField F] [FloorRing F]

/-- What a returning invocation of `colorsat` did: it was pruned, or it ran the sample
loop to its end and returned through `finish`. -/
theorem colorsat_ok {sqrt exp : F → F} {objs : List (Sphere F)} {lights : List (Light F)}
    {draws : Nat → F × F × F} {rfuel fuel : Nat} {objnum : Int} {fx fy fz px py pz : F}
    {depth : Int} {significance : F} {rng : Nat} {out : Out F}
    (h : colorsat sqrt exp objs lights draws rfuel fuel objnum fx fy fz px py pz depth
      significance rng = .ok out) :
    out = ⟨black, rng, [], [], 0⟩ ∨
    ∃ (n : Nat) (obj : Sphere F) (st : LoopState F),
      fuel = n + 1 ∧ ¬ depth > MAX_DEPTH ∧ 0 ≤ objnum ∧ objs[objnum.toNat]? = some obj ∧
      ¬ significance * minSig obj ≤ NEGLIGIBLE_SIGNIFICANCE ∧
      forLoop
        (sampleBody sqrt exp objs draws rfuel
          (colorsat sqrt exp objs lights draws rfuel n)
          objnum obj fx fy fz px py pz depth significance (significance * minSig obj)
          (loopEnd obj (significance * minSig obj)))
        (loopEnd obj (significance * minSig obj)).toNat 0 (loopInit rng) = .ok st ∧
      out = finish sqrt objs lights objnum obj px py pz st := by
  by_cases hd : depth > MAX_DEPTH
  · rw [colorsat_deep _ _ _ _ _ _ _ _ _ _ _ _ _ _ _ _ _ hd] at h
    simp only [Except.ok.injEq] at h
    exact Or.inl h.symm
  · by_cases h0 : objnum < 0
    · rw [colorsat_badindex _ _ _ _ _ _ _ _ _ _ _ _ _ _ _ _ _ hd (Or.inl h0)] at h
      cases h
    · push_neg at h0
      have hopt : objs[objnum.toNat]? = none ∨ ∃ obj, objs[objnum.toNat]? = some obj := by
        cases objs[objnum.toNat]? <;> simp
      rcases hopt with ho | ⟨obj, ho⟩
      · rw [colorsat_badindex _ _ _ _ _ _ _ _ _ _ _ _ _ _ _ _ _ hd (Or.inr ho)] at h
        cases h
      · by_cases hs : significance * minSig obj ≤ NEGLIGIBLE_SIGNIFICANCE
        · rw [colorsat_negligible _ _ _ _ _ _ _ _ _ _ _ _ _ _ _ _ _ obj h0 ho hs] at h
          simp only [Except.ok.injEq] at h
          exact Or.inl h.symm
        · right
          cases fuel with
          | zero =>
            rw [colorsat_nofuel _ _ _ _ _ _ _ _ _ _ _ _ _ _ _ _ obj hd h0 ho hs] at h
            cases h
          | succ n =>
            rw [colorsat_run _ _ _ _ _ _ _ _ _ _ _ _ _ _ _ _ _ obj hd h0 ho hs] at h
            split at h
            · cases h
            · rename_i st hst
              simp only [Except.ok.injEq] at h
              exact ⟨n, obj, st, rfl, hd, h0, ho, hs, hst, h.symm⟩

/-- Every call made below an invocation at `depth` was made by an invocation whose
depth is between `depth` and `MAX_DEPTH`, with the callee one level deeper. -/
theorem colorsat_edges_depth (sqrt exp : F → F) (objs : List (Sphere F))
    (lights : List (Light F)) (draws : Nat → F × F × F) (rfuel : Nat) :
    ∀ (fuel : Nat) (objnum : Int) (fx fy fz px py pz : F) (depth : Int) (significance : F)
      (rng : Nat) (out : Out F),
      colorsat sqrt exp objs lights draws rfuel fuel objnum fx fy fz px py pz depth
        significance rng = .ok out →
      ∀ e ∈ out.edges, depth ≤ e.pdepth ∧ e.pdepth ≤ MAX_DEPTH ∧ e.cdepth = e.pdepth + 1 := by
  intro fuel
  induction fuel with
  | zero =>
    intro objnum fx fy fz px py pz depth significance rng out h
    rcases colorsat_ok h with hb | ⟨n, _, _, hn, _⟩
    · rw [hb]
      intro e he
      cases he
    · cases hn
  | succ n ih =>
    intro objnum fx fy fz px py pz depth significance rng out h
    rcases colorsat_ok h with
      hb | ⟨m, obj, st, hm, hd, _, _, _, hloop, hout⟩
    · rw [hb]
      intro e he
      cases he
    · have hmn : m = n := by omega
      subst hmn
      rw [hout]
      show ∀ e ∈ st.edges, _
      refine forLoop_inv _
        (fun s : LoopState F => ∀ e ∈ s.edges,
          depth ≤ e.pdepth ∧ e.pdepth ≤ MAX_DEPTH ∧ e.cdepth = e.pdepth + 1)
        ?_ _ _ _ _ ?_ hloop
      · intro i s s' hinv hbody
        rcases sampleBody_ok hbody with
          hsame | ⟨_, _, hr⟩ | ⟨_, _, hdf⟩
        · rw [hsame]
          exact hinv
        · obtain ⟨d, b, _, _, hcase⟩ := reflectStep_ok hr
          rcases hcase with ⟨_, hs'⟩ | ⟨_, o, ho, hs'⟩
          · rw [hs']
            exact hinv
          · rw [hs']
            intro e he
            simp only [List.mem_append, List.mem_cons] at he
            rcases he with he | he | he
            · exact hinv e he
            · rw [he]
              exact ⟨le_refl _, not_lt.mp hd, rfl⟩
            · have := ih _ _ _ _ _ _ _ _ _ _ _ ho e he
              exact ⟨by omega, this.2.1, this.2.2⟩
        · obtain ⟨dr, d, b, _, _, _, hcase⟩ :=
            diffuseStep_ok hdf
          rcases hcase with ⟨_, hs'⟩ | ⟨_, o, ho, hs'⟩
          · rw [hs']
            exact hinv
          · rw [hs']
            intro e he
            simp only [List.mem_append, List.mem_cons] at he
            rcases he with he | he | he
            · exact hinv e he
            · rw [he]
              exact ⟨le_refl _, not_lt.mp hd, rfl⟩
            · have := ih _ _ _ _ _ _ _ _ _ _ _ ho e he
              exact ⟨by omega, this.2.1, this.2.2⟩
      · intro e he
        cases he

end ColorsatInversion

theorem eps_pos : (0 : ℝ) < EPS := by
  unfold EPS
  norm_num

theorem diffuseDir_weight_nonneg (sx sy sz snorm vx vy vz vnormsq : ℝ) (hr : 0 < snorm) :
    0 ≤ (diffuseDir Real.sqrt sx sy sz snorm vx vy vz vnormsq).weight := by
  unfold diffuseDir
  simp only
  have hs : 0 ≤ snorm * Real.sqrt vnormsq := mul_nonneg (le_of_lt hr) (Real.sqrt_nonneg _)
  split_ifs with h
  · exact div_nonneg (by linarith) hs
  · exact div_nonneg (not_lt.mp h) hs

theorem minSig_bounds (o : Sphere ℝ)
    (h : 0 ≤ o.col.red ∧ o.col.red ≤ 1 ∧ 0 ≤ o.col.green ∧ o.col.green ≤ 1 ∧
      0 ≤ o.col.blue ∧ o.col.blue ≤ 1) :
    0 ≤ minSig o ∧ minSig o ≤ 1 := by
  unfold minSig
  exact ⟨le_min (le_min h.1 h.2.2.1) h.2.2.2.2.1,
    le_trans (min_le_right _ _) h.2.2.2.2.2⟩

theorem scaled_share (x w W : ℝ) (hx : 0 ≤ x) (hw : 0 ≤ w) (hW : w ≤ W) (hpos : 0 < W) :
    0 ≤ x * w / W ∧ x * w / W ≤ x := by
  constructor
  · exact div_nonneg (mul_nonneg hx hw) (le_of_lt hpos)
  · rw [div_le_iff₀ hpos]
    exact mul_le_mul_of_nonneg_left hW hx

theorem mem_of_getElem?_eq {α : Type} (l : List α) (n : Nat) (a : α) (h : l[n]? = some a) :
    a ∈ l := by
  rw [List.getElem?_eq_some_iff] at h
  obtain ⟨hn, ha⟩ := h
  rw [← ha]
  exact List.getElem_mem hn

/-- Significances handed down by `colorsat`: every recorded call satisfies `EdgeSig`. In
the model the callee of a diffuse call with `weightsum = 0` receives the field quotient `0`
and is pruned, so no call is recorded below it. -/
theorem colorsat_edges_sig (exp : ℝ → ℝ) (objs : List (Sphere ℝ))
    (lights : List (Light ℝ)) (draws : Nat → ℝ × ℝ × ℝ) (rfuel : Nat)
    (hscene : ∀ o ∈ objs, 0 < o.r ∧ 0 ≤ o.reflectivity ∧ o.reflectivity ≤ 1 ∧
      0 ≤ o.col.red ∧ o.col.red ≤ 1 ∧ 0 ≤ o.col.green ∧ o.col.green ≤ 1 ∧
      0 ≤ o.col.blue ∧ o.col.blue ≤ 1) :
    ∀ (fuel : Nat) (objnum : Int) (fx fy fz px py pz : ℝ) (depth : Int) (significance : ℝ)
      (rng : Nat) (out : Out ℝ), 0 ≤ significance →
      colorsat Real.sqrt exp objs lights draws rfuel fuel objnum fx fy fz px py pz depth
        significance rng = .ok out →
      ∀ e ∈ out.edges, EdgeSig objs e := by
  intro fuel
  induction fuel with
  | zero =>
    intro objnum fx fy fz px py pz depth significance rng out _ h
    rcases colorsat_ok h with hb | ⟨n, _, _, hn, _⟩
    · rw [hb]
      intro e he
      cases he
    · cases hn
  | succ n ih =>
    intro objnum fx fy fz px py pz depth significance rng out hsig h
    rcases colorsat_ok h with hb | ⟨m, obj, st, hm, hd, h0, hobj, _, hloop, hout⟩
    · rw [hb]
      intro e he
      cases he
    · have hmn : m = n := by omega
      subst hmn
      obtain ⟨hr, hrefl0, hrefl1, hcol⟩ := hscene obj (mem_of_getElem?_eq _ _ _ hobj)
      obtain ⟨hm0, hm1⟩ := minSig_bounds obj hcol
      have hs0 : 0 ≤ significance * minSig obj := mul_nonneg hsig hm0
      have hs1 : significance * minSig obj ≤ significance := by
        have := mul_le_mul_of_nonneg_left hm1 hsig
        linarith
      rw [hout]
      have hfin := forLoop_inv _
        (fun s : LoopState ℝ => 0 ≤ s.weightsum ∧ ∀ e ∈ s.edges, EdgeSig objs e)
        ?_ _ _ _ _ ?_ hloop
      · exact hfin.2
      · intro i s s' hinv hbody
        rcases sampleBody_ok hbody with hsame | ⟨_, _, hrf⟩ | ⟨_, _, hdf⟩
        · rw [hsame]
          exact hinv
        · obtain ⟨d, b, _, _, hcase⟩ := reflectStep_ok hrf
          rcases hcase with ⟨_, hs'⟩ | ⟨_, o, ho, hs'⟩
          · rw [hs']
            exact hinv
          · rw [hs']
            refine ⟨hinv.1, ?_⟩
            have hc0 : 0 ≤ significance * minSig obj * obj.reflectivity :=
              mul_nonneg hs0 hrefl0
            have hc1 : significance * minSig obj * obj.reflectivity ≤ significance := by
              have := mul_le_mul_of_nonneg_left hrefl1 hs0
              linarith
            intro e he
            simp only [List.mem_append, List.mem_cons] at he
            rcases he with he | he | he
            · exact hinv.2 e he
            · rw [he]
              exact ⟨rfl, obj, h0, hobj, fun _ => ⟨rfl, hc0, hc1⟩, fun hf => by cases hf⟩
            · exact ih _ _ _ _ _ _ _ _ _ _ _ hc0 ho e he
        · obtain ⟨dr, d, b, _, hd', _, hcase⟩ := diffuseStep_ok hdf
          have hw : 0 ≤ d.weight := by
            rw [hd']
            exact diffuseDir_weight_nonneg _ _ _ _ _ _ _ _ hr
          have hws : 0 ≤ s.weightsum + d.weight := add_nonneg hinv.1 hw
          rcases hcase with ⟨_, hs'⟩ | ⟨_, o, ho, hs'⟩
          · rw [hs']
            exact ⟨hws, hinv.2⟩
          · rw [hs']
            refine ⟨hws, ?_⟩
            have hx0 : 0 ≤ significance * minSig obj * (1 - obj.reflectivity) :=
              mul_nonneg hs0 (by linarith)
            have hx1 : significance * minSig obj * (1 - obj.reflectivity) ≤ significance := by
              have := mul_le_mul_of_nonneg_left (show 1 - obj.reflectivity ≤ 1 by linarith) hs0
              linarith
            have hle : d.weight ≤ s.weightsum + d.weight := by linarith [hinv.1]
            have hcs0 : 0 ≤ significance * minSig obj * (1 - obj.reflectivity) * d.weight
                / (s.weightsum + d.weight) := by
              by_cases hz : s.weightsum + d.weight = 0
              · rw [hz, div_zero]
              · exact (scaled_share _ d.weight (s.weightsum + d.weight) hx0 hw hle
                  (lt_of_le_of_ne hws (Ne.symm hz))).1
            intro e he
            simp only [List.mem_append, List.mem_cons] at he
            rcases he with he | he | he
            · exact hinv.2 e he
            · rw [he]
              refine ⟨rfl, obj, h0, hobj, (fun hf => by cases hf),
                fun _ => ⟨d.weight, s.weightsum + d.weight, hw, hle, rfl, fun hz => ?_⟩⟩
              have hsh := scaled_share _ d.weight (s.weightsum + d.weight) hx0 hw hle
                (lt_of_le_of_ne hws (Ne.symm hz))
              exact ⟨hsh.1, le_trans hsh.2 hx1⟩
            · exact ih _ _ _ _ _ _ _ _ _ _ _ hcs0 ho e he
      · exact ⟨le_refl _, fun e he => by cases he⟩

section Totality
variable {F : Type} [LinearOrderedField F]

theorem drawLoop_finds (draws : Nat → F × F × F) :
    ∀ (k g : Nat),
      ¬ ((draws (g + k)).1 * (draws (g + k)).1 + (draws (g + k)).2.1 * (draws (g + k)).2.1
          + (draws (g + k)).2.2 * (draws (g + k)).2.2 < EPS) →
      ∃ dr, ∀ rfuel, k + 1 ≤ rfuel → drawLoop draws rfuel g = .ok dr := by
  intro k
  induction k with
  | zero =>
    intro g hg
    refine ⟨⟨(draws g).1, (draws g).2.1, (draws g).2.2,
      (draws g).1 * (draws g).1 + (draws g).2.1 * (draws g).2.1
        + (draws g).2.2 * (draws g).2.2, g + 1⟩, ?_⟩
    intro rfuel hr
    obtain ⟨n, rfl⟩ : ∃ n, rfuel = n + 1 := ⟨rfuel - 1, by omega⟩
    rw [drawLoop]
    simp only [Nat.add_zero] at hg
    simp only [hg, if_false]
  | succ k ih =>
    intro g hg
    by_cases hnow : (draws g).1 * (draws g).1 + (draws g).2.1 * (draws g).2.1
        + (draws g).2.2 * (draws g).2.2 < EPS
    · have hg' : ¬ ((draws (g + 1 + k)).1 * (draws (g + 1 + k)).1
          + (draws (g + 1 + k)).2.1 * (draws (g + 1 + k)).2.1
          + (draws (g + 1 + k)).2.2 * (draws (g + 1 + k)).2.2 < EPS) := by
        rw [show g + 1 + k = g + (k + 1) by omega]
        exact hg
      obtain ⟨dr, hdr⟩ := ih (g + 1) hg'
      refine ⟨dr, ?_⟩
      intro rfuel hr
      obtain ⟨n, rfl⟩ : ∃ n, rfuel = n + 1 := ⟨rfuel - 1, by omega⟩
      rw [drawLoop]
      simp only [hnow, if_true]
      exact hdr n (by omega)
    · refine ⟨⟨(draws g).1, (draws g).2.1, (draws g).2.2,
        (draws g).1 * (draws g).1 + (draws g).2.1 * (draws g).2.1
          + (draws g).2.2 * (draws g).2.2, g + 1⟩, ?_⟩
      intro rfuel hr
      obtain ⟨n, rfl⟩ : ∃ n, rfuel = n + 1 := ⟨rfuel - 1, by omega⟩
      rw [drawLoop]
      simp only [hnow, if_false]

/-- With draws that never stay degenerate, every rejection loop ends. -/
theorem drawLoop_returns (draws : Nat → F × F × F) (hdraws : DrawsRecur draws) (g : Nat) :
    ∃ R dr, ∀ rfuel, R ≤ rfuel → drawLoop draws rfuel g = .ok dr := by
  obtain ⟨m, hm, hgood⟩ := hdraws g
  obtain ⟨k, rfl⟩ : ∃ k, m = g + k := ⟨m - g, by omega⟩
  obtain ⟨dr, hdr⟩ := drawLoop_finds draws k g hgood
  exact ⟨k + 1, dr, hdr⟩

/-- A stream of degenerate draws keeps the rejection loop running for ever. -/
theorem drawLoop_diverges (draws : Nat → F × F × F)
    (hbad : ∀ n, (draws n).1 * (draws n).1 + (draws n).2.1 * (draws n).2.1
        + (draws n).2.2 * (draws n).2.2 < EPS) :
    ∀ (rfuel g : Nat), drawLoop draws rfuel g = .error .fuel := by
  intro rfuel
  induction rfuel with
  | zero =>
    intro g
    rfl
  | succ n ih =>
    intro g
    rw [drawLoop]
    simp only [hbad g, if_true]
    exact ih (g + 1)

/-- The object the scan reports is an object of the scene. -/
theorem scan_index_valid (sqrt : F → F) (objs : List (Sphere F)) (objnum : Int)
    (px py pz vx vy vz a mint0 : F)
    (h : (scan sqrt objs objnum px py pz vx vy vz a mint0).bestobj ≠ -1) :
    0 ≤ (scan sqrt objs objnum px py pz vx vy vz a mint0).bestobj ∧
    ∃ o, objs[(scan sqrt objs objnum px py pz vx vy vz a mint0).bestobj.toNat]? = some o := by
  obtain ⟨k, hk, _, ⟨o, ho, _⟩, _⟩ := (scan_spec sqrt objs objnum px py pz vx vy vz a mint0).2 h
  rw [hk]
  exact ⟨Int.natCast_nonneg k, o, by simpa using ho⟩

theorem forLoop_returns {S : Type} (N : Nat) (body : Nat → Nat → Int → S → Except Fault S)
    (hbody : ∀ i st, ∃ R st', ∀ rfuel, R ≤ rfuel → ∀ m, N ≤ m → body rfuel m i st = .ok st') :
    ∀ (k : Nat) (i : Int) (st : S),
      ∃ R st', ∀ rfuel, R ≤ rfuel → ∀ m, N ≤ m → forLoop (body rfuel m) k i st = .ok st' := by
  intro k
  induction k with
  | zero =>
    intro i st
    exact ⟨0, st, fun _ _ _ _ => rfl⟩
  | succ k ih =>
    intro i st
    obtain ⟨R1, st1, h1⟩ := hbody i st
    obtain ⟨R2, st2, h2⟩ := ih (i + 1) st1
    refine ⟨max R1 R2, st2, ?_⟩
    intro rfuel hr m hm
    rw [forLoop, h1 rfuel (le_trans (le_max_left _ _) hr) m hm]
    exact h2 rfuel (le_trans (le_max_right _ _) hr) m hm

/-- A computation that no longer depends on its fuels and returns, returns. -/
theorem returns_of_stable {α : Type} (f : Nat → Nat → Except Fault α) (R N : Nat)
    (h1 : ∀ rfuel, R ≤ rfuel → ∀ m, N ≤ m → f rfuel m = f R N)
    (h2 : ∃ v, f R N = .ok v) :
    ∃ R' v, ∀ rfuel, R' ≤ rfuel → ∀ m, N ≤ m → f rfuel m = .ok v := by
  obtain ⟨v, hv⟩ := h2
  exact ⟨R, v, fun rfuel hr m hm => by rw [h1 rfuel hr m hm, hv]⟩

variable [FloorRing F]

/-- A pass of the sample loop ends when the calls it makes end. -/
theorem sampleBody_returns (sqrt exp : F → F) (objs : List (Sphere F))
    (lights : List (Light F)) (draws : Nat → F × F × F) (hdraws : DrawsRecur draws)
    (N : Nat) (objnum : Int) (obj : Sphere F) (fx fy fz px py pz : F) (depth : Int)
    (sig0 significance : F) (endat : Int)
    (hself : ∀ (objnum' : Int) (fx fy fz px py pz sig' : F) (rng : Nat),
      0 ≤ objnum' → (∃ o, objs[objnum'.toNat]? = some o) →
      ∃ R out, ∀ rfuel, R ≤ rfuel → ∀ m, N ≤ m →
        colorsat sqrt exp objs lights draws rfuel m objnum' fx fy fz px py pz (depth + 1)
          sig' rng = .ok out)
    (i : Int) (st : LoopState F) :
    ∃ R st', ∀ rfuel, R ≤ rfuel → ∀ m, N ≤ m →
      sampleBody sqrt exp objs draws rfuel (colorsat sqrt exp objs lights draws rfuel m)
        objnum obj fx fy fz px py pz depth sig0 significance endat i st = .ok st' := by
  unfold sampleBody
  simp only
  split_ifs with h1 h2 h3
  · exact ⟨0, st, fun _ _ _ _ => rfl⟩
  · exact ⟨0, st, fun _ _ _ _ => rfl⟩
  · -- the reflective case
    unfold reflectStep
    simp only
    generalize reflectDir (px - obj.x) (py - obj.y) (pz - obj.z) obj.r fx fy fz px py pz = d
    generalize hbdef : scan sqrt objs objnum px py pz d.vx d.vy d.vz d.vnormsq 0 = b
    by_cases hb : b.bestobj = -1
    · simp only [hb, if_true]
      exact ⟨0, _, fun _ _ _ _ => rfl⟩
    · simp only [hb, if_false]
      have hval := scan_index_valid sqrt objs objnum px py pz d.vx d.vy d.vz d.vnormsq 0
        (by rw [hbdef]; exact hb)
      rw [hbdef] at hval
      obtain ⟨R, out, hout⟩ := hself b.bestobj px py pz (b.mint * d.vx + px)
        (b.mint * d.vy + py) (b.mint * d.vz + pz) (significance * obj.reflectivity)
        st.rng hval.1 hval.2
      apply returns_of_stable _ R N
      · intro rfuel hr m hm
        simp only [hout rfuel hr m hm, hout R (le_refl R) N (le_refl N)]
      · simp only [hout R (le_refl R) N (le_refl N)]
        exact ⟨_, rfl⟩
  · -- the diffuse case
    unfold diffuseStep
    simp only
    obtain ⟨R0, dr, hdr⟩ := drawLoop_returns draws hdraws st.rng
    generalize hddef : diffuseDir sqrt (px - obj.x) (py - obj.y) (pz - obj.z) obj.r
      dr.vx dr.vy dr.vz dr.vnormsq = d
    generalize hbdef : scan sqrt objs objnum px py pz d.vx d.vy d.vz d.vnormsq 0 = b
    by_cases hb : b.bestobj = -1
    · apply returns_of_stable _ R0 N
      · intro rfuel hr m hm
        simp only [hdr rfuel hr, hdr R0 (le_refl R0), hddef, hbdef, hb, if_true]
      · simp only [hdr R0 (le_refl R0), hddef, hbdef, hb, if_true]
        exact ⟨_, rfl⟩
    · have hval := scan_index_valid sqrt objs objnum px py pz d.vx d.vy d.vz d.vnormsq 0
        (by rw [hbdef]; exact hb)
      rw [hbdef] at hval
      obtain ⟨R, out, hout⟩ := hself b.bestobj px py pz (b.mint * d.vx + px)
        (b.mint * d.vy + py) (b.mint * d.vz + pz)
        (significance * (1 - obj.reflectivity) * d.weight / (st.weightsum + d.weight))
        dr.rng hval.1 hval.2
      have hmax0 : R0 ≤ max R0 R := le_max_left _ _
      have hmax1 : R ≤ max R0 R := le_max_right _ _
      apply returns_of_stable _ (max R0 R) N
      · intro rfuel hr m hm
        simp only [hdr rfuel (le_trans hmax0 hr), hdr (max R0 R) hmax0, hddef, hbdef, hb,
          if_false, hout rfuel (le_trans hmax1 hr) m hm, hout (max R0 R) hmax1 N (le_refl N)]
      · simp only [hdr (max R0 R) hmax0, hddef, hbdef, hb, if_false,
          hout (max R0 R) hmax1 N (le_refl N)]
        exact ⟨_, rfl⟩

end Totality

section Returns
variable {F : Type} [LinearOrderedField F]

/-- With draws that never stay degenerate, `colorsat` returns: from some `rfuel` on and
for every `fuel ≥ MAX_DEPTH + 1 − depth` the model yields one and the same result. -/
theorem colorsat_returns [FloorRing F] (sqrt exp : F → F) (objs : List (Sphere F))
    (lights : List (Light F)) (draws : Nat → F × F × F) (hdraws : DrawsRecur draws) :
    ∀ (N : Nat) (objnum : Int) (fx fy fz px py pz : F) (depth : Int) (significance : F)
      (rng : Nat),
      (MAX_DEPTH + 1 - depth).toNat ≤ N →
      (depth > MAX_DEPTH ∨ (0 ≤ objnum ∧ ∃ o, objs[objnum.toNat]? = some o)) →
      ∃ R out, ∀ rfuel, R ≤ rfuel → ∀ fuel, N ≤ fuel →
        colorsat sqrt exp objs lights draws rfuel fuel objnum fx fy fz px py pz depth
          significance rng = .ok out := by
  intro N
  induction N with
  | zero =>
    intro objnum fx fy fz px py pz depth significance rng hN _
    have hd : depth > MAX_DEPTH := by
      unfold MAX_DEPTH at hN ⊢
      omega
    exact ⟨0, _, fun rfuel _ fuel _ => colorsat_deep _ _ _ _ _ _ _ _ _ _ _ _ _ _ _ _ _ hd⟩
  | succ N ih =>
    intro objnum fx fy fz px py pz depth significance rng hN hvalid
    by_cases hd : depth > MAX_DEPTH
    · exact ⟨0, _, fun rfuel _ fuel _ => colorsat_deep _ _ _ _ _ _ _ _ _ _ _ _ _ _ _ _ _ hd⟩
    · rcases hvalid with hdeep | ⟨h0, obj, hobj⟩
      · exact absurd hdeep hd
      · by_cases hs : significance * min (min obj.col.red obj.col.green) obj.col.blue
            ≤ NEGLIGIBLE_SIGNIFICANCE
        · exact ⟨0, _, fun rfuel _ fuel _ =>
            colorsat_negligible _ _ _ _ _ _ _ _ _ _ _ _ _ _ _ _ _ obj h0 hobj hs⟩
        · have hself : ∀ (objnum' : Int) (fx fy fz px py pz sig' : F) (rng : Nat),
              0 ≤ objnum' → (∃ o, objs[objnum'.toNat]? = some o) →
              ∃ R out, ∀ rfuel, R ≤ rfuel → ∀ m, N ≤ m →
                colorsat sqrt exp objs lights draws rfuel m objnum' fx fy fz px py pz
                  (depth + 1) sig' rng = .ok out := by
            intro objnum' fx fy fz px py pz sig' rng h0' hv'
            refine ih objnum' fx fy fz px py pz (depth + 1) sig' rng ?_ (Or.inr ⟨h0', hv'⟩)
            unfold MAX_DEPTH at hN ⊢
            omega
          obtain ⟨R, st', hloop⟩ := forLoop_returns N
            (fun rfuel m => sampleBody sqrt exp objs draws rfuel
              (colorsat sqrt exp objs lights draws rfuel m) objnum obj fx fy fz px py pz depth
              significance (significance * min (min obj.col.red obj.col.green) obj.col.blue)
              (if (!decide (obj.reflectivity < EPS)) = true
                then sample_size
                  (significance * min (min obj.col.red obj.col.green) obj.col.blue) + 1
                else sample_size
                  (significance * min (min obj.col.red obj.col.green) obj.col.blue)))
            (sampleBody_returns sqrt exp objs lights draws hdraws N objnum obj fx fy fz
              px py pz depth significance _ _ hself)
            (if (!decide (obj.reflectivity < EPS)) = true
                then sample_size
                  (significance * min (min obj.col.red obj.col.green) obj.col.blue) + 1
                else sample_size
                  (significance * min (min obj.col.red obj.col.green) obj.col.blue)).toNat
            0 ⟨0, black, black, rng, [], []⟩
          refine ⟨R, finish sqrt objs lights objnum obj px py pz st', ?_⟩
          intro rfuel hr fuel hf
          obtain ⟨m, rfl⟩ : ∃ m, fuel = m + 1 := ⟨fuel - 1, by omega⟩
          rw [colorsat_run _ _ _ _ _ _ _ _ _ _ _ _ _ _ _ _ _ obj hd h0 hobj hs]
          rw [hloop rfuel hr m (by omega)]

/-- The colour of a pixel: `main` gets one when the draws never stay degenerate. -/
theorem mainColor_returns [FloorRing F] (sqrt exp : F → F) (objs : List (Sphere F))
    (lights : List (Light F)) (draws : Nat → F × F × F) (hdraws : DrawsRecur draws)
    (cx cy : F) (rng : Nat) :
    ∃ R out, ∀ rfuel, R ≤ rfuel → ∀ fuel, 11 ≤ fuel →
      mainColor sqrt exp objs lights draws rfuel fuel cx cy rng = .ok out := by
  unfold mainColor
  simp only
  by_cases hb : (mainScan sqrt objs cx cy 0).bestobj = -1
  · simp only [hb, if_true]
    exact ⟨0, _, fun _ _ _ _ => rfl⟩
  · simp only [hb, if_false]
    have hval : 0 ≤ (mainScan sqrt objs cx cy 0).bestobj ∧
        ∃ o, objs[(mainScan sqrt objs cx cy 0).bestobj.toNat]? = some o := by
      rw [mainScan_eq] at hb ⊢
      exact scan_index_valid _ _ _ _ _ _ _ _ _ _ _ hb
    exact colorsat_returns sqrt exp objs lights draws hdraws 11 _ _ _ _ _ _ _ 0 1 rng
      (by unfold MAX_DEPTH; decide) (Or.inr hval)

/-- Edges below a pixel's colour: depths between `0` and `MAX_DEPTH`, callee one deeper. -/
theorem mainColor_edges_depth [FloorRing F] (sqrt exp : F → F) (objs : List (Sphere F))
    (lights : List (Light F)) (draws : Nat → F × F × F) (rfuel fuel : Nat)
    (cx cy : F) (rng : Nat) (out : Out F)
    (h : mainColor sqrt exp objs lights draws rfuel fuel cx cy rng = .ok out) :
    ∀ e ∈ out.edges, 0 ≤ e.pdepth ∧ e.pdepth ≤ MAX_DEPTH ∧ e.cdepth = e.pdepth + 1 := by
  unfold mainColor at h
  simp only at h
  split_ifs at h with hb
  · simp only [Except.ok.injEq] at h
    rw [← h]
    intro e he
    cases he
  · exact colorsat_edges_depth sqrt exp objs lights draws rfuel fuel _ _ _ _ _ _ _ _ _ _ _ h

/-- A sample loop of `k` passes records at most `k` samples. -/
theorem forLoop_samples {F : Type} (body : Int → LoopState F → Except Fault (LoopState F))
    (hbody : ∀ i st st', body i st = .ok st' → st'.samples.length ≤ st.samples.length + 1) :
    ∀ (k : Nat) (i : Int) (st st' : LoopState F), forLoop body k i st = .ok st' →
      st'.samples.length ≤ st.samples.length + k := by
  intro k
  induction k with
  | zero =>
    intro i st st' h
    simp only [forLoop, Except.ok.injEq] at h
    rw [← h]
    exact Nat.le_refl _
  | succ k ih =>
    intro i st st' h
    rw [forLoop] at h
    cases hb : body i st with
    | error e =>
      rw [hb] at h
      cases h
    | ok st1 =>
      rw [hb] at h
      have h1 := hbody i st st1 hb
      have h2 := ih (i + 1) st1 st' h
      omega

theorem sampleBody_samples (sqrt exp : F → F) (objs : List (Sphere F))
    (draws : Nat → F × F × F) (rfuel : Nat) (self : Shader F)
    (objnum : Int) (obj : Sphere F) (fx fy fz px py pz : F) (depth : Int)
    (sig0 significance : F) (endat i : Int) (st st' : LoopState F)
    (h : sampleBody sqrt exp objs draws rfuel self objnum obj fx fy fz px py pz depth sig0
      significance endat i st = .ok st') :
    st'.samples.length ≤ st.samples.length + 1 := by
  rcases sampleBody_ok h with hsame | ⟨_, _, hrf⟩ | ⟨_, _, hdf⟩
  · rw [hsame]
    exact Nat.le_succ _
  · obtain ⟨d, b, _, _, hcase⟩ := reflectStep_ok hrf
    rcases hcase with ⟨_, hs'⟩ | ⟨_, o, _, hs'⟩ <;>
    · rw [hs']
      simp
  · obtain ⟨dr, d, b, _, _, _, hcase⟩ := diffuseStep_ok hdf
    rcases hcase with ⟨_, hs'⟩ | ⟨_, o, _, hs'⟩ <;>
    · rw [hs']
      simp

/-- An invocation processes at most `sample_size(significance) + 1` samples. -/
theorem colorsat_samples_le [FloorRing F] (sqrt exp : F → F) (objs : List (Sphere F))
    (lights : List (Light F)) (draws : Nat → F × F × F) (rfuel fuel : Nat) (objnum : Int)
    (fx fy fz px py pz : F) (depth : Int) (significance : F) (rng : Nat) (out : Out F)
    (h : colorsat sqrt exp objs lights draws rfuel fuel objnum fx fy fz px py pz depth
      significance rng = .ok out) :
    out.samples = [] ∨
    ∃ obj, objs[objnum.toNat]? = some obj ∧
      out.samples.length ≤ (sample_size (significance * minSig obj) + 1).toNat := by
  rcases colorsat_ok h with hb | ⟨n, obj, st, _, _, _, hobj, _, hloop, hout⟩
  · left
    rw [hb]
  · right
    refine ⟨obj, hobj, ?_⟩
    have := forLoop_samples _ (fun i s s' hs => sampleBody_samples _ _ _ _ _ _ _ _ _ _ _ _ _
      _ _ _ _ _ _ _ _ hs) _ _ _ _ hloop
    rw [hout]
    show st.samples.length ≤ _
    have hle : (loopEnd obj (significance * minSig obj)).toNat
        ≤ (sample_size (significance * minSig obj) + 1).toNat := by
      unfold loopEnd
      split_ifs <;> omega
    simp only [loopInit, List.length_nil, Nat.zero_add] at this
    omega

end Returns

theorem objects_ok : ∀ o ∈ (objects : List (Sphere ℝ)),
    0 < o.r ∧ 0 ≤ o.reflectivity ∧ o.reflectivity ≤ 1 ∧
      0 ≤ o.col.red ∧ o.col.red ≤ 1 ∧ 0 ≤ o.col.green ∧ o.col.green ≤ 1 ∧
      0 ≤ o.col.blue ∧ o.col.blue ≤ 1 := by
  intro o ho
  simp only [objects, List.mem_cons, List.mem_singleton, List.not_mem_nil, or_false] at ho
  rcases ho with h | h | h | h | h <;>
  · rw [h]
    norm_num

theorem draws_recur_const : DrawsRecur (fun _ : Nat => ((1 : ℝ), (0 : ℝ), (0 : ℝ))) := by
  intro n
  refine ⟨n, le_refl n, ?_⟩
  simp only [EPS]
  norm_num

/-- C8: `colorsat` returns black when `depth > MAX_DEPTH`, and when the significance
times the least albedo channel of the object is at most `NEGLIGIBLE_SIGNIFICANCE`; in both
cases the position in the stream of draws is unchanged and no call, no sample and no
light test is recorded. -/
theorem C8_pruning {F : Type} [LinearOrderedField F] [FloorRing F] (sqrt exp : F → F)
    (objs : List (Sphere F)) (lights : List (Light F)) (draws : Nat → F × F × F)
    (rfuel fuel : Nat) (objnum : Int) (fx fy fz px py pz : F) (depth : Int)
    (significance : F) (rng : Nat) :
    (depth > MAX_DEPTH →
      colorsat sqrt exp objs lights draws rfuel fuel objnum fx fy fz px py pz depth
        significance rng = .ok ⟨⟨0, 0, 0⟩, rng, [], [], 0⟩) ∧
    (∀ obj : Sphere F, 0 ≤ objnum → objs[objnum.toNat]? = some obj →
      significance * min (min obj.col.red obj.col.green) obj.col.blue ≤ 1 / 1000 →
      colorsat sqrt exp objs lights draws rfuel fuel objnum fx fy fz px py pz depth
        significance rng = .ok ⟨⟨0, 0, 0⟩, rng, [], [], 0⟩) :=
  ⟨fun hd => colorsat_deep sqrt exp objs lights draws rfuel fuel objnum fx fy fz px py pz
      depth significance rng hd,
   fun obj h0 ho hs => colorsat_negligible sqrt exp objs lights draws rfuel fuel objnum
      fx fy fz px py pz depth significance rng obj h0 ho hs⟩

/-- Witness for C8: a call at depth 11 on the scene of the source. -/
theorem C8_pruning_witness :
    colorsat Real.sqrt Real.exp objects lights (fun _ => (1, 0, 0)) 0 0 4
        0 0 0 0 0 3 11 1 7 = .ok ⟨⟨0, 0, 0⟩, 7, [], [], 0⟩ :=
  (C8_pruning Real.sqrt Real.exp objects lights (fun _ => (1, 0, 0)) 0 0 4
    0 0 0 0 0 3 11 1 7).1 (by decide)

theorem viewX_centre : viewX (350 : Int) = (0 : ℝ) := by
  unfold viewX WIDTH HORIZ_RATIO
  norm_num

theorem viewY_centre : viewY (350 : Int) = (0 : ℝ) := by
  unfold viewY HEIGHT VERT_RATIO
  norm_num

theorem mainScan_example :
    mainScan Real.sqrt [(⟨0, 0, 3, 1, 0, ⟨1, 1, 1⟩⟩ : Sphere ℝ)] 0 0 0 = ⟨0, 2⟩ := by
  simp only [mainScan, mainScanLoop, mainScanBody]
  norm_num [sqrt_four]

theorem forLoop_first_error {S : Type} (body : Int → S → Except Fault S) (k : Nat) (i : Int)
    (st : S) (e : Fault) (hk : 0 < k) (h : body i st = .error e) :
    forLoop body k i st = .error e := by
  obtain ⟨n, rfl⟩ : ∃ n, k = n + 1 := ⟨k - 1, by omega⟩
  rw [forLoop, h]

/-- On a non-reflective sphere the first pass of the sample loop is a diffuse one; with a
stream of zero vectors its rejection loop is cut off whatever `rfuel` is. -/
theorem sampleBody_zero_draws (objs : List (Sphere ℝ)) (rfuel : Nat) (self : Shader ℝ)
    (objnum : Int) (obj : Sphere ℝ) (fx fy fz px py pz : ℝ) (depth : Int)
    (sig0 significance : ℝ) (endat i : Int) (st : LoopState ℝ)
    (hrefl : obj.reflectivity = 0) :
    sampleBody Real.sqrt Real.exp objs (fun _ => (0, 0, 0)) rfuel self objnum obj
      fx fy fz px py pz depth sig0 significance endat i st = .error .fuel := by
  have hlt : obj.reflectivity < EPS := by
    rw [hrefl]
    exact eps_pos
  have hnot : ¬ obj.reflectivity > 1 - EPS := by
    rw [hrefl]
    unfold EPS
    norm_num
  have hdiv := drawLoop_diverges (fun _ : Nat => ((0 : ℝ), (0 : ℝ), (0 : ℝ)))
    (fun _ => by simp only [mul_zero, add_zero]; exact eps_pos) rfuel st.rng
  unfold sampleBody
  simp only [hlt, hnot, decide_True, decide_False, Bool.not_true, Bool.false_and,
    Bool.not_false, Bool.true_and, Bool.false_eq_true, if_false]
  unfold diffuseStep
  simp only [hdiv]

/-- C7, as stated, fails: for the pixel `(350, 350)` of a scene holding one non-reflective
white sphere in front of the eye, with every random draw equal to zero, `main`'s call of
`colorsat` never returns, whatever the two fuels of the model are. -/
theorem C7_zero_draws_counterexample :
    ¬ ∃ (rfuel fuel : Nat) (out : Out ℝ),
      mainColor Real.sqrt Real.exp [(⟨0, 0, 3, 1, 0, ⟨1, 1, 1⟩⟩ : Sphere ℝ)] []
        (fun _ => (0, 0, 0)) rfuel fuel (viewX 350) (viewY 350) 0 = .ok out := by
  rintro ⟨rfuel, fuel, out, h⟩
  rw [viewX_centre, viewY_centre] at h
  unfold mainColor at h
  simp only [mainScan_example] at h
  rw [if_neg (by decide)] at h
  have hd : ¬ (0 : Int) > MAX_DEPTH := by
    unfold MAX_DEPTH
    decide
  have hobj : [(⟨0, 0, 3, 1, 0, ⟨1, 1, 1⟩⟩ : Sphere ℝ)][(0 : Int).toNat]?
      = some ⟨0, 0, 3, 1, 0, ⟨1, 1, 1⟩⟩ := rfl
  have hs : ¬ (1 : ℝ) * min (min (1 : ℝ) 1) 1 ≤ NEGLIGIBLE_SIGNIFICANCE := by
    unfold NEGLIGIBLE_SIGNIFICANCE
    norm_num
  cases fuel with
  | zero =>
    rw [colorsat_nofuel Real.sqrt Real.exp _ _ _ _ 0 _ _ _ _ _ _ 0 1 0
      ⟨0, 0, 3, 1, 0, ⟨1, 1, 1⟩⟩ hd (le_refl 0) hobj hs] at h
    cases h
  | succ n =>
    rw [colorsat_run Real.sqrt Real.exp _ _ _ _ n 0 _ _ _ _ _ _ 0 1 0
      ⟨0, 0, 3, 1, 0, ⟨1, 1, 1⟩⟩ hd (le_refl 0) hobj hs] at h
    rw [forLoop_first_error _ _ _ _ Fault.fuel ?_
      (sampleBody_zero_draws _ _ _ _ _ _ _ _ _ _ _ _ _ _ _ _ _ rfl)] at h
    · cases h
    · have hlt : (0 : ℝ) < EPS := eps_pos
      have hfl : (0 : Int) < sample_size ((1 : ℝ) * min (min (1 : ℝ) 1) 1) := by
        unfold sample_size toInt
        norm_num
      simp only [hlt, decide_True, Bool.not_true, Bool.false_eq_true, if_false]
      omega

/-- C7, amended: in the recursion tree that `main` starts for a pixel with
`colorsat(.., depth = 0, significance = 1)`, every call is made by an invocation of depth
between `0` and `MAX_DEPTH` and has depth one larger, hence at most `MAX_DEPTH + 1 = 11`;
an invocation with `depth > MAX_DEPTH` returns at once and makes no call; every invocation
processes at most `sample_size(significance) + 1` samples; and provided the stream of
random draws never stays degenerate (so that every rejection loop ends), the computation
of the pixel returns, with fuel `MAX_DEPTH + 1` for the nesting of calls. -/
theorem C7_bounded_recursion {F : Type} [LinearOrderedField F] [FloorRing F]
    (sqrt exp : F → F) (objs : List (Sphere F)) (lights : List (Light F))
    (draws : Nat → F × F × F) (cx cy : F) (rng : Nat) :
    (∀ (rfuel fuel : Nat) (out : Out F),
      mainColor sqrt exp objs lights draws rfuel fuel cx cy rng = .ok out →
      ∀ e ∈ out.edges, 0 ≤ e.pdepth ∧ e.pdepth ≤ MAX_DEPTH ∧ e.cdepth = e.pdepth + 1 ∧
        e.cdepth ≤ MAX_DEPTH + 1) ∧
    (∀ (rfuel fuel : Nat) (objnum : Int) (fx fy fz px py pz : F) (depth : Int)
        (significance : F) (g : Nat), depth > MAX_DEPTH →
      colorsat sqrt exp objs lights draws rfuel fuel objnum fx fy fz px py pz depth
        significance g = .ok ⟨black, g, [], [], 0⟩) ∧
    (∀ (rfuel fuel : Nat) (objnum : Int) (fx fy fz px py pz : F) (depth : Int)
        (significance : F) (g : Nat) (out : Out F),
      colorsat sqrt exp objs lights draws rfuel fuel objnum fx fy fz px py pz depth
        significance g = .ok out →
      out.samples = [] ∨
      ∃ obj, objs[objnum.toNat]? = some obj ∧
        out.samples.length ≤ (sample_size (significance * minSig obj) + 1).toNat) ∧
    (DrawsRecur draws →
      ∃ (R : Nat) (out : Out F), ∀ rfuel, R ≤ rfuel → ∀ fuel, 11 ≤ fuel →
        mainColor sqrt exp objs lights draws rfuel fuel cx cy rng = .ok out) := by
  refine ⟨?_, ?_, ?_, ?_⟩
  · intro rfuel fuel out h e he
    have := mainColor_edges_depth sqrt exp objs lights draws rfuel fuel cx cy rng out h e he
    refine ⟨this.1, this.2.1, this.2.2, ?_⟩
    rw [this.2.2]
    have := this.2.1
    omega
  · intro rfuel fuel objnum fx fy fz px py pz depth significance g hd
    exact colorsat_deep sqrt exp objs lights draws rfuel fuel objnum fx fy fz px py pz depth
      significance g hd
  · intro rfuel fuel objnum fx fy fz px py pz depth significance g out h
    exact colorsat_samples_le sqrt exp objs lights draws rfuel fuel objnum fx fy fz px py pz
      depth significance g out h
  · intro hdraws
    exact mainColor_returns sqrt exp objs lights draws hdraws cx cy rng

/-- Witness for C7 (amended): the centre pixel of the scene of the source, with every
draw equal to `(1,0,0)`. -/
theorem C7_bounded_recursion_witness :
    ∃ (R : Nat) (out : Out ℝ), ∀ rfuel, R ≤ rfuel → ∀ fuel, 11 ≤ fuel →
      mainColor Real.sqrt Real.exp objects lights (fun _ => (1, 0, 0)) rfuel fuel
        (viewX 350) (viewY 350) 0 = .ok out :=
  (C7_bounded_recursion Real.sqrt Real.exp objects lights (fun _ => (1, 0, 0))
    (viewX 350) (viewY 350) 0).2.2.2 draws_recur_const

/-- Mirror algebra: with `|s| = r`, the vector `w = -v/A + s·(2D/(r²A))`, where `A = v·v`
and `D = v·s`, is `(2(v·n)n − v)/A` for `n = s/r`, has squared length `1/A` and component
`(v·n)/A` along `n`. -/
theorem mirror_algebra (sx sy sz r vx vy vz A D : ℝ) (hr : r ≠ 0) (hA0 : A ≠ 0)
    (hA : vx * vx + vy * vy + vz * vz = A) (hD : vx * sx + vy * sy + vz * sz = D)
    (hs : sx * sx + sy * sy + sz * sz = r * r) :
    (-vx / A + sx * (2 * D / (r * r * A))
        = (2 * (vx * (sx / r) + vy * (sy / r) + vz * (sz / r)) * (sx / r) - vx) / A) ∧
    (-vy / A + sy * (2 * D / (r * r * A))
        = (2 * (vx * (sx / r) + vy * (sy / r) + vz * (sz / r)) * (sy / r) - vy) / A) ∧
    (-vz / A + sz * (2 * D / (r * r * A))
        = (2 * (vx * (sx / r) + vy * (sy / r) + vz * (sz / r)) * (sz / r) - vz) / A) ∧
    ((-vx / A + sx * (2 * D / (r * r * A))) * (-vx / A + sx * (2 * D / (r * r * A)))
      + (-vy / A + sy * (2 * D / (r * r * A))) * (-vy / A + sy * (2 * D / (r * r * A)))
      + (-vz / A + sz * (2 * D / (r * r * A))) * (-vz / A + sz * (2 * D / (r * r * A)))
        = 1 / A) ∧
    ((-vx / A + sx * (2 * D / (r * r * A))) * (sx / r)
      + (-vy / A + sy * (2 * D / (r * r * A))) * (sy / r)
      + (-vz / A + sz * (2 * D / (r * r * A))) * (sz / r)
        = (vx * (sx / r) + vy * (sy / r) + vz * (sz / r)) / A) := by
  have hn : vx * (sx / r) + vy * (sy / r) + vz * (sz / r) = D / r := by
    rw [← hD]
    field_simp
  obtain ⟨k, hk⟩ : ∃ k, k = 2 * D / (r * r) := ⟨_, rfl⟩
  have hkr : k * (r * r) = 2 * D := by
    rw [hk]
    field_simp
  have hwx : ∀ v s : ℝ, -v / A + s * (2 * D / (r * r * A)) = (s * k - v) / A := by
    intro v s
    rw [hk]
    field_simp
    ring
  rw [hn, hwx vx sx, hwx vy sy, hwx vz sz]
  have hkn : ∀ s : ℝ, 2 * (D / r) * (s / r) = s * k := by
    intro s
    rw [hk]
    field_simp
    ring
  refine ⟨?_, ?_, ?_, ?_, ?_⟩
  · rw [hkn]
  · rw [hkn]
  · rw [hkn]
  · have hsum : (sx * k - vx) * (sx * k - vx) + (sy * k - vy) * (sy * k - vy)
        + (sz * k - vz) * (sz * k - vz) = A := by
      linear_combination (k ^ 2) * hs + k * hkr - 2 * k * hD + hA
    have : (sx * k - vx) / A * ((sx * k - vx) / A) + (sy * k - vy) / A * ((sy * k - vy) / A)
        + (sz * k - vz) / A * ((sz * k - vz) / A)
        = ((sx * k - vx) * (sx * k - vx) + (sy * k - vy) * (sy * k - vy)
            + (sz * k - vz) * (sz * k - vz)) / (A * A) := by
      field_simp
    rw [this, hsum]
    field_simp
  · have hsum : (sx * k - vx) * sx + (sy * k - vy) * sy + (sz * k - vz) * sz = D := by
      linear_combination k * hs + hkr - hD
    have : (sx * k - vx) / A * (sx / r) + (sy * k - vy) / A * (sy / r)
        + (sz * k - vz) / A * (sz / r)
        = ((sx * k - vx) * sx + (sy * k - vy) * sy + (sz * k - vz) * sz) / (A * r) := by
      field_simp
    rw [this, hsum, div_div, mul_comm A r]

/-- C11: at a point `P` of the shaded sphere (`|P − C| = r > 0`, unit normal
`n = (P − C)/r`) and for `F ≠ P`, `v = F − P`, the direction computed in the reflective
case is the mirror image `2(v·n)n − v` divided by `|v|²` (a factor `> 0`), `vnormsq` is
recomputed as its squared length, and its cosine with the normal is that of `v`:
`(v'·n)/|v'| = (v·n)/|v|`. -/
theorem C11_reflection_direction (obj : Sphere ℝ) (fx fy fz px py pz : ℝ)
    (vx vy vz nx ny nz : ℝ) (hr : 0 < obj.r)
    (hon : distSq px py pz obj.x obj.y obj.z = obj.r * obj.r)
    (hFP : ¬ (fx = px ∧ fy = py ∧ fz = pz))
    (hvx : vx = fx - px) (hvy : vy = fy - py) (hvz : vz = fz - pz)
    (hnx : nx = (px - obj.x) / obj.r) (hny : ny = (py - obj.y) / obj.r)
    (hnz : nz = (pz - obj.z) / obj.r) :
    0 < 1 / (vx * vx + vy * vy + vz * vz) ∧
    (reflectDir (px - obj.x) (py - obj.y) (pz - obj.z) obj.r fx fy fz px py pz).vx
      = (2 * (vx * nx + vy * ny + vz * nz) * nx - vx) / (vx * vx + vy * vy + vz * vz) ∧
    (reflectDir (px - obj.x) (py - obj.y) (pz - obj.z) obj.r fx fy fz px py pz).vy
      = (2 * (vx * nx + vy * ny + vz * nz) * ny - vy) / (vx * vx + vy * vy + vz * vz) ∧
    (reflectDir (px - obj.x) (py - obj.y) (pz - obj.z) obj.r fx fy fz px py pz).vz
      = (2 * (vx * nx + vy * ny + vz * nz) * nz - vz) / (vx * vx + vy * vy + vz * vz) ∧
    (reflectDir (px - obj.x) (py - obj.y) (pz - obj.z) obj.r fx fy fz px py pz).vnormsq
      = (reflectDir (px - obj.x) (py - obj.y) (pz - obj.z) obj.r fx fy fz px py pz).vx
          * (reflectDir (px - obj.x) (py - obj.y) (pz - obj.z) obj.r fx fy fz px py pz).vx
        + (reflectDir (px - obj.x) (py - obj.y) (pz - obj.z) obj.r fx fy fz px py pz).vy
          * (reflectDir (px - obj.x) (py - obj.y) (pz - obj.z) obj.r fx fy fz px py pz).vy
        + (reflectDir (px - obj.x) (py - obj.y) (pz - obj.z) obj.r fx fy fz px py pz).vz
          * (reflectDir (px - obj.x) (py - obj.y) (pz - obj.z) obj.r fx fy fz px py pz).vz ∧
    ((reflectDir (px - obj.x) (py - obj.y) (pz - obj.z) obj.r fx fy fz px py pz).vx * nx
        + (reflectDir (px - obj.x) (py - obj.y) (pz - obj.z) obj.r fx fy fz px py pz).vy * ny
        + (reflectDir (px - obj.x) (py - obj.y) (pz - obj.z) obj.r fx fy fz px py pz).vz * nz)
      / Real.sqrt
          (reflectDir (px - obj.x) (py - obj.y) (pz - obj.z) obj.r fx fy fz px py pz).vnormsq
      = (vx * nx + vy * ny + vz * nz) / Real.sqrt (vx * vx + vy * vy + vz * vz) := by
  have hA : 0 < vx * vx + vy * vy + vz * vz := by
    rw [hvx, hvy, hvz]
    exact vv_pos fx fy fz px py pz hFP
  have hs : (px - obj.x) * (px - obj.x) + (py - obj.y) * (py - obj.y)
      + (pz - obj.z) * (pz - obj.z) = obj.r * obj.r := by
    unfold distSq at hon
    exact hon
  obtain ⟨h1, h2, h3, h4, h5⟩ := mirror_algebra (px - obj.x) (py - obj.y) (pz - obj.z) obj.r
    vx vy vz (vx * vx + vy * vy + vz * vz)
    (vx * (px - obj.x) + vy * (py - obj.y) + vz * (pz - obj.z))
    (ne_of_gt hr) (ne_of_gt hA) rfl rfl hs
  rw [← hnx, ← hny, ← hnz] at h1 h2 h3 h5
  have e1 : (reflectDir (px - obj.x) (py - obj.y) (pz - obj.z) obj.r fx fy fz px py pz).vx
      = -vx / (vx * vx + vy * vy + vz * vz) + (px - obj.x) *
        (2 * (vx * (px - obj.x) + vy * (py - obj.y) + vz * (pz - obj.z))
          / (obj.r * obj.r * (vx * vx + vy * vy + vz * vz))) := by
    rw [hvx, hvy, hvz]
    rfl
  have e2 : (reflectDir (px - obj.x) (py - obj.y) (pz - obj.z) obj.r fx fy fz px py pz).vy
      = -vy / (vx * vx + vy * vy + vz * vz) + (py - obj.y) *
        (2 * (vx * (px - obj.x) + vy * (py - obj.y) + vz * (pz - obj.z))
          / (obj.r * obj.r * (vx * vx + vy * vy + vz * vz))) := by
    rw [hvx, hvy, hvz]
    rfl
  have e3 : (reflectDir (px - obj.x) (py - obj.y) (pz - obj.z) obj.r fx fy fz px py pz).vz
      = -vz / (vx * vx + vy * vy + vz * vz) + (pz - obj.z) *
        (2 * (vx * (px - obj.x) + vy * (py - obj.y) + vz * (pz - obj.z))
          / (obj.r * obj.r * (vx * vx + vy * vy + vz * vz))) := by
    rw [hvx, hvy, hvz]
    rfl
  have e4 : (reflectDir (px - obj.x) (py - obj.y) (pz - obj.z) obj.r fx fy fz px py pz).vnormsq
      = (reflectDir (px - obj.x) (py - obj.y) (pz - obj.z) obj.r fx fy fz px py pz).vx
          * (reflectDir (px - obj.x) (py - obj.y) (pz - obj.z) obj.r fx fy fz px py pz).vx
        + (reflectDir (px - obj.x) (py - obj.y) (pz - obj.z) obj.r fx fy fz px py pz).vy
          * (reflectDir (px - obj.x) (py - obj.y) (pz - obj.z) obj.r fx fy fz px py pz).vy
        + (reflectDir (px - obj.x) (py - obj.y) (pz - obj.z) obj.r fx fy fz px py pz).vz
          * (reflectDir (px - obj.x) (py - obj.y) (pz - obj.z) obj.r fx fy fz px py pz).vz :=
    rfl
  refine ⟨by positivity, by rw [e1, h1], by rw [e2, h2], by rw [e3, h3], e4, ?_⟩
  rw [e4, e1, e2, e3, h4, h5]
  have hsq : Real.sqrt (1 / (vx * vx + vy * vy + vz * vz))
      = 1 / Real.sqrt (vx * vx + vy * vy + vz * vz) := by
    rw [one_div, Real.sqrt_inv, one_div]
  have hpos : 0 < Real.sqrt (vx * vx + vy * vy + vz * vz) := Real.sqrt_pos.mpr hA
  have hmul : Real.sqrt (vx * vx + vy * vy + vz * vz)
      * Real.sqrt (vx * vx + vy * vy + vz * vz) = vx * vx + vy * vy + vz * vz :=
    Real.mul_self_sqrt (le_of_lt hA)
  rw [hsq]
  generalize vx * nx + vy * ny + vz * nz = c
  generalize hAA : vx * vx + vy * vy + vz * vz = A at hmul hpos hA ⊢
  generalize Real.sqrt A = q at hmul hpos ⊢
  have hq : q ≠ 0 := ne_of_gt hpos
  have hA0 : A ≠ 0 := ne_of_gt hA
  field_simp
  rw [← hmul]
  ring

/-- Witness for C11: the point `(0,0,1)` of the unit sphere about the origin, reached
from `(1,0,2)`. -/
theorem C11_reflection_direction_witness :
    (reflectDir ((0 : ℝ) - 0) (0 - 0) (1 - 0) 1 1 0 2 0 0 1).vx
      = (2 * ((1 : ℝ) * 0 + 0 * 0 + 1 * 1) * 0 - 1) / (1 * 1 + 0 * 0 + 1 * 1) :=
  (C11_reflection_direction ⟨0, 0, 0, 1, 0, ⟨1, 1, 1⟩⟩ 1 0 2 0 0 1 1 0 1 0 0 1
    (by norm_num) (by unfold distSq; norm_num) (by norm_num)
    (by norm_num) (by norm_num) (by norm_num) (by norm_num) (by norm_num)
    (by norm_num)).2.1

theorem gradientMult_tendsto_atTop : Filter.Tendsto (gradientMult Real.exp) Filter.atTop (nhds 1) := by
  have h1 : Filter.Tendsto (fun x : ℝ => -x * 10) Filter.atTop Filter.atBot :=
    Filter.tendsto_neg_atTop_atBot.atBot_mul_const (by norm_num : (0 : ℝ) < 10)
  have h2 : Filter.Tendsto (fun x : ℝ => Real.exp (-x * 10)) Filter.atTop (nhds 0) :=
    Real.tendsto_exp_atBot.comp h1
  have h3 : Filter.Tendsto (fun x : ℝ => 1 + Real.exp (-x * 10)) Filter.atTop (nhds (1 + 0)) :=
    h2.const_add 1
  have h4 : Filter.Tendsto (fun x : ℝ => 1 / (1 + Real.exp (-x * 10))) Filter.atTop (nhds (1 / (1 + 0))) :=
    tendsto_const_nhds.div h3 (by norm_num)
  have h5 : (1 : ℝ) / (1 + 0) = 1 := by norm_num
  rw [h5] at h4
  exact h4

theorem gradientMult_tendsto_atBot : Filter.Tendsto (gradientMult Real.exp) Filter.atBot (nhds 0) := by
  have h1 : Filter.Tendsto (fun x : ℝ => -x * 10) Filter.atBot Filter.atTop :=
    Filter.tendsto_neg_atBot_atTop.atTop_mul_const (by norm_num : (0 : ℝ) < 10)
  have h2 : Filter.Tendsto (fun x : ℝ => Real.exp (-x * 10)) Filter.atBot Filter.atTop :=
    Real.tendsto_exp_atTop.comp h1
  have h3 : Filter.Tendsto (fun x : ℝ => 1 + Real.exp (-x * 10)) Filter.atBot Filter.atTop :=
    Filter.tendsto_atTop_add_const_left _ 1 h2
  have h4 : Filter.Tendsto (fun x : ℝ => 1 / (1 + Real.exp (-x * 10))) Filter.atBot (nhds 0) :=
    tendsto_const_nhds.div_atTop h3
  exact h4

theorem gradientMult_continuous : Continuous (gradientMult Real.exp) := by
  unfold gradientMult
  refine Continuous.div continuous_const ?_ ?_
  · exact continuous_const.add (Real.continuous_exp.comp
      ((continuous_neg).mul continuous_const))
  · intro x
    have := Real.exp_pos (-x * 10)
    linarith

theorem gradientMult_monotone : Monotone (gradientMult Real.exp) := by
  intro x y hxy
  unfold gradientMult
  have hx := Real.exp_pos (-x * 10)
  have hy := Real.exp_pos (-y * 10)
  have hle : Real.exp (-y * 10) ≤ Real.exp (-x * 10) :=
    Real.exp_le_exp.mpr (by linarith)
  exact one_div_le_one_div_of_le (by linarith) (by linarith)

theorem gradientMult_bounds (x : ℝ) :
    0 < gradientMult Real.exp x ∧ gradientMult Real.exp x < 1 := by
  unfold gradientMult
  have hx := Real.exp_pos (-x * 10)
  constructor
  · positivity
  · rw [div_lt_one (by linarith)]
    linarith

theorem gradient_red (exp : ℝ → ℝ) (x : ℝ) :
    (gradient exp x).red = BACKGROUND_LOW_RED
      + (BACKGROUND_HIGH_RED - BACKGROUND_LOW_RED) * gradientMult exp x := rfl

theorem gradient_green (exp : ℝ → ℝ) (x : ℝ) :
    (gradient exp x).green = BACKGROUND_LOW_GREEN
      + (BACKGROUND_HIGH_GREEN - BACKGROUND_LOW_GREEN) * gradientMult exp x := rfl

theorem gradient_blue (exp : ℝ → ℝ) (x : ℝ) :
    (gradient exp x).blue = BACKGROUND_LOW_BLUE
      + (BACKGROUND_HIGH_BLUE - BACKGROUND_LOW_BLUE) * gradientMult exp x := rfl

/-- Every channel of `gradient` lies between its low and its high constant. -/
theorem gradient_bounds (x : ℝ) :
    BACKGROUND_LOW_RED ≤ (gradient Real.exp x).red ∧
    (gradient Real.exp x).red ≤ BACKGROUND_HIGH_RED ∧
    BACKGROUND_LOW_GREEN ≤ (gradient Real.exp x).green ∧
    (gradient Real.exp x).green ≤ BACKGROUND_HIGH_GREEN ∧
    (gradient Real.exp x).blue = BACKGROUND_LOW_BLUE ∧
    (gradient Real.exp x).blue = BACKGROUND_HIGH_BLUE := by
  obtain ⟨h0, h1⟩ := gradientMult_bounds x
  rw [gradient_red, gradient_green, gradient_blue]
  simp only [BACKGROUND_LOW_RED, BACKGROUND_HIGH_RED, BACKGROUND_LOW_GREEN,
    BACKGROUND_HIGH_GREEN, BACKGROUND_LOW_BLUE, BACKGROUND_HIGH_BLUE]
  refine ⟨?_, ?_, ?_, ?_, ?_, ?_⟩ <;> nlinarith

theorem sqrt_zero_lt_eps : Real.sqrt ((0 : ℝ) * 0 + 0 * 0) < EPS := by
  simp only [mul_zero, add_zero, Real.sqrt_zero]
  exact eps_pos

/-- C12, as stated, fails: for the vertical direction `(0, 1, 0)` the background of a miss
in `colorsat` is black, whose red channel `0` is below `BACKGROUND_LOW_RED = 0.2`. -/
theorem C12_vertical_counterexample :
    background Real.sqrt Real.exp 0 1 0 = ⟨0, 0, 0⟩ ∧
    (background Real.sqrt Real.exp 0 1 0).red < BACKGROUND_LOW_RED := by
  have h : background Real.sqrt Real.exp 0 1 0 = ⟨0, 0, 0⟩ := by
    unfold background
    simp only [sqrt_zero_lt_eps, if_true]
    rfl
  refine ⟨h, ?_⟩
  rw [h]
  unfold BACKGROUND_LOW_RED
  norm_num

/-- C12, amended: when `sqrt(vx²+vz²) >= EPS`, each channel of the background colour of
`colorsat` lies between the low and the high constant (red and green in `[0.2, 0.5]`, blue
equal to `0.5`), and so does the colour `gradient(cy/sqrt(cx²+1))` that `main` uses on a
miss; when `sqrt(vx²+vz²) < EPS` the background colour is black. -/
theorem C12_background_bounds (vx vy vz cx cy : ℝ) :
    (¬ Real.sqrt (vx * vx + vz * vz) < EPS →
      (2 / 10 ≤ (background Real.sqrt Real.exp vx vy vz).red ∧
       (background Real.sqrt Real.exp vx vy vz).red ≤ 5 / 10 ∧
       2 / 10 ≤ (background Real.sqrt Real.exp vx vy vz).green ∧
       (background Real.sqrt Real.exp vx vy vz).green ≤ 5 / 10 ∧
       (background Real.sqrt Real.exp vx vy vz).blue = 5 / 10)) ∧
    (Real.sqrt (vx * vx + vz * vz) < EPS →
      background Real.sqrt Real.exp vx vy vz = ⟨0, 0, 0⟩) ∧
    (2 / 10 ≤ (gradient Real.exp (cy / Real.sqrt (cx * cx + 1))).red ∧
     (gradient Real.exp (cy / Real.sqrt (cx * cx + 1))).red ≤ 5 / 10 ∧
     2 / 10 ≤ (gradient Real.exp (cy / Real.sqrt (cx * cx + 1))).green ∧
     (gradient Real.exp (cy / Real.sqrt (cx * cx + 1))).green ≤ 5 / 10 ∧
     (gradient Real.exp (cy / Real.sqrt (cx * cx + 1))).blue = 5 / 10) := by
  refine ⟨?_, ?_, ?_⟩
  · intro h
    have hb : background Real.sqrt Real.exp vx vy vz
        = gradient Real.exp (vy / Real.sqrt (vx * vx + vz * vz)) := by
      unfold background
      simp only [h, if_false]
    rw [hb]
    obtain ⟨h1, h2, h3, h4, _, h6⟩ := gradient_bounds (vy / Real.sqrt (vx * vx + vz * vz))
    exact ⟨h1, h2, h3, h4, h6⟩
  · intro h
    unfold background
    simp only [h, if_true]
    rfl
  · obtain ⟨h1, h2, h3, h4, _, h6⟩ := gradient_bounds (cy / Real.sqrt (cx * cx + 1))
    exact ⟨h1, h2, h3, h4, h6⟩

/-- Witness for C12 (amended): the horizontal direction `(1, 0, 0)`. -/
theorem C12_background_bounds_witness :
    2 / 10 ≤ (background Real.sqrt Real.exp 1 0 0).red ∧
    (background Real.sqrt Real.exp 1 0 0).red ≤ 5 / 10 ∧
    2 / 10 ≤ (background Real.sqrt Real.exp 1 0 0).green ∧
    (background Real.sqrt Real.exp 1 0 0).green ≤ 5 / 10 ∧
    (background Real.sqrt Real.exp 1 0 0).blue = 5 / 10 :=
  (C12_background_bounds 1 0 0 0 0).1 (by
    have : Real.sqrt ((1 : ℝ) * 1 + 0 * 0) = 1 := by norm_num
    rw [this]
    unfold EPS
    norm_num)

/-- C13: with `mult(x) = 1/(1+exp(−10x))`, `mult` tends to `1` and each channel of
`gradient` to its high constant as `x → +∞`, `mult` tends to `0` and each channel to its
low constant as `x → −∞`; each channel of `gradient` is a continuous and monotone
non-decreasing function of `x`. -/
theorem C13_gradient_limits :
    (Filter.Tendsto (gradientMult Real.exp) Filter.atTop (nhds 1) ∧
      Filter.Tendsto (fun x => (gradient Real.exp x).red) Filter.atTop (nhds BACKGROUND_HIGH_RED) ∧
      Filter.Tendsto (fun x => (gradient Real.exp x).green) Filter.atTop (nhds BACKGROUND_HIGH_GREEN) ∧
      Filter.Tendsto (fun x => (gradient Real.exp x).blue) Filter.atTop (nhds BACKGROUND_HIGH_BLUE)) ∧
    (Filter.Tendsto (gradientMult Real.exp) Filter.atBot (nhds 0) ∧
      Filter.Tendsto (fun x => (gradient Real.exp x).red) Filter.atBot (nhds BACKGROUND_LOW_RED) ∧
      Filter.Tendsto (fun x => (gradient Real.exp x).green) Filter.atBot (nhds BACKGROUND_LOW_GREEN) ∧
      Filter.Tendsto (fun x => (gradient Real.exp x).blue) Filter.atBot (nhds BACKGROUND_LOW_BLUE)) ∧
    (Continuous (fun x => (gradient Real.exp x).red) ∧
      Continuous (fun x => (gradient Real.exp x).green) ∧
      Continuous (fun x => (gradient Real.exp x).blue)) ∧
    (Monotone (fun x => (gradient Real.exp x).red) ∧
      Monotone (fun x => (gradient Real.exp x).green) ∧
      Monotone (fun x => (gradient Real.exp x).blue)) ∧
    (∀ x, (gradient Real.exp x).red
        = BACKGROUND_LOW_RED + (BACKGROUND_HIGH_RED - BACKGROUND_LOW_RED)
            * gradientMult Real.exp x ∧
      (gradient Real.exp x).green
        = BACKGROUND_LOW_GREEN + (BACKGROUND_HIGH_GREEN - BACKGROUND_LOW_GREEN)
            * gradientMult Real.exp x ∧
      (gradient Real.exp x).blue
        = BACKGROUND_LOW_BLUE + (BACKGROUND_HIGH_BLUE - BACKGROUND_LOW_BLUE)
            * gradientMult Real.exp x) := by
  have top : ∀ lo hi : ℝ, Filter.Tendsto (fun x => lo + (hi - lo) * gradientMult Real.exp x)
      Filter.atTop (nhds hi) := by
    intro lo hi
    have := (gradientMult_tendsto_atTop.const_mul (hi - lo)).const_add lo
    simpa using this
  have bot : ∀ lo hi : ℝ, Filter.Tendsto (fun x => lo + (hi - lo) * gradientMult Real.exp x)
      Filter.atBot (nhds lo) := by
    intro lo hi
    have := (gradientMult_tendsto_atBot.const_mul (hi - lo)).const_add lo
    simpa using this
  have cont : ∀ lo hi : ℝ, Continuous (fun x => lo + (hi - lo) * gradientMult Real.exp x) :=
    fun lo hi => continuous_const.add (continuous_const.mul gradientMult_continuous)
  have mono : ∀ lo hi : ℝ, lo ≤ hi →
      Monotone (fun x => lo + (hi - lo) * gradientMult Real.exp x) := by
    intro lo hi h x y hxy
    have := gradientMult_monotone hxy
    have h' : 0 ≤ hi - lo := by linarith
    show lo + (hi - lo) * gradientMult Real.exp x ≤ lo + (hi - lo) * gradientMult Real.exp y
    nlinarith
  refine ⟨⟨gradientMult_tendsto_atTop, top _ _, top _ _, top _ _⟩,
    ⟨gradientMult_tendsto_atBot, bot _ _, bot _ _, bot _ _⟩,
    ⟨cont _ _, cont _ _, cont _ _⟩, ⟨mono _ _ ?_, mono _ _ ?_, mono _ _ ?_⟩,
    fun x => ⟨rfl, rfl, rfl⟩⟩
  · unfold BACKGROUND_LOW_RED BACKGROUND_HIGH_RED
    norm_num
  · unfold BACKGROUND_LOW_GREEN BACKGROUND_HIGH_GREEN
    norm_num
  · unfold BACKGROUND_LOW_BLUE BACKGROUND_HIGH_BLUE
    norm_num

theorem pixelComp_bounds : (0 : ℝ) < 1 - 256 * EPS - EPS ∧ (1 : ℝ) - 256 * EPS - EPS < 1 ∧
    (1 : ℝ) - 256 * EPS - EPS = 1 - 257 * EPS := by
  unfold EPS
  norm_num

/-- The two cases of the rescale step. -/
theorem rescale_cases (raw : Color ℝ) :
    (max (max raw.red raw.green) raw.blue ≥ 1 - 256 * EPS - EPS →
      rescale raw =
        (⟨raw.red * ((1 - 256 * EPS - EPS) / max (max raw.red raw.green) raw.blue),
          raw.green * ((1 - 256 * EPS - EPS) / max (max raw.red raw.green) raw.blue),
          raw.blue * ((1 - 256 * EPS - EPS) / max (max raw.red raw.green) raw.blue)⟩, true)) ∧
    (max (max raw.red raw.green) raw.blue < 1 - 256 * EPS - EPS →
      rescale raw = (raw, false)) := by
  constructor
  · intro h
    unfold rescale
    simp only [h, if_true]
  · intro h
    unfold rescale
    simp only [ge_iff_le, not_le.mpr h, if_false]

/-- After the rescale step every channel of a non-negative colour is in `[0, comp]`. -/
theorem rescale_bounds (raw : Color ℝ) (hnn : NonNeg raw) :
    (0 ≤ (rescale raw).1.red ∧ (rescale raw).1.red ≤ 1 - 256 * EPS - EPS) ∧
    (0 ≤ (rescale raw).1.green ∧ (rescale raw).1.green ≤ 1 - 256 * EPS - EPS) ∧
    (0 ≤ (rescale raw).1.blue ∧ (rescale raw).1.blue ≤ 1 - 256 * EPS - EPS) := by
  obtain ⟨hc0, _, _⟩ := pixelComp_bounds
  obtain ⟨h1, h2, h3⟩ := hnn
  have hr : raw.red ≤ max (max raw.red raw.green) raw.blue :=
    le_trans (le_max_left _ _) (le_max_left _ _)
  have hg : raw.green ≤ max (max raw.red raw.green) raw.blue :=
    le_trans (le_max_right _ _) (le_max_left _ _)
  have hb : raw.blue ≤ max (max raw.red raw.green) raw.blue := le_max_right _ _
  by_cases h : max (max raw.red raw.green) raw.blue ≥ 1 - 256 * EPS - EPS
  · rw [(rescale_cases raw).1 h]
    have hm : 0 < max (max raw.red raw.green) raw.blue := lt_of_lt_of_le hc0 h
    have key : ∀ c : ℝ, 0 ≤ c → c ≤ max (max raw.red raw.green) raw.blue →
        0 ≤ c * ((1 - 256 * EPS - EPS) / max (max raw.red raw.green) raw.blue) ∧
        c * ((1 - 256 * EPS - EPS) / max (max raw.red raw.green) raw.blue)
          ≤ 1 - 256 * EPS - EPS := by
      intro c hc0' hcm
      constructor
      · exact mul_nonneg hc0' (div_nonneg (le_of_lt hc0) (le_of_lt hm))
      · rw [← mul_div_assoc, div_le_iff₀ hm]
        have := mul_le_mul_of_nonneg_right hcm (le_of_lt hc0)
        linarith
    exact ⟨key _ h1 hr, key _ h2 hg, key _ h3 hb⟩
  · push_neg at h
    rw [(rescale_cases raw).2 h]
    exact ⟨⟨h1, by linarith⟩, ⟨h2, by linarith⟩, ⟨h3, by linarith⟩⟩

/-- A channel in `[0, comp]` is mapped to a byte without wrap-around. -/
theorem toUInt8_gamma (c : ℝ) (h0 : 0 ≤ c) (h1 : c ≤ 1 - 256 * EPS - EPS) :
    0 ≤ 256 * Real.rpow c GAMMA_CORRECTION ∧ 256 * Real.rpow c GAMMA_CORRECTION < 256 ∧
    toUInt8 (256 * Real.rpow c GAMMA_CORRECTION) = ⌊256 * Real.rpow c GAMMA_CORRECTION⌋ ∧
    0 ≤ toUInt8 (256 * Real.rpow c GAMMA_CORRECTION) ∧
    toUInt8 (256 * Real.rpow c GAMMA_CORRECTION) ≤ 255 := by
  obtain ⟨_, hc1, _⟩ := pixelComp_bounds
  have hlt : c < 1 := lt_of_le_of_lt h1 hc1
  have hg : (0 : ℝ) < GAMMA_CORRECTION := by
    unfold GAMMA_CORRECTION
    norm_num
  have hp0 : 0 ≤ Real.rpow c GAMMA_CORRECTION := Real.rpow_nonneg h0 _
  have hp1 : Real.rpow c GAMMA_CORRECTION < 1 := Real.rpow_lt_one h0 hlt hg
  have hy0 : 0 ≤ 256 * Real.rpow c GAMMA_CORRECTION := by positivity
  have hy1 : 256 * Real.rpow c GAMMA_CORRECTION < 256 := by linarith
  have hf0 : 0 ≤ ⌊256 * Real.rpow c GAMMA_CORRECTION⌋ := Int.floor_nonneg.mpr hy0
  have hf1 : ⌊256 * Real.rpow c GAMMA_CORRECTION⌋ < 256 := by
    rw [Int.floor_lt]
    exact_mod_cast hy1
  have ht : toUInt8 (256 * Real.rpow c GAMMA_CORRECTION)
      = ⌊256 * Real.rpow c GAMMA_CORRECTION⌋ := by
    unfold toUInt8 toInt
    rw [if_pos hy0]
    exact Int.emod_eq_of_lt hf0 hf1
  refine ⟨hy0, hy1, ht, ?_, ?_⟩
  · rw [ht]
    exact hf0
  · rw [ht]
    omega

/-- C14: for a colour with channels `≥ 0`, after the rescale step every channel `c` has
`0 ≤ c ≤ 1 − 257·EPS < 1`, so `0 ≤ 256·c^2.2 < 256`, and each byte of the pixel is the
truncation of that value, in `0..255`, unchanged by the reduction modulo `2^8`. -/
theorem C14_to_pixel_no_overflow (raw : Color ℝ)
    (hnn : 0 ≤ raw.red ∧ 0 ≤ raw.green ∧ 0 ≤ raw.blue) :
    ((1 : ℝ) - 257 * EPS < 1) ∧
    (0 ≤ (rescale raw).1.red ∧ (rescale raw).1.red ≤ 1 - 257 * EPS ∧
      0 ≤ 256 * Real.rpow (rescale raw).1.red (22 / 10) ∧
      256 * Real.rpow (rescale raw).1.red (22 / 10) < 256 ∧
      (to_pixel Real.rpow raw).r = ⌊256 * Real.rpow (rescale raw).1.red (22 / 10)⌋ ∧
      0 ≤ (to_pixel Real.rpow raw).r ∧ (to_pixel Real.rpow raw).r ≤ 255) ∧
    (0 ≤ (rescale raw).1.green ∧ (rescale raw).1.green ≤ 1 - 257 * EPS ∧
      0 ≤ 256 * Real.rpow (rescale raw).1.green (22 / 10) ∧
      256 * Real.rpow (rescale raw).1.green (22 / 10) < 256 ∧
      (to_pixel Real.rpow raw).g = ⌊256 * Real.rpow (rescale raw).1.green (22 / 10)⌋ ∧
      0 ≤ (to_pixel Real.rpow raw).g ∧ (to_pixel Real.rpow raw).g ≤ 255) ∧
    (0 ≤ (rescale raw).1.blue ∧ (rescale raw).1.blue ≤ 1 - 257 * EPS ∧
      0 ≤ 256 * Real.rpow (rescale raw).1.blue (22 / 10) ∧
      256 * Real.rpow (rescale raw).1.blue (22 / 10) < 256 ∧
      (to_pixel Real.rpow raw).b = ⌊256 * Real.rpow (rescale raw).1.blue (22 / 10)⌋ ∧
      0 ≤ (to_pixel Real.rpow raw).b ∧ (to_pixel Real.rpow raw).b ≤ 255) := by
  obtain ⟨_, hc1, hceq⟩ := pixelComp_bounds
  obtain ⟨⟨r0, r1⟩, ⟨g0, g1⟩, ⟨b0, b1⟩⟩ := rescale_bounds raw hnn
  obtain ⟨ra, rb, rc, rd, re⟩ := toUInt8_gamma _ r0 r1
  obtain ⟨ga, gb, gc, gd, ge⟩ := toUInt8_gamma _ g0 g1
  obtain ⟨ba, bb, bc, bd, be⟩ := toUInt8_gamma _ b0 b1
  rw [hceq] at r1 g1 b1 hc1
  exact ⟨hc1, ⟨r0, r1, ra, rb, rc, rd, re⟩, ⟨g0, g1, ga, gb, gc, gd, ge⟩,
    ⟨b0, b1, ba, bb, bc, bd, be⟩⟩

/-- Witness for C14: the colour `(2, 1, 0)`, which is too bright to display. -/
theorem C14_to_pixel_no_overflow_witness :
    0 ≤ (to_pixel Real.rpow (⟨2, 1, 0⟩ : Color ℝ)).r ∧
    (to_pixel Real.rpow (⟨2, 1, 0⟩ : Color ℝ)).r ≤ 255 :=
  ⟨(C14_to_pixel_no_overflow ⟨2, 1, 0⟩ ⟨by norm_num, by norm_num, by norm_num⟩).2.1.2.2.2.2.2.1,
   (C14_to_pixel_no_overflow ⟨2, 1, 0⟩ ⟨by norm_num, by norm_num, by norm_num⟩).2.1.2.2.2.2.2.2⟩

/-- C15: when the largest channel `max` is at least `comp = 1 − 257·EPS`, `to_pixel`
multiplies the three channels by one factor `comp/max` in `(0, 1]`, so cross-ratios of
channels are unchanged and the largest channel becomes exactly `comp` (and the warning is
printed); when `max < comp` the colour reaches the gamma step unchanged. -/
theorem C15_rescale_preserves_hue (raw : Color ℝ) :
    (max (max raw.red raw.green) raw.blue ≥ 1 - 257 * EPS →
      0 < (1 - 257 * EPS) / max (max raw.red raw.green) raw.blue ∧
      (1 - 257 * EPS) / max (max raw.red raw.green) raw.blue ≤ 1 ∧
      (rescale raw).1.red
        = raw.red * ((1 - 257 * EPS) / max (max raw.red raw.green) raw.blue) ∧
      (rescale raw).1.green
        = raw.green * ((1 - 257 * EPS) / max (max raw.red raw.green) raw.blue) ∧
      (rescale raw).1.blue
        = raw.blue * ((1 - 257 * EPS) / max (max raw.red raw.green) raw.blue) ∧
      (rescale raw).1.red * raw.green = (rescale raw).1.green * raw.red ∧
      (rescale raw).1.green * raw.blue = (rescale raw).1.blue * raw.green ∧
      (rescale raw).1.red * raw.blue = (rescale raw).1.blue * raw.red ∧
      max (max (rescale raw).1.red (rescale raw).1.green) (rescale raw).1.blue
        = 1 - 257 * EPS ∧
      (rescale raw).2 = true) ∧
    (max (max raw.red raw.green) raw.blue < 1 - 257 * EPS →
      rescale raw = (raw, false) ∧
      to_pixel Real.rpow raw =
        ⟨toUInt8 (256 * Real.rpow raw.blue (22 / 10)),
         toUInt8 (256 * Real.rpow raw.green (22 / 10)),
         toUInt8 (256 * Real.rpow raw.red (22 / 10))⟩) := by
  obtain ⟨hc0, _, hceq⟩ := pixelComp_bounds
  rw [← hceq]
  constructor
  · intro h
    have hm : 0 < max (max raw.red raw.green) raw.blue := lt_of_lt_of_le hc0 h
    have hk0 : 0 < (1 - 256 * EPS - EPS) / max (max raw.red raw.green) raw.blue :=
      div_pos hc0 hm
    have hk1 : (1 - 256 * EPS - EPS) / max (max raw.red raw.green) raw.blue ≤ 1 := by
      rw [div_le_one hm]
      exact h
    rw [(rescale_cases raw).1 h]
    refine ⟨hk0, hk1, rfl, rfl, rfl, by ring, by ring, by ring, ?_, rfl⟩
    show max (max (raw.red * _) (raw.green * _)) (raw.blue * _) = _
    rw [← max_mul_of_nonneg _ _ (le_of_lt hk0), ← max_mul_of_nonneg _ _ (le_of_lt hk0)]
    field_simp
  · intro h
    have hres := (rescale_cases raw).2 h
    refine ⟨hres, ?_⟩
    unfold to_pixel
    rw [hres]
    rfl

/-- Witness for C15: the colour `(2, 1, 0)`, whose largest channel is above `comp`. -/
theorem C15_rescale_preserves_hue_witness :
    max (max (rescale (⟨2, 1, 0⟩ : Color ℝ)).1.red (rescale (⟨2, 1, 0⟩ : Color ℝ)).1.green)
        (rescale (⟨2, 1, 0⟩ : Color ℝ)).1.blue = 1 - 257 * EPS :=
  ((C15_rescale_preserves_hue ⟨2, 1, 0⟩).1 (by
    have h : max (max (2 : ℝ) 1) 0 = 2 := by norm_num
    show max (max (2 : ℝ) 1) 0 ≥ 1 - 257 * EPS
    rw [h]
    unfold EPS
    norm_num)).2.2.2.2.2.2.2.2.1

theorem mask_eq : (2 ^ 64 - 1 - 3 : Nat) = (2 ^ 62 - 1) <<< 2 := by decide

/-- In 64 bits, `x & ~3` clears the two low bits of `x`. -/
theorem land_mask (x : Nat) (hx : x < 2 ^ 64) : x &&& (2 ^ 64 - 1 - 3) = x / 4 * 4 := by
  apply Nat.eq_of_testBit_eq
  intro i
  rw [Nat.testBit_and, mask_eq, Nat.testBit_shiftLeft]
  have h4 : x / 4 * 4 = (x >>> 2) <<< 2 := by
    rw [Nat.shiftLeft_eq, Nat.shiftRight_eq_div_pow]
  rw [h4, Nat.testBit_shiftLeft, Nat.testBit_shiftRight]
  by_cases hi : 2 ≤ i
  · simp only [hi, decide_True, Bool.true_and, ge_iff_le]
    have e : 2 + (i - 2) = i := by omega
    rw [e]
    by_cases hi2 : i < 64
    · have : (2 ^ 62 - 1).testBit (i - 2) = true := by
        rw [Nat.testBit_two_pow_sub_one]
        simp
        omega
      rw [this, Bool.and_true]
    · have : x.testBit i = false := by
        apply Nat.testBit_lt_two_pow
        calc x < 2 ^ 64 := hx
          _ ≤ 2 ^ i := Nat.pow_le_pow_right (by norm_num) (by omega)
      rw [this]
      rfl
  · simp [hi]

theorem paddedRow_eq (W : Nat) (hW : W * 3 + 3 < 2 ^ 64) :
    paddedRow W = (W * 3 + 3) / 4 * 4 := by
  unfold paddedRow sizeofPixel
  rw [Nat.mod_eq_of_lt hW]
  exact land_mask _ hW

/-- C18: for every width `W` whose row of `3·W + 3` bytes is representable in `size_t`,
the padded row size `((3·W + 3) & ~3)` is the least multiple of 4 that is `≥ 3·W` and the
pad has 0 to 3 bytes; for `WIDTH = HEIGHT = 700` the pad is empty, a row has 2100 bytes,
`array_start` is `54 = 14 + 40`, `compressed_size` is `700·2100 = 1470000` and the file
size field is `1470054`. -/
theorem C18_bitmap_layout (W : Nat) (hW : W * 3 + 3 < 2 ^ 64) :
    (paddedRow W % 4 = 0 ∧ 3 * W ≤ paddedRow W ∧
      (∀ m, m % 4 = 0 → 3 * W ≤ m → paddedRow W ≤ m) ∧
      padLen W = paddedRow W - 3 * W ∧ padLen W ≤ 3 ∧
      sizeofPixelRow W = paddedRow W) ∧
    (padLen 700 = 0 ∧ sizeofPixelRow 700 = 2100 ∧ sizeofCoreHeader = 40 ∧
      rowOffset = 14 + 40 ∧ array_start = 54 ∧
      compressed_size 700 700 = 700 * 2100 ∧ compressed_size 700 700 = 1470000 ∧
      bmpSize 700 700 = 1470054) := by
  have h64 : (2 : Nat) ^ 64 = 18446744073709551616 := by norm_num
  have hp := paddedRow_eq W hW
  rw [h64] at hW
  have hpad : padLen W = paddedRow W - 3 * W := by
    unfold padLen sizeofPixel
    rw [hp, h64]
    omega
  refine ⟨⟨?_, ?_, ?_, hpad, ?_, ?_⟩, by decide⟩
  · rw [hp]
    omega
  · rw [hp]
    omega
  · intro m hm hle
    rw [hp]
    omega
  · rw [hpad, hp]
    omega
  · unfold sizeofPixelRow sizeofPixel
    rw [hpad, hp]
    omega

/-- Witness for C18: the compiled width `700`. -/
theorem C18_bitmap_layout_witness :
    paddedRow 700 % 4 = 0 ∧ 3 * 700 ≤ paddedRow 700 ∧
      (∀ m, m % 4 = 0 → 3 * 700 ≤ m → paddedRow 700 ≤ m) ∧
      padLen 700 = paddedRow 700 - 3 * 700 ∧ padLen 700 ≤ 3 ∧
      sizeofPixelRow 700 = paddedRow 700 :=
  (C18_bitmap_layout 700 (by norm_num)).1

section LoopIndex
variable {F : Type} [LinearOrderedField F]

/-- Invariants of a `for` loop that depend on the index: what the pass at index
`i0 + j` carries from `j` to `j + 1` holds after `k` passes. -/
theorem forLoop_inv_idx {S : Type} (body : Int → S → Except Fault S) (Inv : Nat → S → Prop)
    (i0 : Int) :
    ∀ (k j0 : Nat) (st st' : S),
      (∀ j, j0 ≤ j → j < j0 + k → ∀ s s', Inv j s → body (i0 + (j : Int)) s = .ok s' →
        Inv (j + 1) s') →
      Inv j0 st → forLoop body k (i0 + (j0 : Int)) st = .ok st' → Inv (j0 + k) st' := by
  intro k
  induction k with
  | zero =>
    intro j0 st st' _ hinv h
    simp only [forLoop, Except.ok.injEq] at h
    rw [← h]
    exact hinv
  | succ k ih =>
    intro j0 st st' hbody hinv h
    rw [forLoop] at h
    cases hb : body (i0 + (j0 : Int)) st with
    | error e =>
      rw [hb] at h
      cases h
    | ok st1 =>
      rw [hb] at h
      have h1 := hbody j0 (le_refl _) (by omega) st st1 hinv hb
      have hidx : i0 + (j0 : Int) + 1 = i0 + ((j0 + 1 : Nat) : Int) := by
        push_cast
        ring
      rw [hidx] at h
      have := ih (j0 + 1) st1 st'
        (fun j hj hlt s s' hs hbs => hbody j (by omega) (by omega) s s' hs hbs) h1 h
      rw [show j0 + (k + 1) = j0 + 1 + k by omega]
      exact this

/-- What a successful pass of the sample loop did, with the reason of a `continue`. -/
theorem sampleBody_ok_full {sqrt exp : F → F} {objs : List (Sphere F)}
    {draws : Nat → F × F × F} {rfuel : Nat} {self : Shader F}
    {objnum : Int} {obj : Sphere F} {fx fy fz px py pz : F} {depth : Int}
    {sig0 significance : F} {endat i : Int} {st st' : LoopState F}
    (h : sampleBody sqrt exp objs draws rfuel self objnum obj fx fy fz px py pz depth sig0
      significance endat i st = .ok st') :
    (obj.reflectivity > 1 - EPS ∧ (obj.reflectivity < EPS ∨ i ≠ endat - 1) ∧ st' = st) ∨
    (¬ obj.reflectivity < EPS ∧ i = endat - 1 ∧
      reflectStep sqrt exp objs self objnum obj fx fy fz px py pz depth sig0
        significance st = .ok st') ∨
    (¬ obj.reflectivity > 1 - EPS ∧ (obj.reflectivity < EPS ∨ i ≠ endat - 1) ∧
      diffuseStep sqrt exp objs draws rfuel self objnum obj px py pz depth sig0
        significance st = .ok st') := by
  by_cases hc : obj.reflectivity < EPS
  · by_cases hfr : obj.reflectivity > 1 - EPS
    · left
      refine ⟨hfr, Or.inl hc, ?_⟩
      unfold sampleBody at h
      simp only [hc, hfr, decide_True, Bool.not_true, Bool.false_and, Bool.not_false,
        Bool.true_and, if_true, Except.ok.injEq] at h
      exact h.symm
    · right; right
      refine ⟨hfr, Or.inl hc, ?_⟩
      unfold sampleBody at h
      simp only [hc, hfr, decide_True, decide_False, Bool.not_true, Bool.false_and,
        Bool.not_false, Bool.true_and, Bool.false_eq_true, if_false] at h
      exact h
  · by_cases hi : i = endat - 1
    · right; left
      refine ⟨hc, hi, ?_⟩
      unfold sampleBody at h
      simp only [hc, hi, decide_True, decide_False, Bool.not_true, Bool.false_and,
        Bool.not_false, Bool.true_and, Bool.and_false, Bool.false_eq_true, if_false,
        if_true] at h
      exact h
    · by_cases hfr : obj.reflectivity > 1 - EPS
      · left
        refine ⟨hfr, Or.inr hi, ?_⟩
        unfold sampleBody at h
        simp only [hc, hi, hfr, decide_True, decide_False, Bool.not_true, Bool.false_and,
          Bool.not_false, Bool.true_and, Bool.and_false, Bool.and_true, if_true,
          Except.ok.injEq] at h
        exact h.symm
      · right; right
        refine ⟨hfr, Or.inr hi, ?_⟩
        unfold sampleBody at h
        simp only [hc, hi, hfr, decide_True, decide_False, Bool.not_true, Bool.false_and,
          Bool.not_false, Bool.true_and, Bool.and_false, Bool.and_true, Bool.false_eq_true,
          if_false] at h
        exact h

/-- What the rejection loop returns: an accepted draw, with `vnormsq` its squared length. -/
theorem drawLoop_ok (draws : Nat → F × F × F) :
    ∀ (rfuel g : Nat) (dr : Draw F), drawLoop draws rfuel g = .ok dr →
      ¬ dr.vnormsq < EPS ∧ dr.vnormsq = dr.vx * dr.vx + dr.vy * dr.vy + dr.vz * dr.vz ∧
      g < dr.rng := by
  intro rfuel
  induction rfuel with
  | zero =>
    intro g dr h
    cases h
  | succ n ih =>
    intro g dr h
    rw [drawLoop] at h
    split_ifs at h with hlt
    · obtain ⟨h1, h2, h3⟩ := ih (g + 1) dr h
      exact ⟨h1, h2, by omega⟩
    · simp only [Except.ok.injEq] at h
      rw [← h]
      exact ⟨hlt, rfl, Nat.lt_succ_self g⟩

theorem diffuseCount_append {F : Type} (l l' : List (Sample F)) :
    diffuseCount (l ++ l') = diffuseCount l + diffuseCount l' := by
  induction l with
  | nil => simp [diffuseCount]
  | cons s l ih =>
    cases s
    · simp [diffuseCount, ih]
    · simp [diffuseCount, ih]
      omega

theorem reflectCount_append {F : Type} (l l' : List (Sample F)) :
    reflectCount (l ++ l') = reflectCount l + reflectCount l' := by
  induction l with
  | nil => simp [reflectCount]
  | cons s l ih =>
    cases s
    · simp [reflectCount, ih]
      omega
    · simp [reflectCount, ih]

theorem diffuseSums_append {F : Type} (l l' : List (Sample F)) :
    diffuseSums (l ++ l') = diffuseSums l ++ diffuseSums l' := by
  induction l with
  | nil => simp [diffuseSums]
  | cons s l ih =>
    cases s <;> simp [diffuseSums, ih]

theorem weightTotal_append (l l' : List (Sample F)) :
    weightTotal (l ++ l') = weightTotal l + weightTotal l' := by
  induction l with
  | nil => simp [weightTotal]
  | cons s l ih =>
    cases s <;> simp [weightTotal, ih, add_assoc]

theorem weightedTotal_append (l l' : List (Sample F)) :
    (weightedTotal (l ++ l')).red = (weightedTotal l).red + (weightedTotal l').red ∧
    (weightedTotal (l ++ l')).green = (weightedTotal l).green + (weightedTotal l').green ∧
    (weightedTotal (l ++ l')).blue = (weightedTotal l).blue + (weightedTotal l').blue := by
  induction l with
  | nil => simp [weightedTotal]
  | cons s l ih =>
    cases s with
    | reflect d b c =>
      simpa [weightedTotal] using ih
    | diffuse d ws b c =>
      obtain ⟨h1, h2, h3⟩ := ih
      refine ⟨?_, ?_, ?_⟩
      · show d.weight * c.red + (weightedTotal (l ++ l')).red = _
        rw [h1]
        simp only [weightedTotal]
        ring
      · show d.weight * c.green + (weightedTotal (l ++ l')).green = _
        rw [h2]
        simp only [weightedTotal]
        ring
      · show d.weight * c.blue + (weightedTotal (l ++ l')).blue = _
        rw [h3]
        simp only [weightedTotal]
        ring

end LoopIndex

section Counts
variable {F : Type} [LinearOrderedField F]

/-- A reflective pass records one reflection sample and leaves the diffuse sums alone. -/
theorem reflectStep_samples {sqrt exp : F → F} {objs : List (Sphere F)} {self : Shader F}
    {objnum : Int} {obj : Sphere F} {fx fy fz px py pz : F} {depth : Int}
    {sig0 significance : F} {st st' : LoopState F}
    (h : reflectStep sqrt exp objs self objnum obj fx fy fz px py pz depth sig0
      significance st = .ok st') :
    ∃ (b : Int) (c : Color F),
      st'.samples = st.samples ++
        [Sample.reflect (reflectDir (px - obj.x) (py - obj.y) (pz - obj.z) obj.r
          fx fy fz px py pz) b c] ∧
      st'.reflection = c ∧
      st'.weightsum = st.weightsum ∧ st'.from_diffusion = st.from_diffusion := by
  obtain ⟨d, b, hd, _, hcase⟩ := reflectStep_ok h
  rw [← hd]
  rcases hcase with ⟨_, hs'⟩ | ⟨_, o, _, hs'⟩
  · rw [hs']
    exact ⟨_, _, rfl, rfl, rfl, rfl⟩
  · rw [hs']
    exact ⟨_, _, rfl, rfl, rfl, rfl⟩

/-- A diffuse pass records one diffuse sample, adds its weight to `weightsum` and
`weight · colour` to `from_diffusion`. -/
theorem diffuseStep_samples {sqrt exp : F → F} {objs : List (Sphere F)}
    {draws : Nat → F × F × F} {rfuel : Nat} {self : Shader F}
    {objnum : Int} {obj : Sphere F} {px py pz : F} {depth : Int}
    {sig0 significance : F} {st st' : LoopState F}
    (h : diffuseStep sqrt exp objs draws rfuel self objnum obj px py pz depth sig0
      significance st = .ok st') :
    ∃ (dr : Draw F) (d : Dir F) (b : Int) (c : Color F),
      drawLoop draws rfuel st.rng = .ok dr ∧
      d = diffuseDir sqrt (px - obj.x) (py - obj.y) (pz - obj.z) obj.r
            dr.vx dr.vy dr.vz dr.vnormsq ∧
      st'.samples = st.samples ++ [Sample.diffuse d (st.weightsum + d.weight) b c] ∧
      st'.weightsum = st.weightsum + d.weight ∧
      st'.from_diffusion.red = st.from_diffusion.red + d.weight * c.red ∧
      st'.from_diffusion.green = st.from_diffusion.green + d.weight * c.green ∧
      st'.from_diffusion.blue = st.from_diffusion.blue + d.weight * c.blue ∧
      st'.reflection = st.reflection := by
  obtain ⟨dr, d, b, hdr, hd, _, hcase⟩ := diffuseStep_ok h
  rcases hcase with ⟨_, hs'⟩ | ⟨_, o, _, hs'⟩
  · rw [hs']
    exact ⟨dr, d, _, _, hdr, hd, rfl, rfl, rfl, rfl, rfl, rfl⟩
  · rw [hs']
    refine ⟨dr, d, _, _, hdr, hd, rfl, rfl, ?_, ?_, ?_, rfl⟩
    · exact congrArg (fun t => st.from_diffusion.red + t) (mul_comm _ _)
    · exact congrArg (fun t => st.from_diffusion.green + t) (mul_comm _ _)
    · exact congrArg (fun t => st.from_diffusion.blue + t) (mul_comm _ _)

variable [FloorRing F]

/-- A call that passes both termination checks and returns ran the sample loop to its
end and returned through `finish`. -/
theorem colorsat_ok_run {sqrt exp : F → F} {objs : List (Sphere F)} {lights : List (Light F)}
    {draws : Nat → F × F × F} {rfuel fuel : Nat} {objnum : Int} {fx fy fz px py pz : F}
    {depth : Int} {significance : F} {rng : Nat} {out : Out F} {obj : Sphere F}
    (hd : ¬ depth > MAX_DEPTH) (h0 : 0 ≤ objnum) (hobj : objs[objnum.toNat]? = some obj)
    (hs : ¬ significance * minSig obj ≤ NEGLIGIBLE_SIGNIFICANCE)
    (h : colorsat sqrt exp objs lights draws rfuel fuel objnum fx fy fz px py pz depth
      significance rng = .ok out) :
    ∃ (n : Nat) (st : LoopState F), fuel = n + 1 ∧
      forLoop
        (sampleBody sqrt exp objs draws rfuel
          (colorsat sqrt exp objs lights draws rfuel n)
          objnum obj fx fy fz px py pz depth significance (significance * minSig obj)
          (loopEnd obj (significance * minSig obj)))
        (loopEnd obj (significance * minSig obj)).toNat 0 (loopInit rng) = .ok st ∧
      out = finish sqrt objs lights objnum obj px py pz st := by
  have hs' : ¬ significance * min (min obj.col.red obj.col.green) obj.col.blue
      ≤ NEGLIGIBLE_SIGNIFICANCE := hs
  cases fuel with
  | zero =>
    rw [colorsat_nofuel _ _ _ _ _ _ _ _ _ _ _ _ _ _ _ _ obj hd h0 hobj hs'] at h
    cases h
  | succ n =>
    rw [colorsat_run _ _ _ _ _ _ _ _ _ _ _ _ _ _ _ _ _ obj hd h0 hobj hs'] at h
    split at h
    · cases h
    · rename_i st hst
      simp only [Except.ok.injEq] at h
      exact ⟨n, st, rfl, hst, h.symm⟩

end Counts

section SampleCounts
variable {F : Type} [LinearOrderedField F] [FloorRing F]

theorem sample_size_floor (sig : F) (h : ¬ sig ≤ NEGLIGIBLE_SIGNIFICANCE) :
    sample_size sig = ⌊2000 * sig⌋ ∧ 0 ≤ sample_size sig := by
  have hpos : (0 : F) < NEGLIGIBLE_SIGNIFICANCE := by
    unfold NEGLIGIBLE_SIGNIFICANCE
    positivity
  have hs : 0 < sig := lt_trans hpos (not_le.mp h)
  have h0 : (0 : F) ≤ 2000 * sig := by positivity
  have e : sample_size sig = ⌊2000 * sig⌋ := by
    unfold sample_size toInt
    rw [if_pos h0]
  exact ⟨e, by rw [e]; exact Int.floor_nonneg.mpr h0⟩

/-- The samples a call processes once it has passed both termination checks: the diffuse
passes are skipped on a fully reflective sphere, the reflective pass exists unless the
sphere is fully non-reflective. -/
theorem colorsat_sample_counts {sqrt exp : F → F} {objs : List (Sphere F)}
    {lights : List (Light F)}
    {draws : Nat → F × F × F} {rfuel fuel : Nat} {objnum : Int} {fx fy fz px py pz : F}
    {depth : Int} {significance : F} {rng : Nat} {out : Out F} {obj : Sphere F}
    (hd : ¬ depth > MAX_DEPTH) (h0 : 0 ≤ objnum) (hobj : objs[objnum.toNat]? = some obj)
    (hs : ¬ significance * minSig obj ≤ NEGLIGIBLE_SIGNIFICANCE)
    (h : colorsat sqrt exp objs lights draws rfuel fuel objnum fx fy fz px py pz depth
      significance rng = .ok out) :
    diffuseCount out.samples
      = (if obj.reflectivity > 1 - EPS then 0
         else (sample_size (significance * minSig obj)).toNat) ∧
    reflectCount out.samples = (if obj.reflectivity < EPS then 0 else 1) := by
  obtain ⟨n, st, _, hloop, hout⟩ := colorsat_ok_run hd h0 hobj hs h
  obtain ⟨_, hss⟩ := sample_size_floor _ hs
  generalize hD : (sample_size (significance * minSig obj)).toNat = D at *
  generalize hE : loopEnd obj (significance * minSig obj) = endat at *
  have hK : endat = (D : Int) + (if obj.reflectivity < EPS then 0 else 1) := by
    rw [← hE, ← hD]
    unfold loopEnd
    by_cases hc : obj.reflectivity < EPS
    · simp only [hc, decide_True, Bool.not_true, Bool.false_eq_true, if_false, if_true,
        add_zero]
      omega
    · simp only [hc, decide_False, Bool.not_false, if_true, if_false]
      omega
  have hfin := forLoop_inv_idx _
    (fun (j : Nat) (s : LoopState F) =>
      diffuseCount s.samples = (if obj.reflectivity > 1 - EPS then 0 else min j D) ∧
      reflectCount s.samples
        = (if ¬ obj.reflectivity < EPS ∧ (j : Int) = endat then 1 else 0))
    0 endat.toNat 0 (loopInit rng) st ?_ ?_ (by simpa using hloop)
  · rw [hout]
    show diffuseCount st.samples = _ ∧ reflectCount st.samples = _
    obtain ⟨h1, h2⟩ := hfin
    rw [h1, h2]
    constructor
    · by_cases hfr : obj.reflectivity > 1 - EPS
      · simp only [hfr, if_true]
      · simp only [hfr, if_false]
        by_cases hc : obj.reflectivity < EPS
        · simp only [hc, if_true] at hK
          omega
        · simp only [hc, if_false] at hK
          omega
    · by_cases hc : obj.reflectivity < EPS
      · simp only [hc, not_true_eq_false, false_and, if_false, if_true]
      · simp only [hc, not_false_eq_true, true_and, if_false]
        simp only [hc, if_false] at hK
        rw [if_pos (by omega)]
  · intro j _ hj s s' hinv hbody
    simp only [zero_add] at hbody hj
    obtain ⟨hi1, hi2⟩ := hinv
    have hjK : ¬ (j : Int) = endat := by omega
    rw [if_neg (fun hh => hjK hh.2)] at hi2
    rcases sampleBody_ok_full hbody with ⟨hfr, hcase, hsame⟩ | ⟨hc, hi, hrf⟩ | ⟨hfr, hcase, hdf⟩
    · rw [hsame]
      have hc : ¬ obj.reflectivity < EPS := by
        intro hc
        have : (EPS : F) ≤ 1 - EPS := by
          unfold EPS
          norm_num
        linarith
      have hne : (j : Int) ≠ endat - 1 := by
        rcases hcase with h' | h'
        · exact absurd h' hc
        · exact h'
      refine ⟨?_, ?_⟩
      · rw [hi1]
        simp only [hfr, if_true]
      · rw [hi2, if_neg]
        intro hh
        apply hne
        have := hh.2
        push_cast at this
        omega
    · obtain ⟨b, c, hsamp, _, _, _⟩ := reflectStep_samples hrf
      rw [hsamp, diffuseCount_append, reflectCount_append, hi1, hi2]
      simp only [hc, if_false] at hK
      refine ⟨?_, ?_⟩
      · simp only [diffuseCount, add_zero]
        by_cases hfr : obj.reflectivity > 1 - EPS
        · simp only [hfr, if_true]
        · simp only [hfr, if_false]
          omega
      · simp only [reflectCount, zero_add]
        rw [if_pos]
        refine ⟨hc, ?_⟩
        push_cast
        omega
    · obtain ⟨dr, d, b, c, _, _, hsamp, _⟩ := diffuseStep_samples hdf
      rw [hsamp, diffuseCount_append, reflectCount_append, hi1, hi2]
      refine ⟨?_, ?_⟩
      · simp only [diffuseCount, zero_add, hfr, if_false]
        by_cases hc : obj.reflectivity < EPS
        · simp only [hc, if_true] at hK
          omega
        · simp only [hc, if_false] at hK
          rcases hcase with h' | h'
          · exact absurd h' hc
          · omega
      · simp only [reflectCount, add_zero]
        rw [if_neg]
        intro hh
        rcases hcase with h' | h'
        · exact hh.1 h'
        · apply h'
          have := hh.2
          push_cast at this
          omega
  · refine ⟨?_, ?_⟩
    · simp [loopInit, diffuseCount]
    · simp only [loopInit, reflectCount]
      rw [if_neg]
      intro hh
      have := hh.2
      simp only [hh.1, if_false] at hK
      push_cast at this
      omega

theorem samples_length_counts {G : Type} (l : List (Sample G)) :
    l.length = diffuseCount l + reflectCount l := by
  induction l with
  | nil => rfl
  | cons s l ih =>
    cases s
    · simp only [List.length_cons, diffuseCount, reflectCount, ih]
      omega
    · simp only [List.length_cons, diffuseCount, reflectCount, ih]
      omega

end SampleCounts

theorem mirror_example_facts :
    ¬ (0 : Int) > MAX_DEPTH ∧ (0 : Int) ≤ 0 ∧
    (objects : List (Sphere ℝ))[(0 : Int).toNat]?
      = some ⟨-12 / 10, 11 / 10, 45 / 10, 9 / 10, 1, ⟨95 / 100, 95 / 100, 95 / 100⟩⟩ ∧
    ¬ (1 : ℝ) * minSig (⟨-12 / 10, 11 / 10, 45 / 10, 9 / 10, 1,
        ⟨95 / 100, 95 / 100, 95 / 100⟩⟩ : Sphere ℝ) ≤ NEGLIGIBLE_SIGNIFICANCE ∧
    (1 : ℝ) > 1 - EPS ∧
    ⌊(2000 : ℝ) * (1 * minSig (⟨-12 / 10, 11 / 10, 45 / 10, 9 / 10, 1,
        ⟨95 / 100, 95 / 100, 95 / 100⟩⟩ : Sphere ℝ))⌋ = 1900 := by
  refine ⟨by unfold MAX_DEPTH; decide, le_refl _, rfl, ?_, ?_, ?_⟩
  · unfold minSig NEGLIGIBLE_SIGNIFICANCE
    norm_num
  · unfold EPS
    norm_num
  · unfold minSig
    have : (2000 : ℝ) * (1 * min (min (95 / 100 : ℝ) (95 / 100)) (95 / 100)) = (1900 : ℤ) := by
      norm_num
    rw [this, Int.floor_intCast]

/-- C16, as stated, fails: on sphere 0 of the scene of the source (reflectivity 1, least
albedo channel 0.95) a call with depth 0 and significance 1 passes both checks with
`s' = 0.95`, `floor(2000·s') = 1900`, and processes no diffuse sample and one sample in
all, not `1900 + 1`. -/
theorem C16_mirror_counterexample :
    ∃ (R : Nat) (out : Out ℝ),
      (∀ rfuel, R ≤ rfuel → ∀ fuel, 11 ≤ fuel →
        colorsat Real.sqrt Real.exp objects lights (fun _ => (1, 0, 0)) rfuel fuel 0
          0 0 0 (-12 / 10) (11 / 10) (36 / 10) 0 1 0 = .ok out) ∧
      diffuseCount out.samples = 0 ∧ out.samples.length = 1 ∧
      ⌊(2000 : ℝ) * (1 * minSig (⟨-12 / 10, 11 / 10, 45 / 10, 9 / 10, 1,
        ⟨95 / 100, 95 / 100, 95 / 100⟩⟩ : Sphere ℝ))⌋ = 1900 := by
  obtain ⟨hd, h0, hobj, hs, hfr, hfl⟩ := mirror_example_facts
  obtain ⟨R, out, hret⟩ := colorsat_returns Real.sqrt Real.exp objects lights
    (fun _ => ((1 : ℝ), (0 : ℝ), (0 : ℝ))) draws_recur_const 11 0 0 0 0 (-12 / 10) (11 / 10)
    (36 / 10) 0 1 0 (by unfold MAX_DEPTH; decide) (Or.inr ⟨le_refl _, _, hobj⟩)
  have hc := colorsat_sample_counts hd h0 hobj hs (hret R (le_refl R) 11 (le_refl 11))
  have hnot : ¬ (1 : ℝ) < EPS := by
    unfold EPS
    norm_num
  simp only [hfr, if_true, hnot, if_false] at hc
  refine ⟨R, out, hret, hc.1, ?_, hfl⟩
  rw [samples_length_counts, hc.1, hc.2]

/-- Cauchy-Schwarz in three dimensions. -/
theorem dot_sq_le (ax ay az bx byy bz : ℝ) :
    (ax * bx + ay * byy + az * bz) * (ax * bx + ay * byy + az * bz)
      ≤ (ax * ax + ay * ay + az * az) * (bx * bx + byy * byy + bz * bz) := by
  nlinarith [mul_self_nonneg (ax * byy - ay * bx), mul_self_nonneg (ax * bz - az * bx),
    mul_self_nonneg (ay * bz - az * byy)]

/-- The direction and the weight of a diffuse sample at a point of the sphere. -/
theorem diffuseDir_facts (sx sy sz r vx vy vz : ℝ) (hr : 0 < r)
    (hs : sx * sx + sy * sy + sz * sz = r * r)
    (hv : ¬ (vx * vx + vy * vy + vz * vz < EPS)) :
    0 ≤ (diffuseDir Real.sqrt sx sy sz r vx vy vz (vx * vx + vy * vy + vz * vz)).vx * sx
        + (diffuseDir Real.sqrt sx sy sz r vx vy vz (vx * vx + vy * vy + vz * vz)).vy * sy
        + (diffuseDir Real.sqrt sx sy sz r vx vy vz (vx * vx + vy * vy + vz * vz)).vz * sz ∧
    (diffuseDir Real.sqrt sx sy sz r vx vy vz (vx * vx + vy * vy + vz * vz)).weight
      = ((diffuseDir Real.sqrt sx sy sz r vx vy vz (vx * vx + vy * vy + vz * vz)).vx * sx
          + (diffuseDir Real.sqrt sx sy sz r vx vy vz (vx * vx + vy * vy + vz * vz)).vy * sy
          + (diffuseDir Real.sqrt sx sy sz r vx vy vz (vx * vx + vy * vy + vz * vz)).vz * sz)
        / (r * Real.sqrt (vx * vx + vy * vy + vz * vz)) ∧
    0 ≤ (diffuseDir Real.sqrt sx sy sz r vx vy vz (vx * vx + vy * vy + vz * vz)).weight ∧
    (diffuseDir Real.sqrt sx sy sz r vx vy vz (vx * vx + vy * vy + vz * vz)).weight ≤ 1 ∧
    (diffuseDir Real.sqrt sx sy sz r vx vy vz (vx * vx + vy * vy + vz * vz)).vnormsq
      = (diffuseDir Real.sqrt sx sy sz r vx vy vz (vx * vx + vy * vy + vz * vz)).vx
          * (diffuseDir Real.sqrt sx sy sz r vx vy vz (vx * vx + vy * vy + vz * vz)).vx
        + (diffuseDir Real.sqrt sx sy sz r vx vy vz (vx * vx + vy * vy + vz * vz)).vy
          * (diffuseDir Real.sqrt sx sy sz r vx vy vz (vx * vx + vy * vy + vz * vz)).vy
        + (diffuseDir Real.sqrt sx sy sz r vx vy vz (vx * vx + vy * vy + vz * vz)).vz
          * (diffuseDir Real.sqrt sx sy sz r vx vy vz (vx * vx + vy * vy + vz * vz)).vz := by
  have hA : 0 < vx * vx + vy * vy + vz * vz := lt_of_lt_of_le eps_pos (not_lt.mp hv)
  have hq : 0 < Real.sqrt (vx * vx + vy * vy + vz * vz) := Real.sqrt_pos.mpr hA
  have hqq : Real.sqrt (vx * vx + vy * vy + vz * vz)
      * Real.sqrt (vx * vx + vy * vy + vz * vz) = vx * vx + vy * vy + vz * vz :=
    Real.mul_self_sqrt (le_of_lt hA)
  have hden : 0 < r * Real.sqrt (vx * vx + vy * vy + vz * vz) := mul_pos hr hq
  have hcs := dot_sq_le vx vy vz sx sy sz
  rw [hs] at hcs
  have hbound : ∀ t : ℝ, 0 ≤ t → t * t = (vx * sx + vy * sy + vz * sz)
      * (vx * sx + vy * sy + vz * sz) →
      t ≤ r * Real.sqrt (vx * vx + vy * vy + vz * vz) := by
    intro t ht0 ht
    by_contra hgt
    push_neg at hgt
    have h1 : (r * Real.sqrt (vx * vx + vy * vy + vz * vz))
        * (r * Real.sqrt (vx * vx + vy * vy + vz * vz)) < t * t := by nlinarith
    have h2 : (r * Real.sqrt (vx * vx + vy * vy + vz * vz))
        * (r * Real.sqrt (vx * vx + vy * vy + vz * vz))
        = (vx * vx + vy * vy + vz * vz) * (r * r) := by
      calc (r * Real.sqrt (vx * vx + vy * vy + vz * vz))
            * (r * Real.sqrt (vx * vx + vy * vy + vz * vz))
          = (Real.sqrt (vx * vx + vy * vy + vz * vz)
              * Real.sqrt (vx * vx + vy * vy + vz * vz)) * (r * r) := by ring
        _ = (vx * vx + vy * vy + vz * vz) * (r * r) := by rw [hqq]
    linarith
  unfold diffuseDir
  simp only
  by_cases hdot : vx * sx + vy * sy + vz * sz < 0
  · simp only [hdot, if_true]
    have hneg : -vx * sx + -vy * sy + -vz * sz = -(vx * sx + vy * sy + vz * sz) := by ring
    refine ⟨by rw [hneg]; linarith, by rw [hneg], ?_, ?_, by ring⟩
    · exact div_nonneg (by linarith) (le_of_lt hden)
    · rw [div_le_one hden]
      exact hbound _ (by linarith) (by ring)
  · simp only [hdot, if_false]
    push_neg at hdot
    refine ⟨hdot, trivial, div_nonneg hdot (le_of_lt hden), ?_, trivial⟩
    rw [div_le_one hden]
    exact hbound _ hdot rfl

theorem mem_append_singleton {α : Type} (a b : α) (l : List α) (h : a ∈ l ++ [b]) :
    a ∈ l ∨ a = b := by
  simpa using h

/-- Over the sample loop `weightsum` never decreases, and every diffuse sample is
recorded with a weight between `0` and the running `weightsum`. -/
theorem colorsat_weightsums (exp : ℝ → ℝ) (objs : List (Sphere ℝ))
    (lights : List (Light ℝ)) (draws : Nat → ℝ × ℝ × ℝ) (rfuel fuel : Nat) (objnum : Int)
    (fx fy fz px py pz : ℝ) (depth : Int) (significance : ℝ) (rng : Nat) (out : Out ℝ)
    (hscene : ∀ o ∈ objs, 0 < o.r)
    (h : colorsat Real.sqrt exp objs lights draws rfuel fuel objnum fx fy fz px py pz depth
      significance rng = .ok out) :
    List.Pairwise (fun a b => a ≤ b) (diffuseSums out.samples) ∧
    ∀ d ws b c, Sample.diffuse d ws b c ∈ out.samples → 0 ≤ d.weight ∧ d.weight ≤ ws := by
  rcases colorsat_ok h with hb | ⟨n, obj, st, _, _, _, hobj, _, hloop, hout⟩
  · rw [hb]
    exact ⟨List.Pairwise.nil, fun d ws b c hm => by cases hm⟩
  · have hr := hscene obj (mem_of_getElem?_eq _ _ _ hobj)
    rw [hout]
    show List.Pairwise (fun a b => a ≤ b) (diffuseSums st.samples) ∧
      ∀ d ws b c, Sample.diffuse d ws b c ∈ st.samples → 0 ≤ d.weight ∧ d.weight ≤ ws
    have hfin := forLoop_inv _
      (fun s : LoopState ℝ => 0 ≤ s.weightsum ∧
        List.Pairwise (fun a b => a ≤ b) (diffuseSums s.samples) ∧
        (∀ ws ∈ diffuseSums s.samples, ws ≤ s.weightsum) ∧
        ∀ d ws b c, Sample.diffuse d ws b c ∈ s.samples → 0 ≤ d.weight ∧ d.weight ≤ ws)
      ?_ _ _ _ _ ?_ hloop
    · exact ⟨hfin.2.1, hfin.2.2.2⟩
    · intro i s s' hinv hbody
      obtain ⟨hw0, hpw, hle, hmem⟩ := hinv
      rcases sampleBody_ok hbody with hsame | ⟨_, _, hrf⟩ | ⟨_, _, hdf⟩
      · rw [hsame]
        exact ⟨hw0, hpw, hle, hmem⟩
      · obtain ⟨b, c, hsamp, _, hws, _⟩ := reflectStep_samples hrf
        rw [hsamp, hws, diffuseSums_append]
        simp only [diffuseSums, List.append_nil]
        refine ⟨hw0, hpw, hle, ?_⟩
        intro d ws b' c' hm
        rcases mem_append_singleton _ _ _ hm with hm' | hm'
        · exact hmem d ws b' c' hm'
        · cases hm'
      · obtain ⟨dr, d, b, c, _, hd, hsamp, hws, _⟩ := diffuseStep_samples hdf
        have hw : 0 ≤ d.weight := by
          rw [hd]
          exact diffuseDir_weight_nonneg _ _ _ _ _ _ _ _ hr
        rw [hsamp, hws, diffuseSums_append]
        simp only [diffuseSums]
        refine ⟨add_nonneg hw0 hw, ?_, ?_, ?_⟩
        · rw [List.pairwise_append]
          refine ⟨hpw, List.pairwise_singleton _ _, ?_⟩
          intro a ha b' hb'
          simp only [List.mem_singleton] at hb'
          rw [hb']
          have := hle a ha
          linarith
        · intro ws hws'
          simp only [List.mem_append, List.mem_singleton] at hws'
          rcases hws' with h1 | h1
          · have := hle ws h1
            linarith
          · rw [h1]
        · intro d' ws b' c' hm
          rcases mem_append_singleton _ _ _ hm with hm' | hm'
          · exact hmem d' ws b' c' hm'
          · cases hm'
            exact ⟨hw, by linarith⟩
    · refine ⟨le_refl _, ?_, ?_, ?_⟩
      · simp [loopInit, diffuseSums]
      · simp [loopInit, diffuseSums]
      · intro d ws b c hm
        simp [loopInit] at hm

section DiffuseTerm
variable {F : Type} [LinearOrderedField F]

/-- The value `finish` returns is the rest of `colorsat` run on the diffuse term. -/
theorem finish_eq_finishFrom (sqrt : F → F) (objs : List (Sphere F)) (lights : List (Light F))
    (objnum : Int) (obj : Sphere F) (px py pz : F) (st : LoopState F) :
    finish sqrt objs lights objnum obj px py pz st
      = finishFrom sqrt objs lights objnum obj px py pz st (diffuseTerm st) := by
  unfold finish finishFrom diffuseTerm
  simp only [black, zero_add]

/-- A sum of `weight · colour` with weights `≥ 0` lies between the least and the largest
colour times the sum of the weights. -/
theorem weightedTotal_bounds (lo hi : Color F) :
    ∀ l : List (Sample F),
      (∀ d ws b c, Sample.diffuse d ws b c ∈ l → 0 ≤ d.weight) →
      (∀ d ws b c, Sample.diffuse d ws b c ∈ l →
        (lo.red ≤ c.red ∧ c.red ≤ hi.red) ∧ (lo.green ≤ c.green ∧ c.green ≤ hi.green) ∧
        (lo.blue ≤ c.blue ∧ c.blue ≤ hi.blue)) →
      (lo.red * weightTotal l ≤ (weightedTotal l).red ∧
        (weightedTotal l).red ≤ hi.red * weightTotal l) ∧
      (lo.green * weightTotal l ≤ (weightedTotal l).green ∧
        (weightedTotal l).green ≤ hi.green * weightTotal l) ∧
      (lo.blue * weightTotal l ≤ (weightedTotal l).blue ∧
        (weightedTotal l).blue ≤ hi.blue * weightTotal l) := by
  intro l
  induction l with
  | nil =>
    intro _ _
    simp [weightTotal, weightedTotal]
  | cons s l ih =>
    intro hw hc
    have ih' := ih (fun d ws b c hm => hw d ws b c (List.mem_cons_of_mem _ hm))
      (fun d ws b c hm => hc d ws b c (List.mem_cons_of_mem _ hm))
    cases s with
    | reflect d b c =>
      simpa [weightTotal, weightedTotal] using ih'
    | diffuse d ws b c =>
      have hwd := hw d ws b c (List.mem_cons_self _ _)
      obtain ⟨⟨r1, r2⟩, ⟨g1, g2⟩, ⟨b1, b2⟩⟩ := hc d ws b c (List.mem_cons_self _ _)
      obtain ⟨⟨ir1, ir2⟩, ⟨ig1, ig2⟩, ⟨ib1, ib2⟩⟩ := ih'
      simp only [weightTotal, weightedTotal]
      have m1 := mul_le_mul_of_nonneg_left r1 hwd
      have m2 := mul_le_mul_of_nonneg_left r2 hwd
      have m3 := mul_le_mul_of_nonneg_left g1 hwd
      have m4 := mul_le_mul_of_nonneg_left g2 hwd
      have m5 := mul_le_mul_of_nonneg_left b1 hwd
      have m6 := mul_le_mul_of_nonneg_left b2 hwd
      refine ⟨⟨?_, ?_⟩, ⟨?_, ?_⟩, ⟨?_, ?_⟩⟩ <;> linarith

end DiffuseTerm

theorem diffuseDir_weight_nonpos (sx sy sz snorm vx vy vz vnormsq : ℝ) (hr : snorm ≤ 0) :
    (diffuseDir Real.sqrt sx sy sz snorm vx vy vz vnormsq).weight ≤ 0 := by
  unfold diffuseDir
  simp only
  have hs : snorm * Real.sqrt vnormsq ≤ 0 :=
    mul_nonpos_of_nonpos_of_nonneg hr (Real.sqrt_nonneg _)
  split_ifs with h
  · exact div_nonpos_of_nonneg_of_nonpos (by linarith) hs
  · exact div_nonpos_of_nonneg_of_nonpos (not_lt.mp h) hs

/-- At the end of the sample loop `weightsum` is the sum of the weights of the diffuse
samples and `from_diffusion` the sum of `weight · colour`; the weights have the sign of
the radius. -/
theorem colorsat_diffuse_totals {exp : ℝ → ℝ} {objs : List (Sphere ℝ)}
    {lights : List (Light ℝ)}
    {draws : Nat → ℝ × ℝ × ℝ} {rfuel fuel : Nat} {objnum : Int} {fx fy fz px py pz : ℝ}
    {depth : Int} {significance : ℝ} {rng : Nat} {out : Out ℝ} {obj : Sphere ℝ}
    (hd : ¬ depth > MAX_DEPTH) (h0 : 0 ≤ objnum) (hobj : objs[objnum.toNat]? = some obj)
    (hs : ¬ significance * minSig obj ≤ NEGLIGIBLE_SIGNIFICANCE)
    (h : colorsat Real.sqrt exp objs lights draws rfuel fuel objnum fx fy fz px py pz depth
      significance rng = .ok out) :
    ∃ st : LoopState ℝ,
      out = finish Real.sqrt objs lights objnum obj px py pz st ∧
      st.weightsum = weightTotal out.samples ∧
      st.from_diffusion.red = (weightedTotal out.samples).red ∧
      st.from_diffusion.green = (weightedTotal out.samples).green ∧
      st.from_diffusion.blue = (weightedTotal out.samples).blue ∧
      (obj.r ≤ 0 → st.weightsum ≤ 0) ∧
      (0 < obj.r → ∀ d ws b c, Sample.diffuse d ws b c ∈ out.samples → 0 ≤ d.weight) := by
  obtain ⟨n, st, _, hloop, hout⟩ := colorsat_ok_run hd h0 hobj hs h
  refine ⟨st, hout, ?_⟩
  rw [hout]
  show st.weightsum = weightTotal st.samples ∧
      st.from_diffusion.red = (weightedTotal st.samples).red ∧
      st.from_diffusion.green = (weightedTotal st.samples).green ∧
      st.from_diffusion.blue = (weightedTotal st.samples).blue ∧
      (obj.r ≤ 0 → st.weightsum ≤ 0) ∧
      (0 < obj.r → ∀ d ws b c, Sample.diffuse d ws b c ∈ st.samples → 0 ≤ d.weight)
  refine forLoop_inv _
    (fun s : LoopState ℝ => s.weightsum = weightTotal s.samples ∧
      s.from_diffusion.red = (weightedTotal s.samples).red ∧
      s.from_diffusion.green = (weightedTotal s.samples).green ∧
      s.from_diffusion.blue = (weightedTotal s.samples).blue ∧
      (obj.r ≤ 0 → s.weightsum ≤ 0) ∧
      (0 < obj.r → ∀ d ws b c, Sample.diffuse d ws b c ∈ s.samples → 0 ≤ d.weight))
    ?_ _ _ _ _ ?_ hloop
  · intro i s s' hinv hbody
    obtain ⟨hw, hr', hg', hb', hneg, hpos⟩ := hinv
    rcases sampleBody_ok hbody with hsame | ⟨_, _, hrf⟩ | ⟨_, _, hdf⟩
    · rw [hsame]
      exact ⟨hw, hr', hg', hb', hneg, hpos⟩
    · obtain ⟨b, c, hsamp, _, hws, hfd⟩ := reflectStep_samples hrf
      obtain ⟨a1, a2, a3⟩ := weightedTotal_append s.samples
        [Sample.reflect (reflectDir (px - obj.x) (py - obj.y) (pz - obj.z) obj.r
          fx fy fz px py pz) b c]
      rw [hsamp, hws, hfd, weightTotal_append, a1, a2, a3]
      simp only [weightTotal, weightedTotal, add_zero]
      refine ⟨hw, hr', hg', hb', hneg, ?_⟩
      intro hr d ws b' c' hm
      rcases mem_append_singleton _ _ _ hm with hm' | hm'
      · exact hpos hr d ws b' c' hm'
      · cases hm'
    · obtain ⟨dr, d, b, c, _, hd', hsamp, hws, f1, f2, f3, _⟩ := diffuseStep_samples hdf
      obtain ⟨a1, a2, a3⟩ := weightedTotal_append s.samples
        [Sample.diffuse d (s.weightsum + d.weight) b c]
      rw [hsamp, hws, f1, f2, f3, weightTotal_append, a1, a2, a3]
      simp only [weightTotal, weightedTotal, add_zero]
      refine ⟨by rw [hw], by rw [hr'], by rw [hg'], by rw [hb'], ?_, ?_⟩
      · intro hr
        have : d.weight ≤ 0 := by
          rw [hd']
          exact diffuseDir_weight_nonpos _ _ _ _ _ _ _ _ hr
        have := hneg hr
        linarith
      · intro hr d' ws b' c' hm
        rcases mem_append_singleton _ _ _ hm with hm' | hm'
        · exact hpos hr d' ws b' c' hm'
        · cases hm'
          rw [hd']
          exact diffuseDir_weight_nonneg _ _ _ _ _ _ _ _ hr
  · refine ⟨?_, ?_, ?_, ?_, ?_, ?_⟩
    · simp [loopInit, weightTotal]
    · simp [loopInit, weightedTotal, black]
    · simp [loopInit, weightedTotal, black]
    · simp [loopInit, weightedTotal, black]
    · intro _
      simp [loopInit]
    · intro _ d ws b c hm
      simp [loopInit] at hm

theorem diffuse_example_facts :
    (objects : List (Sphere ℝ))[(2 : Int).toNat]?
      = some ⟨12 / 10, 1, 45 / 10, 6 / 10, 0, ⟨5 / 10, 9 / 10, 5 / 10⟩⟩ ∧
    NEGLIGIBLE_SIGNIFICANCE < (1 : ℝ) * minSig (⟨12 / 10, 1, 45 / 10, 6 / 10, 0,
        ⟨5 / 10, 9 / 10, 5 / 10⟩⟩ : Sphere ℝ) := by
  refine ⟨rfl, ?_⟩
  unfold minSig NEGLIGIBLE_SIGNIFICANCE
  norm_num

section Mirror
variable {F : Type} [LinearOrderedField F]

theorem one_not_lt_eps : ¬ (1 : F) < EPS := by
  unfold EPS
  norm_num

theorem one_gt_one_sub_eps : (1 : F) > 1 - EPS := by
  unfold EPS
  norm_num

/-- With reflectivity 1 the colour returned by `finish` is the reflection colour tinted by
the albedo, whatever the objects and lights of the light loop are. -/
theorem finish_mirror (sqrt : F → F) (objs : List (Sphere F)) (lights : List (Light F))
    (objnum : Int) (obj : Sphere F) (px py pz : F) (st : LoopState F)
    (hrefl : obj.reflectivity = 1) :
    (finish sqrt objs lights objnum obj px py pz st).col
      = ⟨st.reflection.red * obj.col.red, st.reflection.green * obj.col.green,
         st.reflection.blue * obj.col.blue⟩ := by
  unfold finish
  simp only [hrefl, one_not_lt_eps, decide_False, Bool.not_false, if_true, sub_self, zero_mul,
    add_zero, one_mul]

variable [FloorRing F]

/-- A call on a sphere of reflectivity 1 that passes both checks and returns leaves the
sample loop with `weightsum = 0` and exactly one recorded sample, the reflection. -/
theorem colorsat_mirror {sqrt exp : F → F} {objs : List (Sphere F)} {lights : List (Light F)}
    {draws : Nat → F × F × F} {rfuel fuel : Nat} {objnum : Int} {fx fy fz px py pz : F}
    {depth : Int} {significance : F} {rng : Nat} {out : Out F} {obj : Sphere F}
    {d : Dir F} {b : Best F}
    (hdd : d = reflectDir (px - obj.x) (py - obj.y) (pz - obj.z) obj.r fx fy fz px py pz)
    (hbb : b = scan sqrt objs objnum px py pz d.vx d.vy d.vz d.vnormsq 0)
    (hd : ¬ depth > MAX_DEPTH) (h0 : 0 ≤ objnum) (hobj : objs[objnum.toNat]? = some obj)
    (hs : ¬ significance * minSig obj ≤ NEGLIGIBLE_SIGNIFICANCE)
    (hrefl : obj.reflectivity = 1)
    (h : colorsat sqrt exp objs lights draws rfuel fuel objnum fx fy fz px py pz depth
      significance rng = .ok out) :
    ∃ (n : Nat) (st : LoopState F) (c : Color F), fuel = n + 1 ∧
      out = finish sqrt objs lights objnum obj px py pz st ∧
      st.weightsum = 0 ∧ st.reflection = c ∧
      st.samples = [Sample.reflect d b.bestobj c] ∧
      (b.bestobj = -1 → c = background sqrt exp d.vx d.vy d.vz) ∧
      (b.bestobj ≠ -1 → ∃ out',
        colorsat sqrt exp objs lights draws rfuel n b.bestobj px py pz
          (b.mint * d.vx + px) (b.mint * d.vy + py) (b.mint * d.vz + pz) (depth + 1)
          (significance * minSig obj * obj.reflectivity) rng = .ok out' ∧
        c = out'.col) := by
  obtain ⟨n, st, hfuel, hloop, hout⟩ := colorsat_ok_run hd h0 hobj hs h
  have hne : ¬ obj.reflectivity < EPS := by
    rw [hrefl]
    exact one_not_lt_eps
  have hfr : obj.reflectivity > 1 - EPS := by
    rw [hrefl]
    exact one_gt_one_sub_eps
  have hss := (sample_size_floor (significance * minSig obj) hs).2
  have hend : loopEnd obj (significance * minSig obj)
      = sample_size (significance * minSig obj) + 1 := by
    unfold loopEnd
    simp only [hne, decide_False, Bool.not_false, if_true]
  have hK : (((loopEnd obj (significance * minSig obj)).toNat : Nat) : Int)
      = loopEnd obj (significance * minSig obj) := by
    apply Int.toNat_of_nonneg
    rw [hend]
    omega
  have hinv := forLoop_inv_idx
    (sampleBody sqrt exp objs draws rfuel (colorsat sqrt exp objs lights draws rfuel n)
      objnum obj fx fy fz px py pz depth significance (significance * minSig obj)
      (loopEnd obj (significance * minSig obj)))
    (fun (j : Nat) (s : LoopState F) =>
      (j < (loopEnd obj (significance * minSig obj)).toNat → s = loopInit rng) ∧
      (j = (loopEnd obj (significance * minSig obj)).toNat →
        ∃ c : Color F, s.weightsum = 0 ∧ s.reflection = c ∧
          s.samples = [Sample.reflect d b.bestobj c] ∧
          (b.bestobj = -1 → c = background sqrt exp d.vx d.vy d.vz) ∧
          (b.bestobj ≠ -1 → ∃ out',
            colorsat sqrt exp objs lights draws rfuel n b.bestobj px py pz
              (b.mint * d.vx + px) (b.mint * d.vy + py) (b.mint * d.vz + pz) (depth + 1)
              (significance * minSig obj * obj.reflectivity) rng = .ok out' ∧
            c = out'.col)))
    0 (loopEnd obj (significance * minSig obj)).toNat 0 (loopInit rng) st ?_ ?_
    (by simpa using hloop)
  · obtain ⟨c, hw, hr, hsm, hmiss, hhit⟩ := hinv.2 (by omega)
    exact ⟨n, st, c, hfuel, hout, hw, hr, hsm, hmiss, hhit⟩
  · intro j _ hj s s' hI hbody
    have hsinit : s = loopInit rng := hI.1 (by omega)
    rcases sampleBody_ok_full hbody with ⟨_, hskip, hsame⟩ | ⟨_, hlast, hrf⟩ | ⟨hnfr, _, _⟩
    · have hi : (0 : Int) + (j : Int) ≠ loopEnd obj (significance * minSig obj) - 1 := by
        rcases hskip with hc | hc
        · exact absurd hc hne
        · exact hc
      refine ⟨fun _ => by rw [hsame, hsinit], fun hjK => ?_⟩
      exfalso
      apply hi
      omega
    · refine ⟨fun hlt => ?_, fun _ => ?_⟩
      · exfalso
        omega
      · obtain ⟨d', b', hd', hb', hcases⟩ := reflectStep_ok hrf
        have hdeq : d' = d := by rw [hd', hdd]
        subst hdeq
        have hbeq : b' = b := by rw [hb', hbb]
        subst hbeq
        rcases hcases with ⟨hm, hs'⟩ | ⟨hh, out', hcall, hs'⟩
        · refine ⟨background sqrt exp d'.vx d'.vy d'.vz, ?_, ?_, ?_, fun _ => rfl,
            fun hc => absurd hm hc⟩
          · rw [hs', hsinit]
            rfl
          · rw [hs']
          · rw [hs', hsinit]
            rfl
        · refine ⟨out'.col, ?_, ?_, ?_, fun hc => absurd hc hh, fun _ => ⟨out', ?_, rfl⟩⟩
          · rw [hs', hsinit]
            rfl
          · rw [hs']
          · rw [hs', hsinit]
            rfl
          · rw [hsinit] at hcall
            exact hcall
    · exact absurd hfr hnfr
  · refine ⟨fun _ => rfl, fun h0K => ?_⟩
    exfalso
    rw [hend] at hK
    omega

end Mirror

/-- C19: on a sphere of reflectivity exactly 1, a call of `colorsat` that passes both
termination checks and returns draws no diffuse sample (`weightsum` stays 0, the only
recorded sample is the reflection along the mirrored direction `d`), and the colour
returned is the albedo times the reflection colour channel by channel, where the
reflection colour is the background along `d` when the reflection ray misses and the result
of the recursive call otherwise; running the end of the function with any other objects and
lights in the light loop gives the same colour. With draws that never stay degenerate the
call returns. -/
theorem C19_fully_reflective {F : Type} [LinearOrderedField F] [FloorRing F]
    (sqrt exp : F → F) (objs : List (Sphere F)) (lights : List (Light F))
    (draws : Nat → F × F × F) (objnum : Int) (fx fy fz px py pz : F) (depth : Int)
    (significance : F) (rng : Nat) (obj : Sphere F) (d : Dir F) (b : Best F)
    (hdd : d = reflectDir (px - obj.x) (py - obj.y) (pz - obj.z) obj.r fx fy fz px py pz)
    (hbb : b = scan sqrt objs objnum px py pz d.vx d.vy d.vz d.vnormsq 0)
    (hd : depth ≤ MAX_DEPTH) (h0 : 0 ≤ objnum) (hobj : objs[objnum.toNat]? = some obj)
    (hs : NEGLIGIBLE_SIGNIFICANCE < significance * minSig obj)
    (hrefl : obj.reflectivity = 1) :
    (∀ (rfuel fuel : Nat) (out : Out F),
      colorsat sqrt exp objs lights draws rfuel fuel objnum fx fy fz px py pz depth
        significance rng = .ok out →
      ∃ (st : LoopState F) (c : Color F),
        out = finish sqrt objs lights objnum obj px py pz st ∧
        st.weightsum = 0 ∧ diffuseCount out.samples = 0 ∧
        out.samples = [Sample.reflect d b.bestobj c] ∧
        out.col = ⟨c.red * obj.col.red, c.green * obj.col.green, c.blue * obj.col.blue⟩ ∧
        (b.bestobj = -1 → c = background sqrt exp d.vx d.vy d.vz) ∧
        (b.bestobj ≠ -1 → ∃ (n : Nat) (out' : Out F), fuel = n + 1 ∧
          colorsat sqrt exp objs lights draws rfuel n b.bestobj px py pz
            (b.mint * d.vx + px) (b.mint * d.vy + py) (b.mint * d.vz + pz) (depth + 1)
            (significance * minSig obj * obj.reflectivity) rng = .ok out' ∧
          c = out'.col) ∧
        ∀ (objs' : List (Sphere F)) (lights' : List (Light F)),
          (finish sqrt objs' lights' objnum obj px py pz st).col = out.col) ∧
    (DrawsRecur draws →
      ∃ (R : Nat) (out : Out F),
        ∀ rfuel, R ≤ rfuel → ∀ fuel, (MAX_DEPTH + 1 - depth).toNat ≤ fuel →
          colorsat sqrt exp objs lights draws rfuel fuel objnum fx fy fz px py pz depth
            significance rng = .ok out) := by
  refine ⟨?_, ?_⟩
  · intro rfuel fuel out h
    obtain ⟨n, st, c, hfuel, hout, hw, hr, hsm, hmiss, hhit⟩ :=
      colorsat_mirror hdd hbb (not_lt.mpr hd) h0 hobj (not_le.mpr hs) hrefl h
    have hsamp : out.samples = [Sample.reflect d b.bestobj c] := by
      rw [hout]
      exact hsm
    have hcol : out.col
        = ⟨c.red * obj.col.red, c.green * obj.col.green, c.blue * obj.col.blue⟩ := by
      rw [hout, finish_mirror sqrt objs lights objnum obj px py pz st hrefl, hr]
    refine ⟨st, c, hout, hw, ?_, hsamp, hcol, hmiss, ?_, ?_⟩
    · rw [hsamp]
      rfl
    · intro hne
      obtain ⟨out', hcall, hc⟩ := hhit hne
      exact ⟨n, out', hfuel, hcall, hc⟩
    · intro objs' lights'
      rw [hcol, finish_mirror sqrt objs' lights' objnum obj px py pz st hrefl, hr]
  · intro hdraws
    exact colorsat_returns sqrt exp objs lights draws hdraws _ objnum fx fy fz px py pz depth
      significance rng (le_refl _) (Or.inr ⟨h0, obj, hobj⟩)

/-- Witness for C19: sphere 0 of the scene of the source (reflectivity 1), seen from the
origin at its nearest point, depth 0, significance 1, with constant draws. -/
theorem C19_fully_reflective_witness :
    ∃ (R : Nat) (out : Out ℝ),
      ∀ rfuel, R ≤ rfuel → ∀ fuel, (MAX_DEPTH + 1 - 0).toNat ≤ fuel →
        colorsat Real.sqrt Real.exp objects lights (fun _ => (1, 0, 0)) rfuel fuel 0
          0 0 0 (-12 / 10) (11 / 10) (36 / 10) 0 1 0 = .ok out :=
  (C19_fully_reflective Real.sqrt Real.exp objects lights (fun _ => (1, 0, 0)) 0
    0 0 0 (-12 / 10) (11 / 10) (36 / 10) 0 1 0
    ⟨-12 / 10, 11 / 10, 45 / 10, 9 / 10, 1, ⟨95 / 100, 95 / 100, 95 / 100⟩⟩
    _ _ rfl rfl
    (by unfold MAX_DEPTH; decide) (le_refl _) rfl
    (not_le.mp mirror_example_facts.2.2.2.1) rfl).2 draws_recur_const

section SampleSpec
variable {F : Type} [LinearOrderedField F]

/-- The vector the rejection loop returns is one of the stream, at a position from the
start position on, and the stream is left just after it. -/
theorem drawLoop_from (draws : Nat → F × F × F) :
    ∀ (rfuel g : Nat) (dr : Draw F), drawLoop draws rfuel g = .ok dr →
      ∃ k, g ≤ k ∧ dr.rng = k + 1 ∧ dr.vx = (draws k).1 ∧ dr.vy = (draws k).2.1 ∧
        dr.vz = (draws k).2.2 ∧
        dr.vnormsq = (draws k).1 * (draws k).1 + (draws k).2.1 * (draws k).2.1
          + (draws k).2.2 * (draws k).2.2 ∧
        ¬ dr.vnormsq < EPS := by
  intro rfuel
  induction rfuel with
  | zero =>
    intro g dr h
    cases h
  | succ n ih =>
    intro g dr h
    rw [drawLoop] at h
    split_ifs at h with hlt
    · obtain ⟨k, hk, hrest⟩ := ih (g + 1) dr h
      exact ⟨k, by omega, hrest⟩
    · simp only [Except.ok.injEq] at h
      rw [← h]
      exact ⟨g, le_refl g, rfl, rfl, rfl, rfl, rfl, hlt⟩

theorem weightTotal_const (w : F) :
    ∀ l : List (Sample F),
      (∀ d ws b c, Sample.diffuse d ws b c ∈ l → d.weight = w) →
      weightTotal l = (diffuseCount l : F) * w := by
  intro l
  induction l with
  | nil =>
    intro _
    simp [weightTotal, diffuseCount]
  | cons s l ih =>
    intro h
    have ih' := ih (fun d ws b c hm => h d ws b c (List.mem_cons_of_mem _ hm))
    cases s with
    | reflect d b c =>
      simpa [weightTotal, diffuseCount] using ih'
    | diffuse d ws b c =>
      have hw := h d ws b c (List.mem_cons_self _ _)
      simp only [weightTotal, diffuseCount, Nat.cast_add, Nat.cast_one]
      rw [ih', hw]
      ring

theorem exists_diffuse_of_count_pos {F : Type} :
    ∀ l : List (Sample F), 0 < diffuseCount l → ∃ d ws b c, Sample.diffuse d ws b c ∈ l := by
  intro l
  induction l with
  | nil =>
    intro h
    simp [diffuseCount] at h
  | cons s l ih =>
    intro h
    cases s with
    | reflect d b c =>
      have h' : 0 < diffuseCount l := by simpa [diffuseCount] using h
      obtain ⟨d', ws, b', c', hm⟩ := ih h'
      exact ⟨d', ws, b', c', List.mem_cons_of_mem _ hm⟩
    | diffuse d ws b c =>
      exact ⟨d, ws, b, c, List.mem_cons_self _ _⟩

variable [FloorRing F]

/-- Every diffuse sample recorded by a call that passes both checks comes from an accepted
vector of the stream: its direction and weight are `diffuseDir` of that vector, its object
is what the scan along that direction reports, and on a miss its colour is the background
along that direction. -/
theorem colorsat_diffuse_samples {sqrt exp : F → F} {objs : List (Sphere F)}
    {lights : List (Light F)}
    {draws : Nat → F × F × F} {rfuel fuel : Nat} {objnum : Int} {fx fy fz px py pz : F}
    {depth : Int} {significance : F} {rng : Nat} {out : Out F} {obj : Sphere F}
    (hd : ¬ depth > MAX_DEPTH) (h0 : 0 ≤ objnum) (hobj : objs[objnum.toNat]? = some obj)
    (hs : ¬ significance * minSig obj ≤ NEGLIGIBLE_SIGNIFICANCE)
    (h : colorsat sqrt exp objs lights draws rfuel fuel objnum fx fy fz px py pz depth
      significance rng = .ok out) :
    ∀ d ws b c, Sample.diffuse d ws b c ∈ out.samples →
      ∃ k : Nat,
        ¬ ((draws k).1 * (draws k).1 + (draws k).2.1 * (draws k).2.1
            + (draws k).2.2 * (draws k).2.2 < EPS) ∧
        d = diffuseDir sqrt (px - obj.x) (py - obj.y) (pz - obj.z) obj.r
              (draws k).1 (draws k).2.1 (draws k).2.2
              ((draws k).1 * (draws k).1 + (draws k).2.1 * (draws k).2.1
                + (draws k).2.2 * (draws k).2.2) ∧
        b = (scan sqrt objs objnum px py pz d.vx d.vy d.vz d.vnormsq 0).bestobj ∧
        (b = -1 → c = background sqrt exp d.vx d.vy d.vz) := by
  obtain ⟨n, st, _, hloop, hout⟩ := colorsat_ok_run hd h0 hobj hs h
  rw [hout]
  show ∀ d ws b c, Sample.diffuse d ws b c ∈ st.samples → _
  refine forLoop_inv _
    (fun s : LoopState F =>
      ∀ d ws b c, Sample.diffuse d ws b c ∈ s.samples →
        ∃ k : Nat,
          ¬ ((draws k).1 * (draws k).1 + (draws k).2.1 * (draws k).2.1
              + (draws k).2.2 * (draws k).2.2 < EPS) ∧
          d = diffuseDir sqrt (px - obj.x) (py - obj.y) (pz - obj.z) obj.r
                (draws k).1 (draws k).2.1 (draws k).2.2
                ((draws k).1 * (draws k).1 + (draws k).2.1 * (draws k).2.1
                  + (draws k).2.2 * (draws k).2.2) ∧
          b = (scan sqrt objs objnum px py pz d.vx d.vy d.vz d.vnormsq 0).bestobj ∧
          (b = -1 → c = background sqrt exp d.vx d.vy d.vz))
    ?_ _ _ _ _ ?_ hloop
  · intro i s s' hmem hbody
    rcases sampleBody_ok hbody with hsame | ⟨_, _, hrf⟩ | ⟨_, _, hdf⟩
    · rw [hsame]
      exact hmem
    · obtain ⟨b, c, hsamp, _⟩ := reflectStep_samples hrf
      rw [hsamp]
      intro d' ws b' c' hm
      rcases mem_append_singleton _ _ _ hm with hm' | hm'
      · exact hmem d' ws b' c' hm'
      · cases hm'
    · obtain ⟨dr, d, b, hdr, hdd, hb, hcase⟩ := diffuseStep_ok hdf
      obtain ⟨k, _, _, hx, hy, hz, hn, hacc⟩ := drawLoop_from draws _ _ _ hdr
      have hdk : d = diffuseDir sqrt (px - obj.x) (py - obj.y) (pz - obj.z) obj.r
          (draws k).1 (draws k).2.1 (draws k).2.2
          ((draws k).1 * (draws k).1 + (draws k).2.1 * (draws k).2.1
            + (draws k).2.2 * (draws k).2.2) := by
        rw [hdd, hx, hy, hz, hn]
      have hacc' : ¬ ((draws k).1 * (draws k).1 + (draws k).2.1 * (draws k).2.1
            + (draws k).2.2 * (draws k).2.2 < EPS) := by
        rw [← hn]
        exact hacc
      rcases hcase with ⟨hmiss, hs'⟩ | ⟨hhit, o, _, hs'⟩
      · rw [hs']
        intro d' ws b' c' hm
        rcases mem_append_singleton _ _ _ hm with hm' | hm'
        · exact hmem d' ws b' c' hm'
        · cases hm'
          exact ⟨k, hacc', hdk, by rw [hb], fun _ => rfl⟩
      · rw [hs']
        intro d' ws b' c' hm
        rcases mem_append_singleton _ _ _ hm with hm' | hm'
        · exact hmem d' ws b' c' hm'
        · cases hm'
          exact ⟨k, hacc', hdk, by rw [hb], fun hc => absurd hc hhit⟩
  · intro d ws b c hm
    simp [loopInit] at hm

end SampleSpec

/-- The hemisphere flip of lines 226-233: the direction is the drawn vector or its
opposite, `vnormsq` is unchanged. -/
theorem diffuseDir_flip (sx sy sz r vx vy vz vnormsq : ℝ) :
    (0 ≤ vx * sx + vy * sy + vz * sz →
      (diffuseDir Real.sqrt sx sy sz r vx vy vz vnormsq).vx = vx ∧
      (diffuseDir Real.sqrt sx sy sz r vx vy vz vnormsq).vy = vy ∧
      (diffuseDir Real.sqrt sx sy sz r vx vy vz vnormsq).vz = vz) ∧
    (vx * sx + vy * sy + vz * sz < 0 →
      (diffuseDir Real.sqrt sx sy sz r vx vy vz vnormsq).vx = -vx ∧
      (diffuseDir Real.sqrt sx sy sz r vx vy vz vnormsq).vy = -vy ∧
      (diffuseDir Real.sqrt sx sy sz r vx vy vz vnormsq).vz = -vz) ∧
    (diffuseDir Real.sqrt sx sy sz r vx vy vz vnormsq).vnormsq = vnormsq ∧
    (diffuseDir Real.sqrt sx sy sz r vx vy vz vnormsq).vx * sx
        + (diffuseDir Real.sqrt sx sy sz r vx vy vz vnormsq).vy * sy
        + (diffuseDir Real.sqrt sx sy sz r vx vy vz vnormsq).vz * sz
      = |vx * sx + vy * sy + vz * sz| := by
  unfold diffuseDir
  simp only
  refine ⟨fun h => ?_, fun h => ?_, ?_, ?_⟩
  · rw [if_neg (not_lt.mpr h)]
    exact ⟨rfl, rfl, rfl⟩
  · rw [if_pos h]
    exact ⟨rfl, rfl, rfl⟩
  · split_ifs <;> rfl
  · by_cases hdot : vx * sx + vy * sy + vz * sz < 0
    · rw [if_pos hdot, abs_of_neg hdot]
      ring
    · rw [if_neg hdot, abs_of_nonneg (not_lt.mp hdot)]

/-- In every returning call the recorded `weightsum`s never decrease, every diffuse sample
has `0 <= weight <= weightsum`, and it comes from an accepted vector of the stream. -/
theorem colorsat_diffuse_loop (objs : List (Sphere ℝ))
    (lights : List (Light ℝ)) (draws : Nat → ℝ × ℝ × ℝ) (rfuel fuel : Nat) (objnum : Int)
    (fx fy fz px py pz : ℝ) (depth : Int) (significance : ℝ) (rng : Nat) (out : Out ℝ)
    (hscene : ∀ o ∈ objs, 0 < o.r)
    (h : colorsat Real.sqrt Real.exp objs lights draws rfuel fuel objnum fx fy fz px py pz
      depth significance rng = .ok out) :
    List.Pairwise (fun a b => a ≤ b) (diffuseSums out.samples) ∧
    ∀ d ws b c, Sample.diffuse d ws b c ∈ out.samples →
      0 ≤ d.weight ∧ d.weight ≤ ws ∧
      ∃ (o : Sphere ℝ) (k : Nat), objs[objnum.toNat]? = some o ∧
        EPS ≤ (draws k).1 * (draws k).1 + (draws k).2.1 * (draws k).2.1
            + (draws k).2.2 * (draws k).2.2 ∧
        d = diffuseDir Real.sqrt (px - o.x) (py - o.y) (pz - o.z) o.r
              (draws k).1 (draws k).2.1 (draws k).2.2
              ((draws k).1 * (draws k).1 + (draws k).2.1 * (draws k).2.1
                + (draws k).2.2 * (draws k).2.2) := by
  obtain ⟨hpw, hmem⟩ := colorsat_weightsums Real.exp objs lights draws rfuel fuel objnum
    fx fy fz px py pz depth significance rng out hscene h
  refine ⟨hpw, ?_⟩
  intro d ws b c hm
  refine ⟨(hmem d ws b c hm).1, (hmem d ws b c hm).2, ?_⟩
  rcases colorsat_ok h with hb | ⟨n, obj, st, _, hd, h0, hobj, hs, _, _⟩
  · rw [hb] at hm
    cases hm
  · obtain ⟨k, hacc, hdk, _, _⟩ := colorsat_diffuse_samples hd h0 hobj hs h d ws b c hm
    exact ⟨obj, k, hobj, not_lt.mp hacc, hdk⟩

/-- C17: for a raw random vector `v` with `|v|² >= EPS` at a point `P` of the shaded
sphere (`|P − C| = r > 0`), the direction `d` after the hemisphere flip is `v` when
`v·(P − C) >= 0` and `−v` otherwise, so `|d|² = |v|² >= EPS`, the divisor `r·|d|` is
positive and `d·(P − C) = |v·(P − C)| >= 0`; the weight is `d·(P − C)/(r·|d|)`, which is the
dot product of `d` with the unit normal `(P − C)/r` divided by `|d|`, the cosine of the
angle between the two, and lies in `[0, 1]`. In every call of `colorsat` on a scene with
radii `> 0` the values of `weightsum` after the diffuse samples never decrease, and each
diffuse sample has `0 <= weight <= weightsum` and the direction and weight that
`diffuseDir` gives for an accepted vector of the stream; a call that passes both checks
records `floor(2000·s')` of them unless the sphere is fully reflective. -/
theorem C17_diffuse_weight (obj : Sphere ℝ) (px py pz vx vy vz : ℝ) (d : Dir ℝ)
    (hr : 0 < obj.r)
    (hon : distSq px py pz obj.x obj.y obj.z = obj.r * obj.r)
    (hv : EPS ≤ vx * vx + vy * vy + vz * vz)
    (hdir : d = diffuseDir Real.sqrt (px - obj.x) (py - obj.y) (pz - obj.z) obj.r vx vy vz
      (vx * vx + vy * vy + vz * vz)) :
    (0 ≤ vx * (px - obj.x) + vy * (py - obj.y) + vz * (pz - obj.z) →
      d.vx = vx ∧ d.vy = vy ∧ d.vz = vz) ∧
    (vx * (px - obj.x) + vy * (py - obj.y) + vz * (pz - obj.z) < 0 →
      d.vx = -vx ∧ d.vy = -vy ∧ d.vz = -vz) ∧
    d.vnormsq = vx * vx + vy * vy + vz * vz ∧
    d.vnormsq = d.vx * d.vx + d.vy * d.vy + d.vz * d.vz ∧
    0 < obj.r * Real.sqrt d.vnormsq ∧
    0 ≤ d.vx * (px - obj.x) + d.vy * (py - obj.y) + d.vz * (pz - obj.z) ∧
    d.vx * (px - obj.x) + d.vy * (py - obj.y) + d.vz * (pz - obj.z)
      = |vx * (px - obj.x) + vy * (py - obj.y) + vz * (pz - obj.z)| ∧
    d.weight = (d.vx * (px - obj.x) + d.vy * (py - obj.y) + d.vz * (pz - obj.z))
      / (obj.r * Real.sqrt d.vnormsq) ∧
    d.weight = (d.vx * ((px - obj.x) / obj.r) + d.vy * ((py - obj.y) / obj.r)
        + d.vz * ((pz - obj.z) / obj.r))
      / Real.sqrt (d.vx * d.vx + d.vy * d.vy + d.vz * d.vz) ∧
    (px - obj.x) / obj.r * ((px - obj.x) / obj.r)
      + (py - obj.y) / obj.r * ((py - obj.y) / obj.r)
      + (pz - obj.z) / obj.r * ((pz - obj.z) / obj.r) = 1 ∧
    (0 ≤ d.weight ∧ d.weight ≤ 1) ∧
    (∀ (objs : List (Sphere ℝ)) (lights : List (Light ℝ)) (draws : Nat → ℝ × ℝ × ℝ)
        (rfuel fuel : Nat) (objnum : Int) (fx fy fz qx qy qz : ℝ) (depth : Int)
        (significance : ℝ) (rng : Nat) (out : Out ℝ),
      (∀ o ∈ objs, 0 < o.r) →
      colorsat Real.sqrt Real.exp objs lights draws rfuel fuel objnum fx fy fz qx qy qz depth
        significance rng = .ok out →
      List.Pairwise (fun a b => a ≤ b) (diffuseSums out.samples) ∧
      (∀ e ws b c, Sample.diffuse e ws b c ∈ out.samples →
        0 ≤ e.weight ∧ e.weight ≤ ws ∧
        ∃ (o : Sphere ℝ) (k : Nat), objs[objnum.toNat]? = some o ∧
          EPS ≤ (draws k).1 * (draws k).1 + (draws k).2.1 * (draws k).2.1
              + (draws k).2.2 * (draws k).2.2 ∧
          e = diffuseDir Real.sqrt (qx - o.x) (qy - o.y) (qz - o.z) o.r
                (draws k).1 (draws k).2.1 (draws k).2.2
                ((draws k).1 * (draws k).1 + (draws k).2.1 * (draws k).2.1
                  + (draws k).2.2 * (draws k).2.2)) ∧
      ∀ o : Sphere ℝ, depth ≤ MAX_DEPTH → 0 ≤ objnum → objs[objnum.toNat]? = some o →
        NEGLIGIBLE_SIGNIFICANCE < significance * minSig o →
        diffuseCount out.samples
          = (if o.reflectivity > 1 - EPS then 0
             else ⌊2000 * (significance * minSig o)⌋.toNat)) := by
  have hs : (px - obj.x) * (px - obj.x) + (py - obj.y) * (py - obj.y)
      + (pz - obj.z) * (pz - obj.z) = obj.r * obj.r := by
    unfold distSq at hon
    exact hon
  obtain ⟨f1, f2, f3, f4⟩ := diffuseDir_flip (px - obj.x) (py - obj.y) (pz - obj.z) obj.r
    vx vy vz (vx * vx + vy * vy + vz * vz)
  obtain ⟨g1, g2, g3, g4, g5⟩ := diffuseDir_facts (px - obj.x) (py - obj.y) (pz - obj.z)
    obj.r vx vy vz hr hs (not_lt.mpr hv)
  rw [← hdir] at f1 f2 f3 f4 g1 g2 g3 g4 g5
  have hA : 0 < vx * vx + vy * vy + vz * vz := lt_of_lt_of_le eps_pos hv
  have hq : 0 < Real.sqrt d.vnormsq := by
    rw [f3]
    exact Real.sqrt_pos.mpr hA
  have hden : 0 < obj.r * Real.sqrt d.vnormsq := mul_pos hr hq
  have hw : d.weight = (d.vx * (px - obj.x) + d.vy * (py - obj.y) + d.vz * (pz - obj.z))
      / (obj.r * Real.sqrt d.vnormsq) := by
    rw [g2, f3]
  refine ⟨f1, f2, f3, g5, hden, g1, f4, hw, ?_,
    normal_unit _ _ _ _ _ _ _ (ne_of_gt hr) hon, ⟨g3, g4⟩, ?_⟩
  · rw [hw, ← g5]
    have hr0 : obj.r ≠ 0 := ne_of_gt hr
    have hq0 : Real.sqrt d.vnormsq ≠ 0 := ne_of_gt hq
    field_simp
  · intro objs lights draws rfuel fuel objnum fx fy fz qx qy qz depth significance rng out
      hscene h
    obtain ⟨hpw, hmem⟩ := colorsat_diffuse_loop objs lights draws rfuel fuel objnum
      fx fy fz qx qy qz depth significance rng out hscene h
    refine ⟨hpw, hmem, ?_⟩
    intro o hdp h0 hobj hsig
    have hc := (colorsat_sample_counts (not_lt.mpr hdp) h0 hobj (not_le.mpr hsig) h).1
    rw [(sample_size_floor _ (not_le.mpr hsig)).1] at hc
    exact hc

/-- Witness for C17: sphere 2 of the scene of the source at its point nearest to the
origin, with the drawn vector `(0, 0, 1)`, which points into the sphere and is flipped to
`(0, 0, -1)`; the weight is 1. -/
theorem C17_diffuse_weight_witness :
    (diffuseDir Real.sqrt (12 / 10 - 12 / 10) (1 - 1) (39 / 10 - 45 / 10) (6 / 10) 0 0 1
        (0 * 0 + 0 * 0 + 1 * 1)).vz = -1 ∧
    (diffuseDir Real.sqrt (12 / 10 - 12 / 10) (1 - 1) (39 / 10 - 45 / 10) (6 / 10) 0 0 1
        (0 * 0 + 0 * 0 + 1 * 1)).weight = 1 := by
  obtain ⟨_, f2, f3, _, _, _, f4, hw, _⟩ :=
    C17_diffuse_weight ⟨12 / 10, 1, 45 / 10, 6 / 10, 0, ⟨5 / 10, 9 / 10, 5 / 10⟩⟩
      (12 / 10) 1 (39 / 10) 0 0 1 _ (by norm_num) (by unfold distSq; norm_num)
      (by unfold EPS; norm_num) rfl
  refine ⟨(f2 (by norm_num)).2.2, ?_⟩
  rw [hw, f4, f3]
  have habs : |(0 : ℝ) * (12 / 10 - 12 / 10) + 0 * (1 - 1) + 1 * (39 / 10 - 45 / 10)|
      = 6 / 10 := by
    rw [abs_of_neg (by norm_num)]
    norm_num
  rw [habs]
  norm_num

theorem diffuseDir_weight_abs (sx sy sz r vx vy vz vnormsq : ℝ) :
    (diffuseDir Real.sqrt sx sy sz r vx vy vz vnormsq).weight
      = |vx * sx + vy * sy + vz * sz| / (r * Real.sqrt vnormsq) := by
  unfold diffuseDir
  simp only
  by_cases hdot : vx * sx + vy * sy + vz * sz < 0
  · rw [if_pos hdot, abs_of_neg hdot]
  · rw [if_neg hdot, abs_of_nonneg (not_lt.mp hdot)]

theorem draws_recur_down : DrawsRecur (fun _ : Nat => ((0 : ℝ), (0 : ℝ), (-1 : ℝ))) := by
  intro n
  refine ⟨n, le_refl n, ?_⟩
  simp only [EPS]
  norm_num

/-- Sphere 2 of the scene of the source at its point nearest to the origin, with the drawn
vector `(0, 0, -1)`: the direction is kept, the weight is 1, the ray misses every other
sphere, and the background along it is `gradient(0)`. -/
theorem diffuse_example_sample :
    diffuseDir Real.sqrt (12 / 10 - 12 / 10) (1 - 1) (39 / 10 - 45 / 10) (6 / 10) 0 0 (-1)
        ((0 : ℝ) * 0 + 0 * 0 + (-1) * (-1)) = ⟨0, 0, -1, 1, 1⟩ ∧
    (scan Real.sqrt objects 2 (12 / 10) 1 (39 / 10) 0 0 (-1) 1 0).bestobj = -1 ∧
    background Real.sqrt Real.exp 0 0 (-1) = gradient Real.exp 0 ∧
    (sample_size ((1 : ℝ) * minSig (⟨12 / 10, 1, 45 / 10, 6 / 10, 0,
        ⟨5 / 10, 9 / 10, 5 / 10⟩⟩ : Sphere ℝ))).toNat = 1000 := by
  refine ⟨?_, ?_, ?_, ?_⟩
  · unfold diffuseDir
    norm_num
  · simp only [scan, scanLoop, scanBody, objects]
    norm_num
  · unfold background
    norm_num [EPS]
  · rw [(sample_size_floor _ (not_le.mpr diffuse_example_facts.2)).1]
    unfold minSig
    have : (2000 : ℝ) * (1 * min (min (5 / 10 : ℝ) (9 / 10)) (5 / 10)) = (1000 : ℤ) := by
      norm_num
    rw [this, Int.floor_intCast]
    rfl

/-- C20: in a call of `colorsat` that passes both termination checks, the value returned is
the rest of the function (light loop, blend, tint) run on the diffuse term of the final
loop state `st`, whose `weightsum` is the sum of the weights of the diffuse samples of the
call. There are `floor(2000·s')` of them unless the sphere is fully reflective, each with
the direction and the weight `|v·(P − C)|/(r·|v|)` of an accepted vector `v` of the stream
and, on a miss, the background colour along it. If `weightsum > EPS`, every weight is
`>= 0`, the diffuse term is `Σ(weight_i · colour_i) / Σ weight_i` channel by channel, and
each channel lies between any lower and upper bound of that channel over the sample
colours; if `weightsum <= EPS` the diffuse term is zero. With draws that never stay
degenerate the call returns. -/
theorem C20_diffuse_weighted_average (objs : List (Sphere ℝ)) (lights : List (Light ℝ))
    (draws : Nat → ℝ × ℝ × ℝ) (objnum : Int) (fx fy fz px py pz : ℝ) (depth : Int)
    (significance : ℝ) (rng : Nat) (obj : Sphere ℝ)
    (hd : depth ≤ MAX_DEPTH) (h0 : 0 ≤ objnum) (hobj : objs[objnum.toNat]? = some obj)
    (hs : NEGLIGIBLE_SIGNIFICANCE < significance * minSig obj) :
    (∀ (rfuel fuel : Nat) (out : Out ℝ),
      colorsat Real.sqrt Real.exp objs lights draws rfuel fuel objnum fx fy fz px py pz depth
        significance rng = .ok out →
      ∃ st : LoopState ℝ,
        out = finishFrom Real.sqrt objs lights objnum obj px py pz st (diffuseTerm st) ∧
        st.weightsum = weightTotal out.samples ∧
        diffuseCount out.samples
          = (if obj.reflectivity > 1 - EPS then 0
             else ⌊2000 * (significance * minSig obj)⌋.toNat) ∧
        (∀ d ws b c, Sample.diffuse d ws b c ∈ out.samples →
          ∃ k : Nat,
            EPS ≤ (draws k).1 * (draws k).1 + (draws k).2.1 * (draws k).2.1
                + (draws k).2.2 * (draws k).2.2 ∧
            d = diffuseDir Real.sqrt (px - obj.x) (py - obj.y) (pz - obj.z) obj.r
                  (draws k).1 (draws k).2.1 (draws k).2.2
                  ((draws k).1 * (draws k).1 + (draws k).2.1 * (draws k).2.1
                    + (draws k).2.2 * (draws k).2.2) ∧
            d.weight = |(draws k).1 * (px - obj.x) + (draws k).2.1 * (py - obj.y)
                  + (draws k).2.2 * (pz - obj.z)|
                / (obj.r * Real.sqrt ((draws k).1 * (draws k).1
                    + (draws k).2.1 * (draws k).2.1 + (draws k).2.2 * (draws k).2.2)) ∧
            b = (scan Real.sqrt objs objnum px py pz d.vx d.vy d.vz d.vnormsq 0).bestobj ∧
            (b = -1 → c = background Real.sqrt Real.exp d.vx d.vy d.vz)) ∧
        (st.weightsum > EPS →
          (∀ d ws b c, Sample.diffuse d ws b c ∈ out.samples → 0 ≤ d.weight) ∧
          (diffuseTerm st).red = (weightedTotal out.samples).red / weightTotal out.samples ∧
          (diffuseTerm st).green
            = (weightedTotal out.samples).green / weightTotal out.samples ∧
          (diffuseTerm st).blue = (weightedTotal out.samples).blue / weightTotal out.samples ∧
          ∀ lo hi : Color ℝ,
            (∀ d ws b c, Sample.diffuse d ws b c ∈ out.samples →
              (lo.red ≤ c.red ∧ c.red ≤ hi.red) ∧ (lo.green ≤ c.green ∧ c.green ≤ hi.green) ∧
              (lo.blue ≤ c.blue ∧ c.blue ≤ hi.blue)) →
            (lo.red ≤ (diffuseTerm st).red ∧ (diffuseTerm st).red ≤ hi.red) ∧
            (lo.green ≤ (diffuseTerm st).green ∧ (diffuseTerm st).green ≤ hi.green) ∧
            (lo.blue ≤ (diffuseTerm st).blue ∧ (diffuseTerm st).blue ≤ hi.blue)) ∧
        (st.weightsum ≤ EPS → diffuseTerm st = ⟨0, 0, 0⟩)) ∧
    (DrawsRecur draws →
      ∃ (R : Nat) (out : Out ℝ),
        ∀ rfuel, R ≤ rfuel → ∀ fuel, (MAX_DEPTH + 1 - depth).toNat ≤ fuel →
          colorsat Real.sqrt Real.exp objs lights draws rfuel fuel objnum fx fy fz px py pz
            depth significance rng = .ok out) := by
  refine ⟨?_, ?_⟩
  · intro rfuel fuel out h
    obtain ⟨st, hout, hw, hr, hg, hb, hneg, hpos⟩ :=
      colorsat_diffuse_totals (not_lt.mpr hd) h0 hobj (not_le.mpr hs) h
    have hcount := (colorsat_sample_counts (not_lt.mpr hd) h0 hobj (not_le.mpr hs) h).1
    rw [(sample_size_floor _ (not_le.mpr hs)).1] at hcount
    refine ⟨st, ?_, hw, hcount, ?_, ?_, ?_⟩
    · rw [hout, finish_eq_finishFrom]
    · intro d ws b c hm
      obtain ⟨k, hacc, hdk, hbk, hck⟩ :=
        colorsat_diffuse_samples (not_lt.mpr hd) h0 hobj (not_le.mpr hs) h d ws b c hm
      refine ⟨k, not_lt.mp hacc, hdk, ?_, hbk, hck⟩
      rw [hdk]
      exact diffuseDir_weight_abs _ _ _ _ _ _ _ _
    · intro hgt
      have hE : (0 : ℝ) < EPS := eps_pos
      have hwpos : 0 < st.weightsum := lt_trans hE hgt
      have hrpos : 0 < obj.r := by
        by_contra hc
        have := hneg (not_lt.mp hc)
        linarith
      have hT : 0 < weightTotal out.samples := by
        rw [← hw]
        exact hwpos
      have hterm : diffuseTerm st
          = ⟨(weightedTotal out.samples).red / weightTotal out.samples,
             (weightedTotal out.samples).green / weightTotal out.samples,
             (weightedTotal out.samples).blue / weightTotal out.samples⟩ := by
        unfold diffuseTerm
        rw [if_pos hgt, hr, hg, hb, hw]
      refine ⟨hpos hrpos, by rw [hterm], by rw [hterm], by rw [hterm], ?_⟩
      intro lo hi hc
      obtain ⟨⟨r1, r2⟩, ⟨g1, g2⟩, ⟨b1, b2⟩⟩ :=
        weightedTotal_bounds lo hi out.samples (hpos hrpos) hc
      rw [hterm]
      exact ⟨⟨(le_div_iff₀ hT).mpr r1, (div_le_iff₀ hT).mpr r2⟩,
        ⟨(le_div_iff₀ hT).mpr g1, (div_le_iff₀ hT).mpr g2⟩,
        ⟨(le_div_iff₀ hT).mpr b1, (div_le_iff₀ hT).mpr b2⟩⟩
    · intro hle
      unfold diffuseTerm
      rw [if_neg (not_lt.mpr hle)]
  · intro hdraws
    exact colorsat_returns Real.sqrt Real.exp objs lights draws hdraws _ objnum fx fy fz
      px py pz depth significance rng (le_refl _) (Or.inr ⟨h0, obj, hobj⟩)

/-- Witness for C20: sphere 2 of the scene of the source (reflectivity 0, least albedo
channel 0.5) at its point nearest to the origin, depth 0, significance 1, every drawn vector
`(0, 0, -1)`: the call returns, its 1000 diffuse samples have weight 1 and miss every
sphere, `weightsum` is `1000 > EPS`, and the diffuse term is the background `gradient(0)`. -/
theorem C20_diffuse_weighted_average_witness :
    ∃ (R : Nat) (out : Out ℝ),
      (∀ rfuel, R ≤ rfuel → ∀ fuel, (MAX_DEPTH + 1 - 0).toNat ≤ fuel →
        colorsat Real.sqrt Real.exp objects lights (fun _ => (0, 0, -1)) rfuel fuel 2
          0 0 0 (12 / 10) 1 (39 / 10) 0 1 0 = .ok out) ∧
      ∃ st : LoopState ℝ,
        out = finishFrom Real.sqrt objects lights 2
          ⟨12 / 10, 1, 45 / 10, 6 / 10, 0, ⟨5 / 10, 9 / 10, 5 / 10⟩⟩ (12 / 10) 1 (39 / 10) st
          (diffuseTerm st) ∧
        diffuseCount out.samples = 1000 ∧
        st.weightsum = 1000 ∧ st.weightsum > EPS ∧
        diffuseTerm st = gradient Real.exp 0 := by
  obtain ⟨hgen, hret⟩ := C20_diffuse_weighted_average objects lights
    (fun _ => ((0 : ℝ), (0 : ℝ), (-1 : ℝ))) 2 0 0 0 (12 / 10) 1 (39 / 10) 0 1 0
    ⟨12 / 10, 1, 45 / 10, 6 / 10, 0, ⟨5 / 10, 9 / 10, 5 / 10⟩⟩
    (by unfold MAX_DEPTH; decide) (by decide) diffuse_example_facts.1
    diffuse_example_facts.2
  obtain ⟨R, out, hR⟩ := hret draws_recur_down
  obtain ⟨st, hout, hw, hcount, hsamp, hgt, _⟩ := hgen R _ out (hR R (le_refl R) _ (le_refl _))
  obtain ⟨e1, e2, e3, e4⟩ := diffuse_example_sample
  have hnfr : ¬ ((0 : ℝ) > 1 - EPS) := by
    unfold EPS
    norm_num
  have hcount' : diffuseCount out.samples = 1000 := by
    rw [hcount, if_neg hnfr, ← (sample_size_floor _ (not_le.mpr diffuse_example_facts.2)).1]
    exact e4
  have hall : ∀ d ws b c, Sample.diffuse d ws b c ∈ out.samples →
      d = ⟨0, 0, -1, 1, 1⟩ ∧ c = gradient Real.exp 0 := by
    intro d ws b c hm
    obtain ⟨k, _, hdk, _, hbk, hck⟩ := hsamp d ws b c hm
    have hd1 : d = ⟨0, 0, -1, 1, 1⟩ := by
      rw [hdk]
      exact e1
    refine ⟨hd1, ?_⟩
    rw [hd1] at hbk hck
    rw [hck (by rw [hbk]; exact e2)]
    exact e3
  have hW : st.weightsum = 1000 := by
    rw [hw, weightTotal_const 1 out.samples (fun d ws b c hm => by rw [(hall d ws b c hm).1]),
      hcount']
    norm_num
  have hgtE : st.weightsum > EPS := by
    rw [hW]
    unfold EPS
    norm_num
  obtain ⟨_, _, _, _, hbounds⟩ := hgt hgtE
  obtain ⟨⟨r1, r2⟩, ⟨g1, g2⟩, ⟨b1, b2⟩⟩ := hbounds (gradient Real.exp 0) (gradient Real.exp 0)
    (fun d ws b c hm => by
      rw [(hall d ws b c hm).2]
      exact ⟨⟨le_refl _, le_refl _⟩, ⟨le_refl _, le_refl _⟩, ⟨le_refl _, le_refl _⟩⟩)
  refine ⟨R, out, hR, st, hout, hcount', hW, hgtE, ?_⟩
  have hr := le_antisymm r2 r1
  have hg := le_antisymm g2 g1
  have hb := le_antisymm b2 b1
  cases hterm : diffuseTerm st with
  | mk tr tg tb =>
    rw [hterm] at hr hg hb
    simp only at hr hg hb
    cases hgr : gradient Real.exp 0 with
    | mk gr gg gb =>
      rw [hgr] at hr hg hb
      simp only at hr hg hb
      rw [hr, hg, hb]

/-- The running `weightsum` recorded with a diffuse sample is at most the final one, which
is the sum of the weights. -/
theorem colorsat_weightsum_le (objs : List (Sphere ℝ))
    (lights : List (Light ℝ)) (draws : Nat → ℝ × ℝ × ℝ) (rfuel fuel : Nat) (objnum : Int)
    (fx fy fz px py pz : ℝ) (depth : Int) (significance : ℝ) (rng : Nat) (out : Out ℝ)
    (hscene : ∀ o ∈ objs, 0 < o.r)
    (h : colorsat Real.sqrt Real.exp objs lights draws rfuel fuel objnum fx fy fz px py pz
      depth significance rng = .ok out) :
    ∀ d ws b c, Sample.diffuse d ws b c ∈ out.samples → ws ≤ weightTotal out.samples := by
  rcases colorsat_ok h with hb | ⟨n, obj, st, _, _, _, hobj, _, hloop, hout⟩
  · rw [hb]
    intro d ws b c hm
    cases hm
  · have hr := hscene obj (mem_of_getElem?_eq _ _ _ hobj)
    rw [hout]
    show ∀ d ws b c, Sample.diffuse d ws b c ∈ st.samples → ws ≤ weightTotal st.samples
    have hfin := forLoop_inv _
      (fun s : LoopState ℝ => s.weightsum = weightTotal s.samples ∧
        ∀ d ws b c, Sample.diffuse d ws b c ∈ s.samples → ws ≤ weightTotal s.samples)
      ?_ _ _ _ _ ?_ hloop
    · exact hfin.2
    · intro i s s' hinv hbody
      obtain ⟨hw, hmem⟩ := hinv
      rcases sampleBody_ok hbody with hsame | ⟨_, _, hrf⟩ | ⟨_, _, hdf⟩
      · rw [hsame]
        exact ⟨hw, hmem⟩
      · obtain ⟨b, c, hsamp, _, hws, _⟩ := reflectStep_samples hrf
        rw [hsamp, hws, weightTotal_append]
        simp only [weightTotal, add_zero]
        refine ⟨hw, ?_⟩
        intro d ws b' c' hm
        rcases mem_append_singleton _ _ _ hm with hm' | hm'
        · exact hmem d ws b' c' hm'
        · cases hm'
      · obtain ⟨dr, d, b, c, _, hd, hsamp, hws, _⟩ := diffuseStep_samples hdf
        have hwd : 0 ≤ d.weight := by
          rw [hd]
          exact diffuseDir_weight_nonneg _ _ _ _ _ _ _ _ hr
        rw [hsamp, hws, weightTotal_append]
        simp only [weightTotal, add_zero]
        refine ⟨by rw [hw], ?_⟩
        intro d' ws b' c' hm
        rcases mem_append_singleton _ _ _ hm with hm' | hm'
        · have := hmem d' ws b' c' hm'
          linarith
        · cases hm'
          rw [hw]
    · refine ⟨?_, ?_⟩
      · simp [loopInit, weightTotal]
      · intro d ws b c hm
        simp [loopInit] at hm

/-- Sphere 3 of the scene of the source at its point `(-0.6, 1.1, 2)`, where the outward
direction is `(0.6, 0, 0)`, with the drawn vector `(0, 0, 1)`: the vector is tangent, the
weight is 0, and the ray hits sphere 0. -/
theorem tangent_example_facts :
    (objects : List (Sphere ℝ))[(3 : Int).toNat]?
      = some ⟨-12 / 10, 11 / 10, 2, 6 / 10, 0, ⟨5 / 10, 9 / 10, 5 / 10⟩⟩ ∧
    NEGLIGIBLE_SIGNIFICANCE < (1 : ℝ) * minSig (⟨-12 / 10, 11 / 10, 2, 6 / 10, 0,
        ⟨5 / 10, 9 / 10, 5 / 10⟩⟩ : Sphere ℝ) ∧
    diffuseDir Real.sqrt (-6 / 10 - -12 / 10) (11 / 10 - 11 / 10) (2 - 2) (6 / 10) 0 0 1
        ((0 : ℝ) * 0 + 0 * 0 + 1 * 1) = ⟨0, 0, 1, 1, 0⟩ ∧
    (scan Real.sqrt objects 3 (-6 / 10) (11 / 10) 2 0 0 1 1 0).bestobj = 0 ∧
    (sample_size ((1 : ℝ) * minSig (⟨-12 / 10, 11 / 10, 2, 6 / 10, 0,
        ⟨5 / 10, 9 / 10, 5 / 10⟩⟩ : Sphere ℝ))).toNat = 1000 := by
  have hneg : NEGLIGIBLE_SIGNIFICANCE < (1 : ℝ) * minSig (⟨-12 / 10, 11 / 10, 2, 6 / 10, 0,
        ⟨5 / 10, 9 / 10, 5 / 10⟩⟩ : Sphere ℝ) := by
    unfold minSig NEGLIGIBLE_SIGNIFICANCE
    norm_num
  refine ⟨rfl, hneg, ?_, ?_, ?_⟩
  · unfold diffuseDir
    norm_num
  · obtain ⟨hiff, hhit⟩ := scan_spec Real.sqrt (objects : List (Sphere ℝ)) 3
      (-6 / 10) (11 / 10) 2 0 0 1 1 0
    have hsq : Real.sqrt (9 / 5) < 5 := by
      rw [Real.sqrt_lt' (by norm_num)]
      norm_num
    have hcand : Cand Real.sqrt (objects : List (Sphere ℝ)) 3 (-6 / 10) (11 / 10) 2 0 0 1 1 0
        (nearRoot Real.sqrt ⟨-12 / 10, 11 / 10, 45 / 10, 9 / 10, 1,
          ⟨95 / 100, 95 / 100, 95 / 100⟩⟩ (-6 / 10) (11 / 10) 2 0 0 1 1) := by
      have hdesc : quadDesc (⟨-12 / 10, 11 / 10, 45 / 10, 9 / 10, 1,
          ⟨95 / 100, 95 / 100, 95 / 100⟩⟩ : Sphere ℝ) (-6 / 10) (11 / 10) 2 0 0 1 1
          = 9 / 5 := by
        norm_num [quadDesc, quadB, quadC]
      have hB : quadB (⟨-12 / 10, 11 / 10, 45 / 10, 9 / 10, 1,
          ⟨95 / 100, 95 / 100, 95 / 100⟩⟩ : Sphere ℝ) (-6 / 10) (11 / 10) 2 0 0 1
          = -5 := by
        norm_num [quadB]
      refine ⟨⟨-12 / 10, 11 / 10, 45 / 10, 9 / 10, 1, ⟨95 / 100, 95 / 100, 95 / 100⟩⟩,
        rfl, by decide, ?_, rfl, ?_⟩
      · rw [hdesc]
        norm_num
      · unfold nearRoot
        rw [hdesc, hB]
        exact div_pos (by linarith) (by norm_num)
    have hne : (scan Real.sqrt (objects : List (Sphere ℝ)) 3 (-6 / 10) (11 / 10) 2 0 0 1 1
        0).bestobj ≠ -1 := fun hc => (hiff.mp hc) ⟨_, _, hcand⟩
    obtain ⟨k, hk, hk3, ⟨o, hget, _, hdesc, _, _⟩, _⟩ := hhit hne
    rw [hk]
    rcases k with _ | _ | _ | _ | _ | k
    · rfl
    · exfalso
      simp only [objects, List.getElem?_cons_succ, List.getElem?_cons_zero,
        Option.some.injEq] at hget
      rw [← hget] at hdesc
      norm_num [quadDesc, quadB, quadC] at hdesc
    · exfalso
      simp only [objects, List.getElem?_cons_succ, List.getElem?_cons_zero,
        Option.some.injEq] at hget
      rw [← hget] at hdesc
      norm_num [quadDesc, quadB, quadC] at hdesc
    · exact absurd rfl hk3
    · exfalso
      simp only [objects, List.getElem?_cons_succ, List.getElem?_cons_zero,
        Option.some.injEq] at hget
      rw [← hget] at hdesc
      norm_num [quadDesc, quadB, quadC] at hdesc
    · exfalso
      simp [objects] at hget
  · rw [(sample_size_floor _ (not_le.mpr hneg)).1]
    unfold minSig
    have : (2000 : ℝ) * (1 * min (min (5 / 10 : ℝ) (9 / 10)) (5 / 10)) = (1000 : ℤ) := by
      norm_num
    rw [this, Int.floor_intCast]
    rfl

theorem draws_recur_up : DrawsRecur (fun _ : Nat => ((0 : ℝ), (0 : ℝ), (1 : ℝ))) := by
  intro n
  refine ⟨n, le_refl n, ?_⟩
  simp only [EPS]
  norm_num

/-- C6, failing input: `colorsat` on sphere 3 of the scene of the source (reflectivity 0,
least albedo channel 0.5) at its point `(-0.6, 1.1, 2)`, depth 0, significance 1, with every
drawn vector `(0, 0, 1)`. The call returns in the model; each of its 1000 diffuse samples is
tangent to the sphere (`weight = 0`), is recorded with `weightsum = 0` and hits sphere 0, so
the recursive call of line 283 is made with the significance
`0.5·(1 − 0)·weight/weightsum`, a division of zero by zero. -/
theorem C6_tangent_first_draw :
    ∃ (R : Nat) (out : Out ℝ),
      (∀ rfuel, R ≤ rfuel → ∀ fuel, (MAX_DEPTH + 1 - 0).toNat ≤ fuel →
        colorsat Real.sqrt Real.exp objects lights (fun _ => (0, 0, 1)) rfuel fuel 3
          0 0 0 (-6 / 10) (11 / 10) 2 0 1 0 = .ok out) ∧
      diffuseCount out.samples = 1000 ∧
      ∀ d ws b c, Sample.diffuse d ws b c ∈ out.samples →
        d.weight = 0 ∧ ws = 0 ∧ b = 0 ∧
        shareChecked ((1 : ℝ) * minSig (⟨-12 / 10, 11 / 10, 2, 6 / 10, 0,
          ⟨5 / 10, 9 / 10, 5 / 10⟩⟩ : Sphere ℝ)) 0 d.weight ws = none := by
  obtain ⟨hobj, hs, e1, e2, e4⟩ := tangent_example_facts
  have hd : ¬ (0 : Int) > MAX_DEPTH := by
    unfold MAX_DEPTH
    decide
  obtain ⟨R, out, hR⟩ := colorsat_returns Real.sqrt Real.exp objects lights
    (fun _ => ((0 : ℝ), (0 : ℝ), (1 : ℝ))) draws_recur_up (MAX_DEPTH + 1 - 0).toNat 3
    0 0 0 (-6 / 10) (11 / 10) 2 0 1 0 (le_refl _) (Or.inr ⟨by decide, _, hobj⟩)
  have h := hR R (le_refl R) _ (le_refl _)
  have hcount := (colorsat_sample_counts hd (by decide) hobj (not_le.mpr hs) h).1
  have hnfr : ¬ ((0 : ℝ) > 1 - EPS) := by
    unfold EPS
    norm_num
  have hcount' : diffuseCount out.samples = 1000 := by
    rw [hcount]
    simp only [hnfr, if_false]
    exact e4
  have hall : ∀ d ws b c, Sample.diffuse d ws b c ∈ out.samples →
      d = ⟨0, 0, 1, 1, 0⟩ ∧ b = 0 := by
    intro d ws b c hm
    obtain ⟨k, _, hdk, hbk, _⟩ :=
      colorsat_diffuse_samples hd (by decide) hobj (not_le.mpr hs) h d ws b c hm
    have hd1 : d = ⟨0, 0, 1, 1, 0⟩ := by
      rw [hdk]
      exact e1
    refine ⟨hd1, ?_⟩
    rw [hd1] at hbk
    rw [hbk]
    exact e2
  have hscene : ∀ o ∈ (objects : List (Sphere ℝ)), 0 < o.r := fun o ho => (objects_ok o ho).1
  have htot : weightTotal out.samples = 0 := by
    rw [weightTotal_const 0 out.samples (fun d ws b c hm => by rw [(hall d ws b c hm).1])]
    ring
  refine ⟨R, out, hR, hcount', ?_⟩
  intro d ws b c hm
  have hw0 : d.weight = 0 := by rw [(hall d ws b c hm).1]
  have hle := colorsat_weightsum_le objects lights _ R _ 3 0 0 0 (-6 / 10) (11 / 10) 2 0 1 0
    out hscene h d ws b c hm
  have hge := (colorsat_weightsums Real.exp objects lights _ R _ 3 0 0 0 (-6 / 10) (11 / 10)
    2 0 1 0 out hscene h).2 d ws b c hm
  have hws : ws = 0 := by
    rw [htot] at hle
    rw [hw0] at hge
    exact le_antisymm hle hge.2
  refine ⟨hw0, hws, (hall d ws b c hm).2, ?_⟩
  unfold shareChecked
  rw [if_pos hws]

/-- C16, amended: a call that passes both termination checks, with `s'` the significance
after multiplication by the least albedo channel and `0.001 < s' <= 1`, has
`sample_size = floor(2000·s')` between 2 and 2000 (the conversion to `int` is in range)
and runs `floor(2000·s')` passes plus one if `reflectivity >= EPS`; it processes
`floor(2000·s')` diffuse samples if `reflectivity <= 1 − EPS` and none otherwise, one
reflection sample if `reflectivity >= EPS` and none otherwise. With draws that never stay
degenerate the call returns. -/
theorem C16_sample_counts {F : Type} [LinearOrderedField F] [FloorRing F]
    (sqrt exp : F → F) (objs : List (Sphere F)) (lights : List (Light F))
    (draws : Nat → F × F × F) (objnum : Int) (fx fy fz px py pz : F) (depth : Int)
    (significance : F) (rng : Nat) (obj : Sphere F)
    (hd : depth ≤ MAX_DEPTH) (h0 : 0 ≤ objnum) (hobj : objs[objnum.toNat]? = some obj)
    (hs : NEGLIGIBLE_SIGNIFICANCE < significance * minSig obj)
    (hs1 : significance * minSig obj ≤ 1) :
    (sample_size (significance * minSig obj) = ⌊2000 * (significance * minSig obj)⌋ ∧
      2 ≤ ⌊2000 * (significance * minSig obj)⌋ ∧
      ⌊2000 * (significance * minSig obj)⌋ ≤ 2000) ∧
    (loopEnd obj (significance * minSig obj)
      = ⌊2000 * (significance * minSig obj)⌋ + (if obj.reflectivity < EPS then 0 else 1)) ∧
    (∀ (rfuel fuel : Nat) (out : Out F),
      colorsat sqrt exp objs lights draws rfuel fuel objnum fx fy fz px py pz depth
        significance rng = .ok out →
      diffuseCount out.samples
        = (if obj.reflectivity > 1 - EPS then 0
           else ⌊2000 * (significance * minSig obj)⌋.toNat) ∧
      reflectCount out.samples = (if obj.reflectivity < EPS then 0 else 1) ∧
      out.samples.length = diffuseCount out.samples + reflectCount out.samples) ∧
    (DrawsRecur draws →
      ∃ (R : Nat) (out : Out F),
        ∀ rfuel, R ≤ rfuel → ∀ fuel, (MAX_DEPTH + 1 - depth).toNat ≤ fuel →
          colorsat sqrt exp objs lights draws rfuel fuel objnum fx fy fz px py pz depth
            significance rng = .ok out) := by
  have hs' : ¬ significance * minSig obj ≤ NEGLIGIBLE_SIGNIFICANCE := not_le.mpr hs
  obtain ⟨hfl, _⟩ := sample_size_floor _ hs'
  refine ⟨⟨hfl, ?_, ?_⟩, ?_, ?_, ?_⟩
  · rw [Int.le_floor]
    unfold NEGLIGIBLE_SIGNIFICANCE at hs
    push_cast
    linarith
  · have h2 : (2000 : F) * (significance * minSig obj) ≤ ((2000 : Int) : F) := by
      push_cast
      linarith
    have := Int.floor_le_floor h2
    rw [Int.floor_intCast] at this
    exact this
  · unfold loopEnd
    rw [hfl]
    by_cases hc : obj.reflectivity < EPS
    · simp [hc]
    · simp [hc]
  · intro rfuel fuel out h
    have hc := colorsat_sample_counts (not_lt.mpr hd) h0 hobj hs' h
    rw [hfl] at hc
    exact ⟨hc.1, hc.2, samples_length_counts _⟩
  · intro hdraws
    exact colorsat_returns sqrt exp objs lights draws hdraws _ objnum fx fy fz px py pz depth
      significance rng (le_refl _) (Or.inr ⟨h0, obj, hobj⟩)

/-- Witness for C16 (amended): sphere 0 of the scene of the source, depth 0,
significance 1, `s' = 0.95`. -/
theorem C16_sample_counts_witness :
    loopEnd (⟨-12 / 10, 11 / 10, 45 / 10, 9 / 10, 1, ⟨95 / 100, 95 / 100, 95 / 100⟩⟩ : Sphere ℝ)
        (1 * minSig (⟨-12 / 10, 11 / 10, 45 / 10, 9 / 10, 1,
          ⟨95 / 100, 95 / 100, 95 / 100⟩⟩ : Sphere ℝ))
      = ⌊(2000 : ℝ) * (1 * minSig (⟨-12 / 10, 11 / 10, 45 / 10, 9 / 10, 1,
          ⟨95 / 100, 95 / 100, 95 / 100⟩⟩ : Sphere ℝ))⌋
        + (if (1 : ℝ) < EPS then 0 else 1) :=
  (C16_sample_counts Real.sqrt Real.exp objects lights (fun _ => (1, 0, 0)) 0
    0 0 0 (-12 / 10) (11 / 10) (36 / 10) 0 1 0
    ⟨-12 / 10, 11 / 10, 45 / 10, 9 / 10, 1, ⟨95 / 100, 95 / 100, 95 / 100⟩⟩
    (by unfold MAX_DEPTH; decide) (le_refl _) rfl
    (not_le.mp mirror_example_facts.2.2.2.1)
    (by unfold minSig; norm_num)).2.1

/-- Significance handed down where line 283 does not divide by zero: in a scene whose
spheres have radius `> 0`, reflectivity in `[0,1]` and albedo channels in `[0,1]`, a call of
`colorsat` with significance `≥ 0` hands to every recorded call a depth one larger than the
caller's; on the reflection branch the significance `sig·minAlbedo·reflectivity`, between
`0` and the one the caller received; on a diffuse branch
`sig·minAlbedo·(1−reflectivity)·w/ws` with `0 ≤ w ≤ ws`, between `0` and the one the caller
received whenever `ws ≠ 0`. -/
theorem significance_monotone_defined (objs : List (Sphere ℝ)) (lights : List (Light ℝ))
    (draws : Nat → ℝ × ℝ × ℝ) (objnum : Int) (fx fy fz px py pz : ℝ) (depth : Int)
    (significance : ℝ) (rng : Nat)
    (hscene : ∀ o ∈ objs, 0 < o.r ∧ 0 ≤ o.reflectivity ∧ o.reflectivity ≤ 1 ∧
      0 ≤ o.col.red ∧ o.col.red ≤ 1 ∧ 0 ≤ o.col.green ∧ o.col.green ≤ 1 ∧
      0 ≤ o.col.blue ∧ o.col.blue ≤ 1)
    (hsig : 0 ≤ significance) (rfuel fuel : Nat) (out : Out ℝ)
    (h : colorsat Real.sqrt Real.exp objs lights draws rfuel fuel objnum fx fy fz px py pz
      depth significance rng = .ok out) :
    ∀ e ∈ out.edges,
      e.cdepth = e.pdepth + 1 ∧
      ∃ o, 0 ≤ e.pobj ∧ objs[e.pobj.toNat]? = some o ∧
        (e.reflective = true →
          e.csig = e.psig * minSig o * o.reflectivity ∧ 0 ≤ e.csig ∧ e.csig ≤ e.psig) ∧
        (e.reflective = false → ∃ w ws, 0 ≤ w ∧ w ≤ ws ∧
          e.csig = e.psig * minSig o * (1 - o.reflectivity) * w / ws ∧
          (ws ≠ 0 → 0 ≤ e.csig ∧ e.csig ≤ e.psig)) := by
  intro e he
  exact colorsat_edges_sig Real.exp objs lights draws rfuel hscene fuel objnum fx fy fz
    px py pz depth significance rng out hsig h e he


end Raytracer
